import Mathlib

/-!
# Resize-inode construction (`lib/ext2fs/res_gdt.c`)

A shallow embedding of `ext2fs_create_resize_inode`.  The C function works on
local buffers (the inode, the double-indirect block, the current primary
reservation block) and talks to collaborators (memory, inode store, block
allocator, block device, clock, backup-group enumerator).  The embedding
threads one `Machine` record holding the local variables, the storage and a
chronological log of every collaborator call and every message the function
prints.  Machine integers are naturals reduced modulo `2^32` (or `2^64`)
where the C type is `__u32` / `blk_t` / `unsigned int` (or
`unsigned long long`); error codes (`errcode_t`, a signed `long`) are
integers.
-/

namespace ResGdt

/-- Number of values of a 32-bit unsigned integer (`__u32`, `blk_t`). -/
def U32 : Nat := 4294967296

/-- Number of values of `unsigned long long`. -/
def U64 : Nat := 18446744073709551616

/-- Modelled from the spec: the constant `EXT2_ET_MAGIC_EXT2FS_FILSYS` is
declared in the generated header `ext2_err.h`, absent here; it is the magic
number of an open filesystem handle and the error code returned for any other
handle. -/
def EXT2_ET_MAGIC_EXT2FS_FILSYS : Int := 2133571329

/-- Modelled from the spec: `LINUX_S_IFREG` (regular file) from `ext2_fs.h`. -/
def LINUX_S_IFREG : Nat := 0o100000

/-- Modelled from the spec: `EXT2_NDIR_BLOCKS`, the twelve direct pointers. -/
def EXT2_NDIR_BLOCKS : Nat := 12

/-- Modelled from the spec: `EXT2_DIND_BLOCK`, the index of the double-indirect
pointer in `i_block` (after twelve direct and one indirect pointer). -/
def EXT2_DIND_BLOCK : Nat := 13

/-- Modelled from the spec: `EXT2_FEATURE_RO_COMPAT_LARGE_FILE`, the
large-file bit of the read-only-compatible feature flags. -/
def EXT2_FEATURE_RO_COMPAT_LARGE_FILE : Nat := 2

/-- The fields of `struct ext2_super_block` the function uses. -/
structure ext2_super_block where
  s_reserved_gdt_blocks : Nat
  s_first_data_block : Nat
  s_blocks_per_group : Nat
  s_log_block_size : Nat
  s_feature_ro_compat : Nat
  deriving DecidableEq, Repr

/-- The fields of `struct ext2_inode` the function uses. -/
structure ext2_inode where
  i_mode : Nat
  i_links_count : Nat
  i_size : Nat
  i_size_high : Nat
  i_atime : Nat
  i_ctime : Nat
  i_mtime : Nat
  i_blocks : Nat
  i_block : Nat → Nat

/-- The fields of the filesystem handle (`struct struct_ext2_filsys`) the
function uses. -/
structure ext2_filsys where
  magic : Int
  super : ext2_super_block
  blocksize : Nat
  desc_blocks : Nat
  inode_blocks_per_group : Nat
  group_desc_count : Nat
  deriving DecidableEq, Repr

/-- Modelled from the spec: the macro `EXT2_ADDR_PER_BLOCK` of `ext2_fs.h`,
absent here: the number of block addresses in one block, the superblock's
block size (`1024 << s_log_block_size`) divided by the pointer size 4. -/
def EXT2_ADDR_PER_BLOCK (sb : ext2_super_block) : Nat :=
  (1024 <<< sb.s_log_block_size) / 4

/-- The two halves of the allocated memory: a block read or write is handed
either the double-indirect buffer or the primary-block buffer. -/
inductive Buf where
  | dindir_buf
  | gdt_buf
  deriving DecidableEq, Repr

/-- A collaborator call or a printed message, in the order of execution.
The `dbg_*` messages are the ones under `RES_GDT_DEBUG`.  A block read or
write records the block number, the buffer passed and the result. -/
inductive Event where
  | get_mem (err : Int)
  | read_inode (err : Int)
  | alloc_block (goal : Nat) (err : Int) (blk : Nat)
  | read_blk (blk : Nat) (buf : Buf) (err : Int)
  | write_blk (blk : Nat) (buf : Buf) (err : Int)
  | write_inode (err : Int)
  | time (t : Nat)
  | msg_reading_dindir (dindir_blk : Nat)
  | dbg_allocated_dindir (dindir_blk : Nat)
  | dbg_added_primary (gdt_blk dindir_blk gdt_off : Nat)
  | msg_reading_primary (gdt_blk : Nat)
  | msg_bad_primary (found gdt_blk dindir_blk gdt_off : Nat)
  | dbg_added_backup (expect grp gdt_blk last : Nat)
  | msg_bad_backup (found expect gdt_blk last : Nat)
  | dbg_writing_primary (gdt_blk : Nat)
  | msg_inode (i_blocks i_size : Nat)
  deriving DecidableEq, Repr

/-- The collaborators.  Each error oracle sees the log so far, so that the
same call may succeed once and fail later; result `0` is success.
`list_backups` is `ext2fs_list_backups`: from the filesystem and the three
counters it gives the group and the advanced counters. -/
structure Env where
  get_mem : List Event → Int
  read_inode : List Event → Int
  alloc_block : List Event → Nat → Int × Nat
  read_blk : List Event → Nat → Int
  write_blk : List Event → Nat → Int
  write_inode : List Event → Int
  time : List Event → Nat
  list_backups : ext2_filsys → Nat → Nat → Nat → Nat × Nat × Nat × Nat

/-- Storage, log and the local variables of `ext2fs_create_resize_inode`.
`blocks a` is the content of block `a` as an array of 32-bit entries,
`disk_inode` the stored resize inode (`EXT2_RESIZE_INO`).  A successful write
replaces the stored block or inode, a failed one leaves it as it was; a read
returns what is stored. -/
structure Machine where
  fs : ext2_filsys
  blocks : Nat → Nat → Nat
  disk_inode : ext2_inode
  trace : List Event
  inode : ext2_inode
  dindir_buf : Nat → Nat
  gdt_buf : Nat → Nat
  dindir_blk : Nat
  dindir_dirty : Bool
  inode_dirty : Bool

/-- Array store `buf[i] = v`. -/
def setEntry (buf : Nat → Nat) (i v : Nat) : Nat → Nat :=
  fun j => if j = i then v else buf j

/-- Storage after a successful write of `buf` to block `a`. -/
def setBlock (blocks : Nat → Nat → Nat) (a : Nat) (buf : Nat → Nat) : Nat → Nat → Nat :=
  fun b => if b = a then buf else blocks b

/-- Append one event to the log. -/
def Machine.log (m : Machine) (e : Event) : Machine :=
  { m with trace := m.trace ++ [e] }

/-- The label `out_free`: release the buffers and return `retval`. -/
def out_free (retval : Int) (m : Machine) : Int × Machine :=
  (retval, m)

/-- The label `out_inode`: print the summary line and, when the inode is
dirty, stamp access and modify time and write it; a write error is kept only
when no error came before. -/
def out_inode (env : Env) (retval : Int) (m : Machine) : Int × Machine :=
  let m := m.log (Event.msg_inode m.inode.i_blocks m.inode.i_size)
  if m.inode_dirty then
    let t := env.time m.trace
    let m := m.log (Event.time t)
    let m := { m with inode := { m.inode with i_atime := t % U32, i_mtime := t % U32 } }
    let retval2 := env.write_inode m.trace
    let m := m.log (Event.write_inode retval2)
    let m := if retval2 = 0 then { m with disk_inode := m.inode } else m
    out_free (if retval = 0 then retval2 else retval) m
  else
    out_free retval m

/-- The label `out_dindir`: write the double-indirect block when it is dirty,
keeping a write error only when no error came before, then fall through to
`out_inode`. -/
def out_dindir (env : Env) (retval : Int) (m : Machine) : Int × Machine :=
  if m.dindir_dirty then
    let retval2 := env.write_blk m.trace m.dindir_blk
    let m := m.log (Event.write_blk m.dindir_blk Buf.dindir_buf retval2)
    let m := if retval2 = 0 then { m with blocks := setBlock m.blocks m.dindir_blk m.dindir_buf } else m
    out_inode env (if retval = 0 then retval2 else retval) m
  else
    out_inode env retval m

/-- The `while` loop over the backup groups of one slot (lines 127-146).
`fuel` bounds the number of enumerator calls; `none` means the bound was
reached.  The result is the value of `retval` set by the loop (`0` when the
loop ran to its end, `-1` at a bad entry, after which control goes to
`out_dindir`), the flag `gdt_dirty` and the machine. -/
def backup_loop (env : Env) (gdt_blk rsv_add : Nat) :
    Nat → Nat → Nat → Nat → Nat → Bool → Machine → Option (Int × Bool × Machine)
  | 0, _, _, _, _, _, _ => none
  | fuel + 1, three, five, seven, last, gdt_dirty, m =>
    let r := env.list_backups m.fs three five seven
    let grp := r.1
    if grp < m.fs.group_desc_count then
      let expect := (gdt_blk + grp * m.fs.super.s_blocks_per_group) % U32
      if m.gdt_buf last = 0 then
        let m := m.log (Event.dbg_added_backup expect grp gdt_blk last)
        let m := { m with
          gdt_buf := setEntry m.gdt_buf last expect,
          inode := { m.inode with i_blocks := (m.inode.i_blocks + rsv_add) % U32 },
          inode_dirty := true }
        backup_loop env gdt_blk rsv_add fuel r.2.1 r.2.2.1 r.2.2.2 (last + 1) true m
      else if m.gdt_buf last ≠ expect then
        let m := m.log (Event.msg_bad_backup (m.gdt_buf last) expect gdt_blk last)
        some (-1, gdt_dirty, m)
      else
        backup_loop env gdt_blk rsv_add fuel r.2.1 r.2.2.1 r.2.2.2 (last + 1) gdt_dirty m
    else
      some (0, gdt_dirty, m)

/-- The first part of one slot (lines 94-125): resolve the primary
reservation block.  The result is `retval` (non-zero: control goes to
`out_dindir`), `gdt_dirty` and the machine; `gdt_off` is already reduced. -/
def resolve_primary (env : Env) (rsv_add gdt_off gdt_blk : Nat) (m : Machine) :
    Int × Bool × Machine :=
  if m.dindir_buf gdt_off = 0 then
    let m := { m with
      dindir_dirty := true,
      inode_dirty := true,
      gdt_buf := fun _ => 0,
      dindir_buf := setEntry m.dindir_buf gdt_off gdt_blk,
      inode := { m.inode with i_blocks := (m.inode.i_blocks + rsv_add) % U32 } }
    let m := m.log (Event.dbg_added_primary gdt_blk m.dindir_blk gdt_off)
    (0, true, m)
  else if m.dindir_buf gdt_off = gdt_blk then
    let m := m.log (Event.msg_reading_primary gdt_blk)
    let retval := env.read_blk m.trace gdt_blk
    let m := m.log (Event.read_blk gdt_blk Buf.gdt_buf retval)
    if retval ≠ 0 then (retval, false, m)
    else (0, false, { m with gdt_buf := m.blocks gdt_blk })
  else
    let m := m.log (Event.msg_bad_primary (m.dindir_buf gdt_off) gdt_blk m.dindir_blk gdt_off)
    (-1, false, m)

/-- The end of one slot (lines 147-154): write the primary block when it is
dirty.  The result is `retval` (non-zero: control goes to `out_dindir`). -/
def flush_primary (env : Env) (gdt_blk : Nat) (gdt_dirty : Bool) (m : Machine) : Int × Machine :=
  if gdt_dirty then
    let m := m.log (Event.dbg_writing_primary gdt_blk)
    let retval := env.write_blk m.trace gdt_blk
    let m := m.log (Event.write_blk gdt_blk Buf.gdt_buf retval)
    if retval ≠ 0 then (retval, m)
    else (0, { m with blocks := setBlock m.blocks gdt_blk m.gdt_buf })
  else (0, m)

/-- One iteration of the `for` loop (lines 90-154): resolve the primary
block, run the backup loop from the seeds `1, 5, 7`, write the primary block
when dirty.  `gdt_off` is the value before the reduction `gdt_off %= apb`. -/
def slot_body (fuel : Nat) (env : Env) (rsv_add apb gdt_off gdt_blk : Nat) (m : Machine) :
    Option (Int × Machine) :=
  let r := resolve_primary env rsv_add (gdt_off % apb % U32) gdt_blk m
  if r.1 ≠ 0 then some (r.1, r.2.2)
  else
    match backup_loop env gdt_blk rsv_add fuel 1 5 7 0 r.2.1 r.2.2 with
    | none => none
    | some b =>
      if b.1 ≠ 0 then some (b.1, b.2.2)
      else some (flush_primary env gdt_blk b.2.1 b.2.2)

/-- The `for` loop over the reserved slots (lines 86-155), by recursion on
the number `n` of slots still to do (`s_reserved_gdt_blocks` is a 16-bit
field, so the 32-bit counter `rsv_off` never wraps).  `gdt_off` and `gdt_blk`
are the running variables at the loop test.  The result is `retval` at
`out_dindir`. -/
def slot_loop (fuel : Nat) (env : Env) (rsv_add apb : Nat) :
    Nat → Nat → Nat → Machine → Option (Int × Machine)
  | 0, _, _, m => some (0, m)
  | n + 1, gdt_off, gdt_blk, m =>
    match slot_body fuel env rsv_add apb gdt_off gdt_blk m with
    | none => none
    | some (retval, m) =>
      if retval ≠ 0 then some (retval, m)
      else slot_loop fuel env rsv_add apb n ((gdt_off % apb % U32 + 1) % U32) ((gdt_blk + 1) % U32) m

/-- The initializer (lines 47-84) after the inode was read: load the
double-indirect block, or allocate and format one.  `Sum.inl` is an early
exit with the final result, `Sum.inr` the machine at the `for` loop. -/
def init_dindir (env : Env) (rsv_add apb : Nat) (m : Machine) : (Int × Machine) ⊕ Machine :=
  let dindir_blk := m.inode.i_block EXT2_DIND_BLOCK
  let m := { m with dindir_blk := dindir_blk }
  if dindir_blk ≠ 0 then
    let m := m.log (Event.msg_reading_dindir dindir_blk)
    let retval := env.read_blk m.trace dindir_blk
    let m := m.log (Event.read_blk dindir_blk Buf.dindir_buf retval)
    if retval ≠ 0 then Sum.inl (out_inode env retval m)
    else Sum.inr { m with dindir_buf := m.blocks dindir_blk }
  else
    let goal := (3 + m.fs.super.s_reserved_gdt_blocks + m.fs.desc_blocks +
      m.fs.inode_blocks_per_group) % U32
    let r := env.alloc_block m.trace goal
    let m := m.log (Event.alloc_block goal r.1 r.2)
    if r.1 ≠ 0 then Sum.inl (out_free r.1 m)
    else
      let dindir_blk := r.2
      let m := m.log (Event.dbg_allocated_dindir dindir_blk)
      let inode_size := (apb * apb + apb + EXT2_NDIR_BLOCKS) % U64 * m.fs.blocksize % U64
      let i_size_high := inode_size / U32 % U32
      let sb := m.fs.super
      let sb := if i_size_high ≠ 0 then
        { sb with s_feature_ro_compat := sb.s_feature_ro_compat ||| EXT2_FEATURE_RO_COMPAT_LARGE_FILE }
        else sb
      let t := env.time m.trace
      let m := m.log (Event.time t)
      Sum.inr { m with
        fs := { m.fs with super := sb },
        dindir_blk := dindir_blk,
        dindir_buf := fun _ => 0,
        dindir_dirty := true,
        inode_dirty := true,
        inode := { m.inode with
          i_mode := LINUX_S_IFREG ||| 0o600,
          i_links_count := 1,
          i_block := setEntry m.inode.i_block EXT2_DIND_BLOCK dindir_blk,
          i_blocks := rsv_add % U32,
          i_size := inode_size % U32,
          i_size_high := i_size_high,
          i_ctime := t % U32 } }

/-- The function `ext2fs_create_resize_inode`.  The result is the returned
`errcode_t` and the machine at return (storage, log, superblock); `none`
only when a backup loop used up `fuel`. -/
def ext2fs_create_resize_inode (fuel : Nat) (env : Env) (m : Machine) : Option (Int × Machine) :=
  if m.fs.magic ≠ EXT2_ET_MAGIC_EXT2FS_FILSYS then some (EXT2_ET_MAGIC_EXT2FS_FILSYS, m)
  else if m.fs.super.s_reserved_gdt_blocks = 0 then some (0, m)
  else
    let retval := env.get_mem m.trace
    let m := m.log (Event.get_mem retval)
    if retval ≠ 0 then some (out_free retval m)
    else
      let retval := env.read_inode m.trace
      let m := m.log (Event.read_inode retval)
      if retval ≠ 0 then some (out_free retval m)
      else
        let m := { m with inode := m.disk_inode }
        let apb := EXT2_ADDR_PER_BLOCK m.fs.super
        let rsv_add := m.fs.blocksize / 512
        match init_dindir env rsv_add apb m with
        | Sum.inl r => some r
        | Sum.inr m =>
          match slot_loop fuel env rsv_add apb m.fs.super.s_reserved_gdt_blocks
              (m.fs.desc_blocks % U32)
              ((m.fs.super.s_first_data_block + 1 + m.fs.desc_blocks % U32) % U32) m with
          | none => none
          | some (retval, m) => some (out_dindir env retval m)

/-- Modelled from the spec: the backup-group enumerator `ext2fs_list_backups`,
whose body is not in this file: it returns the minimum of the three counters
and multiplies that counter by 3, 5 or 7 (`unsigned int` arithmetic).  With
the seeds `1, 5, 7` it yields 1, 3, 5, 7, 9, 25, 27, ... -/
def ext2fs_list_backups (_fs : ext2_filsys) (three five seven : Nat) : Nat × Nat × Nat × Nat :=
  if five < three then
    if seven < five then (seven, three, five, seven * 7 % U32)
    else (five, three, five * 5 % U32, seven)
  else if seven < three then (seven, three, five, seven * 7 % U32)
  else (three, three * 3 % U32, five, seven)

/-- An inode record with every field zero. -/
def zeroInode : ext2_inode :=
  { i_mode := 0, i_links_count := 0, i_size := 0, i_size_high := 0, i_atime := 0,
    i_ctime := 0, i_mtime := 0, i_blocks := 0, i_block := fun _ => 0 }

/-- The machine at entry: the handle, the storage, an empty log; the local
variables are not yet initialised (their value is never read before it is
set). -/
def initMachine (fs : ext2_filsys) (blocks : Nat → Nat → Nat) (ino : ext2_inode) : Machine :=
  { fs := fs, blocks := blocks, disk_inode := ino, trace := [],
    inode := zeroInode, dindir_buf := fun _ => 0, gdt_buf := fun _ => 0,
    dindir_blk := 0, dindir_dirty := false, inode_dirty := false }

/-- Collaborators that never fail: the allocator returns `blk`, the clock
`now`, and the enumerator is the one modelled from the spec. -/
def okEnv (blk now : Nat) : Env :=
  { get_mem := fun _ => 0, read_inode := fun _ => 0, alloc_block := fun _ _ => (0, blk),
    read_blk := fun _ _ => 0, write_blk := fun _ _ => 0, write_inode := fun _ => 0,
    time := fun _ => now, list_backups := ext2fs_list_backups }

/-- The scenario of the spec: block size 1024, two reserved slots, five
groups, first data block 1, one descriptor block. -/
def scenarioFs : ext2_filsys :=
  { magic := EXT2_ET_MAGIC_EXT2FS_FILSYS,
    super := { s_reserved_gdt_blocks := 2, s_first_data_block := 1,
               s_blocks_per_group := 8192, s_log_block_size := 0,
               s_feature_ro_compat := 0 },
    blocksize := 1024, desc_blocks := 1, inode_blocks_per_group := 32,
    group_desc_count := 5 }

/-- Counters `(three, five, seven)` of the enumerator after `k` calls that
started from the counters `c`. -/
def countersFrom (env : Env) (fs : ext2_filsys) : Nat → Nat × Nat × Nat → Nat × Nat × Nat
  | 0, c => c
  | k + 1, c => countersFrom env fs k (env.list_backups fs c.1 c.2.1 c.2.2).2

/-- The group returned by call number `k` (from 0) of the enumerator started
from the counters `c`. -/
def grpFrom (env : Env) (fs : ext2_filsys) (c : Nat × Nat × Nat) (k : Nat) : Nat :=
  (env.list_backups fs (countersFrom env fs k c).1 (countersFrom env fs k c).2.1
    (countersFrom env fs k c).2.2).1

/-- The `k`-th group the enumerator produces for a slot (seeds `1, 5, 7`). -/
def backup_group (env : Env) (fs : ext2_filsys) (k : Nat) : Nat :=
  grpFrom env fs (1, 5, 7) k

/-- Entry `k` of a primary block has a backup group: the groups produced by
calls `0 .. k` are all below the group count, so the `while` loop reaches
its iteration number `k`. -/
def HasBackup (env : Env) (fs : ext2_filsys) (k : Nat) : Prop :=
  ∀ j, j ≤ k → backup_group env fs j < fs.group_desc_count

/-- The running variable `gdt_off` at the loop test of slot `j` (before the
reduction `gdt_off %= apb`), started from `off`. -/
def gdt_off_at (apb off : Nat) : Nat → Nat
  | 0 => off
  | j + 1 => (gdt_off_at apb off j % apb % U32 + 1) % U32

/-- The running variable `gdt_blk` at slot `j`, started from `blk`. -/
def gdt_blk_at (blk : Nat) : Nat → Nat
  | 0 => blk
  | j + 1 => (gdt_blk_at blk j + 1) % U32

/-- The index of slot `i` in the double-indirect block, as the spec gives it. -/
def slot_index (fs : ext2_filsys) (i : Nat) : Nat :=
  (fs.desc_blocks + i) % EXT2_ADDR_PER_BLOCK fs.super

/-- The expected address of the primary reservation block of slot `i`, as
the spec gives it, as a 32-bit value. -/
def slot_block (fs : ext2_filsys) (i : Nat) : Nat :=
  (fs.super.s_first_data_block + 1 + fs.desc_blocks + i) % U32

/-- The expected backup address for group `g` of the primary block `gdt_blk`,
as a 32-bit value. -/
def backup_block (fs : ext2_filsys) (gdt_blk g : Nat) : Nat :=
  (gdt_blk + g * fs.super.s_blocks_per_group) % U32

/-- The error an event carries: the result of a collaborator call, `-1` for
the two mismatch messages, `0` for everything else. -/
def Event.err : Event → Int
  | Event.get_mem e => e
  | Event.read_inode e => e
  | Event.alloc_block _ e _ => e
  | Event.read_blk _ _ e => e
  | Event.write_blk _ _ e => e
  | Event.write_inode e => e
  | Event.msg_bad_primary _ _ _ _ => -1
  | Event.msg_bad_backup _ _ _ _ => -1
  | _ => 0

/-- The first non-zero error in a log, `0` when there is none. -/
def firstError : List Event → Int
  | [] => 0
  | e :: t => if e.err ≠ 0 then e.err else firstError t

/-- A block write. -/
def Event.isWriteBlk : Event → Bool
  | Event.write_blk _ _ _ => true
  | _ => false

/-- An inode write. -/
def Event.isWriteInode : Event → Bool
  | Event.write_inode _ => true
  | _ => false

/-- A call of the block allocator. -/
def Event.isAlloc : Event → Bool
  | Event.alloc_block _ _ _ => true
  | _ => false

/-- The double-indirect block was newly allocated. -/
def Event.isNewDindir : Event → Bool
  | Event.dbg_allocated_dindir _ => true
  | _ => false

/-- A primary reservation block was newly created. -/
def Event.isNewPrimary : Event → Bool
  | Event.dbg_added_primary _ _ _ => true
  | _ => false

/-- A backup entry was newly written. -/
def Event.isNewBackup : Event → Bool
  | Event.dbg_added_backup _ _ _ _ => true
  | _ => false

/-- An event of the backup loop of the primary block `gdt_blk`. -/
def Event.isBackupOf (gdt_blk : Nat) : Event → Bool
  | Event.dbg_added_backup _ _ b _ => b = gdt_blk
  | Event.msg_bad_backup _ _ b _ => b = gdt_blk
  | _ => false

/-- An event of the processing of the slot whose primary block is `gdt_blk`
and whose index in the double-indirect block is `gdt_off`. -/
def Event.isSlotOf (gdt_blk gdt_off : Nat) : Event → Bool
  | Event.dbg_added_primary b _ o => b = gdt_blk ∧ o = gdt_off
  | Event.msg_reading_primary b => b = gdt_blk
  | Event.read_blk b Buf.gdt_buf _ => b = gdt_blk
  | Event.msg_bad_primary _ b _ o => b = gdt_blk ∧ o = gdt_off
  | Event.dbg_added_backup _ _ b _ => b = gdt_blk
  | Event.msg_bad_backup _ _ b _ => b = gdt_blk
  | Event.dbg_writing_primary b => b = gdt_blk
  | Event.write_blk b Buf.gdt_buf _ => b = gdt_blk
  | _ => false

/-- What a stretch of the slot loop that logged `suf` may have changed
between the machines `m` and `m'`: nothing of the handle, of the stored
inode or of the double-indirect address; of the local inode only the
block-count, by `rsv` per new primary block and per new backup entry; the
dirty flags exactly when something new was added; of the double-indirect
buffer only zero entries, at indices logged as added; of the storage only
blocks logged as written from the primary buffer. -/
structure Frame (rsv : Nat) (m m' : Machine) (suf : List Event) : Prop where
  fs_eq : m'.fs = m.fs
  dindir_blk_eq : m'.dindir_blk = m.dindir_blk
  disk_inode_eq : m'.disk_inode = m.disk_inode
  trace_eq : m'.trace = m.trace ++ suf
  inode_eq : m'.inode = { m.inode with i_blocks := m'.inode.i_blocks }
  i_blocks_eq : m'.inode.i_blocks % U32 =
    (m.inode.i_blocks + rsv * (suf.countP Event.isNewPrimary + suf.countP Event.isNewBackup)) % U32
  inode_same : suf.countP Event.isNewPrimary + suf.countP Event.isNewBackup = 0 → m'.inode = m.inode
  inode_dirty_iff : m'.inode_dirty = true ↔
    m.inode_dirty = true ∨ 0 < suf.countP Event.isNewPrimary + suf.countP Event.isNewBackup
  dindir_dirty_iff : m'.dindir_dirty = true ↔
    m.dindir_dirty = true ∨ 0 < suf.countP Event.isNewPrimary
  dindir_nonzero : ∀ x, m.dindir_buf x ≠ 0 → m'.dindir_buf x = m.dindir_buf x
  dindir_index : ∀ x, (∀ e ∈ suf, ∀ b d, e ≠ Event.dbg_added_primary b d x) →
    m'.dindir_buf x = m.dindir_buf x
  blocks_eq : ∀ a, (∀ e ∈ suf, e ≠ Event.write_blk a Buf.gdt_buf 0) → m'.blocks a = m.blocks a

/-- The two events of loading an existing primary block: the message and a
successful read into the primary buffer. -/
def Event.isPrimaryRead : Event → Bool
  | Event.msg_reading_primary _ => true
  | Event.read_blk _ Buf.gdt_buf 0 => true
  | _ => false

/-- The machine after the memory allocation and the inode read succeeded
(line 50): the local inode is the stored one. -/
def afterReadInode (fs : ext2_filsys) (blocks : Nat → Nat → Nat) (ino : ext2_inode) : Machine :=
  { initMachine fs blocks ino with
    trace := [Event.get_mem 0, Event.read_inode 0], inode := ino }

/-- An event of the two final flushes: the write of the double-indirect
block, the summary line, the clock, the inode write. -/
def Event.isOut : Event → Bool
  | Event.write_blk _ Buf.dindir_buf _ => true
  | Event.msg_inode _ _ => true
  | Event.time _ => true
  | Event.write_inode _ => true
  | _ => false

/-- An event of the initializer: loading or allocating the double-indirect
block. -/
def Event.isInit : Event → Bool
  | Event.msg_reading_dindir _ => true
  | Event.read_blk _ Buf.dindir_buf _ => true
  | Event.alloc_block _ _ _ => true
  | Event.dbg_allocated_dindir _ => true
  | Event.time _ => true
  | _ => false

/-- A stored resize inode whose double-indirect pointer is `d` and whose
block-count is `n`; every other field is zero. -/
def inodeWith (d n : Nat) : ext2_inode :=
  { zeroInode with i_blocks := n, i_block := fun j => if j = EXT2_DIND_BLOCK then d else 0 }

/-- The result of the run in the scenario of the spec, on an empty resize
inode and zeroed storage, with the allocator handing out block 38. -/
def scenarioResult : Int × Machine :=
  (ext2fs_create_resize_inode 10 (okEnv 38 1000)
    (initMachine scenarioFs (fun _ _ => 0) zeroInode)).getD
    (1, initMachine scenarioFs (fun _ _ => 0) zeroInode)

/-- The result of the run in the scenario of the spec when the stored inode
already points to block 3 as its double-indirect block. -/
def aliasResult : Int × Machine :=
  (ext2fs_create_resize_inode 10 (okEnv 38 1000)
    (initMachine scenarioFs (fun _ _ => 0) (inodeWith 3 0))).getD
    (1, initMachine scenarioFs (fun _ _ => 0) (inodeWith 3 0))

/-- The scenario of the spec with no reserved slot. -/
def noSlotsFs : ext2_filsys :=
  { scenarioFs with super := { scenarioFs.super with s_reserved_gdt_blocks := 0 } }

/-- The value of `inode_size` after lines 75-76 (`unsigned long long`). -/
def inode_size (fs : ext2_filsys) : Nat :=
  (EXT2_ADDR_PER_BLOCK fs.super * EXT2_ADDR_PER_BLOCK fs.super + EXT2_ADDR_PER_BLOCK fs.super +
    EXT2_NDIR_BLOCKS) % U64 * fs.blocksize % U64

/-- The allocation goal of line 60, as a `blk_t`. -/
def alloc_goal (fs : ext2_filsys) : Nat :=
  (3 + fs.super.s_reserved_gdt_blocks + fs.desc_blocks + fs.inode_blocks_per_group) % U32

/-- The handle after the initializer allocated a double-indirect block: the
large-file bit is set when the high half of the size is not zero. -/
def fsAfterAlloc (fs : ext2_filsys) : ext2_filsys :=
  { fs with super :=
      if inode_size fs / U32 % U32 ≠ 0 then
        { fs.super with s_feature_ro_compat :=
            fs.super.s_feature_ro_compat ||| EXT2_FEATURE_RO_COMPAT_LARGE_FILE }
      else fs.super }

/-- Collaborators as in `okEnv`, except that reading the inode fails with
error 5. -/
def readInodeFailEnv : Env :=
  { okEnv 38 1000 with read_inode := fun _ => 5 }

/-- The result of the run in the scenario of the spec when the inode read
fails. -/
def readInodeFailResult : Int × Machine :=
  (ext2fs_create_resize_inode 10 readInodeFailEnv
    (initMachine scenarioFs (fun _ _ => 0) zeroInode)).getD
    (1, initMachine scenarioFs (fun _ _ => 0) zeroInode)

/-- The result of a second run in the scenario of the spec, on the storage,
the inode and the handle the first run left. -/
def secondResult : Int × Machine :=
  (ext2fs_create_resize_inode 10 (okEnv 38 1000)
    (initMachine scenarioResult.2.fs scenarioResult.2.blocks scenarioResult.2.disk_inode)).getD
    (1, initMachine scenarioFs (fun _ _ => 0) zeroInode)

/-- The scenario of the spec with 257 reserved slots, one more than the 256
addresses of a block. -/
def overfullFs : ext2_filsys :=
  { scenarioFs with super := { scenarioFs.super with s_reserved_gdt_blocks := 257 } }

/-- The result of the run with 257 reserved slots. -/
def overfullResult : Int × Machine :=
  (ext2fs_create_resize_inode 10 (okEnv 300 1000)
    (initMachine overfullFs (fun _ _ => 0) zeroInode)).getD
    (0, initMachine overfullFs (fun _ _ => 0) zeroInode)

/-- In the log `s` of one slot a block write, if there is one, is the write
of the primary block `gdt_blk` and the last event. -/
def WriteLast (gdt_blk : Nat) (s : List Event) : Prop :=
  (∀ e ∈ s, e.isWriteBlk = false) ∨
  ∃ l err, s = l ++ [Event.write_blk gdt_blk Buf.gdt_buf err] ∧ ∀ e ∈ l, e.isWriteBlk = false

/-- The logs `segs` are the logs of the slots `j`, `j + 1`, ... in this
order: each holds only events of its slot, and its block write, if any, is
its last event, so it is issued before the next slot is looked at. -/
def SlotSegments (B I : Nat → Nat) : Nat → List (List Event) → Prop
  | _, [] => True
  | j, s :: rest =>
    (∀ e ∈ s, e.isSlotOf (B j) (I j) = true) ∧ WriteLast (B j) s ∧ SlotSegments B I (j + 1) rest

/-- The scenario of the spec with a first data block so high that the
expected address of slot 0 is `2^32 - 1` and the one of slot 1 wraps to 0. -/
def wrapFs : ext2_filsys :=
  { scenarioFs with super := { scenarioFs.super with s_first_data_block := 4294967293 } }

/-- The result of the run on `wrapFs`. -/
def wrapResult : Int × Machine :=
  (ext2fs_create_resize_inode 10 (okEnv 38 1000)
    (initMachine wrapFs (fun _ _ => 0) zeroInode)).getD
    (1, initMachine wrapFs (fun _ _ => 0) zeroInode)

/-- Modelled from the spec: the groups that carry a backup, as the spec
gives them: group 1 and every positive power of 3, 5 or 7. -/
def isBackupGroup (g : Nat) : Bool :=
  g == 1 || (List.range g).any (fun i => 3 ^ (i + 1) == g || 5 ^ (i + 1) == g || 7 ^ (i + 1) == g)

/-- Modelled from the spec: the canonical sequence of backup groups below
the group count, in ascending order: 1, 3, 5, 7, 9, 25, 27, ... -/
def canonical_groups (group_desc_count : Nat) : List Nat :=
  (List.range group_desc_count).filter isBackupGroup

/-- Invariant of the counters `(three, five, seven)` of the enumerator: they
are powers of 3, 5 and 7, and every smaller power of a counter's base is
below the least counter (it was returned already). -/
def SeqInv (c : Nat × Nat × Nat) : Prop :=
  (∃ a, c.1 = 3 ^ a) ∧ (∃ b, c.2.1 = 5 ^ (b + 1)) ∧ (∃ d, c.2.2 = 7 ^ (d + 1)) ∧
  (∀ i, 3 ^ i < c.1 → 3 ^ i < min c.1 (min c.2.1 c.2.2)) ∧
  (∀ j, 5 ^ (j + 1) < c.2.1 → 5 ^ (j + 1) < min c.1 (min c.2.1 c.2.2)) ∧
  (∀ l, 7 ^ (l + 1) < c.2.2 → 7 ^ (l + 1) < min c.1 (min c.2.1 c.2.2))

/-- Collaborators as in `okEnv`, except that writing block 38, the
double-indirect block of the scenario, fails with error 5. -/
def flushFailEnv : Env :=
  { okEnv 38 1000 with write_blk := fun _ b => if b = 38 then 5 else 0 }

/-- The result of the run in the scenario of the spec when the write of the
double-indirect block fails. -/
def flushFailResult : Int × Machine :=
  (ext2fs_create_resize_inode 10 flushFailEnv
    (initMachine scenarioFs (fun _ _ => 0) zeroInode)).getD
    (1, initMachine scenarioFs (fun _ _ => 0) zeroInode)

/-- Storage of the scenario of the spec in which the structure exists in
part: block 38 is the double-indirect block and holds the address 3 of the
primary block of slot 0 at index 1; the primary block 3 has entry 0 still
zero and the wrong value 99 in entry 1 (the expected one is 24579). -/
def badBackupBlocks : Nat → Nat → Nat :=
  fun a i => if a = 38 ∧ i = 1 then 3 else if a = 3 ∧ i = 1 then 99 else 0

/-- The result of the run in the scenario of the spec on `badBackupBlocks`,
with a stored inode that points to block 38 and counts 4 sectors. -/
def badBackupResult : Int × Machine :=
  (ext2fs_create_resize_inode 10 (okEnv 38 1000)
    (initMachine scenarioFs badBackupBlocks (inodeWith 38 4))).getD
    (1, initMachine scenarioFs badBackupBlocks (inodeWith 38 4))

/-- Storage of the scenario of the spec in which block 3, the expected
primary block of slot 0, is also the double-indirect block: its index 1
(slot 0) is zero and its index 2 (slot 1) holds the wrong value 77. -/
def aliasBadBlocks : Nat → Nat → Nat :=
  fun a i => if a = 3 ∧ i = 2 then 77 else 0

/-- Collaborators as in `okEnv`, except that a block write fails with error 5
once a block write was done. -/
def secondWriteFailEnv : Env :=
  { okEnv 38 1000 with write_blk := fun t _ => if t.any Event.isWriteBlk then 5 else 0 }

/-- The result of the run in the scenario of the spec on `aliasBadBlocks`,
with a stored inode that points to block 3, when the second block write
fails. -/
def aliasBadResult : Int × Machine :=
  (ext2fs_create_resize_inode 10 secondWriteFailEnv
    (initMachine scenarioFs aliasBadBlocks (inodeWith 3 2))).getD
    (1, initMachine scenarioFs aliasBadBlocks (inodeWith 3 2))

/-- The result of the run in the scenario of the spec on `aliasBadBlocks`,
with a stored inode that points to block 3, when every write succeeds. -/
def aliasFlushResult : Int × Machine :=
  (ext2fs_create_resize_inode 10 (okEnv 38 1000)
    (initMachine scenarioFs aliasBadBlocks (inodeWith 3 2))).getD
    (1, initMachine scenarioFs aliasBadBlocks (inodeWith 3 2))

/-- Storage of the scenario of the spec with an existing double-indirect
block 38 whose index 1 (slot 0) is zero and whose index 2 (slot 1) holds the
wrong value 77. -/
def badSlotBlocks : Nat → Nat → Nat :=
  fun a i => if a = 38 ∧ i = 2 then 77 else 0

/-- The result of the run in the scenario of the spec on `badSlotBlocks`,
with a stored inode that points to block 38. -/
def badSlotResult : Int × Machine :=
  (ext2fs_create_resize_inode 10 (okEnv 38 1000)
    (initMachine scenarioFs badSlotBlocks (inodeWith 38 2))).getD
    (1, initMachine scenarioFs badSlotBlocks (inodeWith 38 2))

/-- The result of a second run on the state the run of `aliasResult` left
(the stored inode points to block 3, the expected primary block of slot 0). -/
def aliasSecondResult : Int × Machine :=
  (ext2fs_create_resize_inode 10 (okEnv 38 1000)
    (initMachine aliasResult.2.fs aliasResult.2.blocks aliasResult.2.disk_inode)).getD
    (1, initMachine scenarioFs (fun _ _ => 0) zeroInode)

/-- Modelled from the spec: one call of the backup-group enumerator in the
words of the spec, in unbounded arithmetic: it returns the minimum of the
three counters and multiplies that counter by 3, 5 or 7.
`ext2fs_list_backups` is this call with 32-bit counters. -/
def list_backups_spec (three five seven : Nat) : Nat × Nat × Nat × Nat :=
  if five < three then
    if seven < five then (seven, three, five, seven * 7)
    else (five, three, five * 5, seven)
  else if seven < three then (seven, three, five, seven * 7)
  else (three, three * 3, five, seven)

/-- The enumerator of `env` behaves as specified on a filesystem of `G`
groups: every call returns the minimum of the three counters, and whenever
that group is below `G`, so that the loop goes on, the counters are advanced
as specified. -/
def EnumAsSpecified (env : Env) (G : Nat) : Prop :=
  ∀ (fs : ext2_filsys) (t f s : Nat), fs.group_desc_count = G →
    (env.list_backups fs t f s).1 = (list_backups_spec t f s).1 ∧
    ((list_backups_spec t f s).1 < G → env.list_backups fs t f s = list_backups_spec t f s)

/-- Modelled from the spec: the Backup Replicator of section 4.3 over an
explicit list of groups: for the group `g` at entry `last`, write the
expected address when the entry is zero, stop with a mismatch when it is
non-zero and different, change nothing when it is equal. -/
def replicate_backups (gdt_blk rsv_add : Nat) :
    List Nat → Nat → Bool → Machine → Int × Bool × Machine
  | [], _, gdt_dirty, m => (0, gdt_dirty, m)
  | grp :: rest, last, gdt_dirty, m =>
    let expect := (gdt_blk + grp * m.fs.super.s_blocks_per_group) % U32
    if m.gdt_buf last = 0 then
      let m := m.log (Event.dbg_added_backup expect grp gdt_blk last)
      let m := { m with
        gdt_buf := setEntry m.gdt_buf last expect,
        inode := { m.inode with i_blocks := (m.inode.i_blocks + rsv_add) % U32 },
        inode_dirty := true }
      replicate_backups gdt_blk rsv_add rest (last + 1) true m
    else if m.gdt_buf last ≠ expect then
      let m := m.log (Event.msg_bad_backup (m.gdt_buf last) expect gdt_blk last)
      (-1, gdt_dirty, m)
    else
      replicate_backups gdt_blk rsv_add rest (last + 1) gdt_dirty m

/-! ## Framing -/

theorem U32_pos : 0 < U32 := by decide

theorem Frame.refl (rsv : Nat) (m : Machine) : Frame rsv m m [] := by
  constructor <;> simp

theorem Frame.trans {rsv : Nat} {m m1 m2 : Machine} {s1 s2 : List Event}
    (h1 : Frame rsv m m1 s1) (h2 : Frame rsv m1 m2 s2) : Frame rsv m m2 (s1 ++ s2) := by
  constructor
  · rw [h2.fs_eq, h1.fs_eq]
  · rw [h2.dindir_blk_eq, h1.dindir_blk_eq]
  · rw [h2.disk_inode_eq, h1.disk_inode_eq]
  · rw [h2.trace_eq, h1.trace_eq, List.append_assoc]
  · rw [h2.inode_eq, h1.inode_eq]
  · have a := h1.i_blocks_eq
    have b := h2.i_blocks_eq
    simp only [List.countP_append, U32] at a b ⊢
    have e : rsv * (List.countP Event.isNewPrimary s1 + List.countP Event.isNewPrimary s2 +
        (List.countP Event.isNewBackup s1 + List.countP Event.isNewBackup s2)) =
        rsv * (List.countP Event.isNewPrimary s1 + List.countP Event.isNewBackup s1) +
        rsv * (List.countP Event.isNewPrimary s2 + List.countP Event.isNewBackup s2) := by ring
    rw [e]
    generalize rsv * (List.countP Event.isNewPrimary s1 + List.countP Event.isNewBackup s1) = p at a
    generalize rsv * (List.countP Event.isNewPrimary s2 + List.countP Event.isNewBackup s2) = q at b
    omega
  · intro h
    simp only [List.countP_append] at h
    rw [h2.inode_same (by omega), h1.inode_same (by omega)]
  · rw [h2.inode_dirty_iff, h1.inode_dirty_iff]
    simp only [List.countP_append]
    constructor
    · rintro ((h | h) | h)
      · exact Or.inl h
      · exact Or.inr (by omega)
      · exact Or.inr (by omega)
    · rintro (h | h)
      · exact Or.inl (Or.inl h)
      · by_cases hh : 0 < List.countP Event.isNewPrimary s1 + List.countP Event.isNewBackup s1
        · exact Or.inl (Or.inr hh)
        · exact Or.inr (by omega)
  · rw [h2.dindir_dirty_iff, h1.dindir_dirty_iff]
    simp only [List.countP_append]
    constructor
    · rintro ((h | h) | h)
      · exact Or.inl h
      · exact Or.inr (by omega)
      · exact Or.inr (by omega)
    · rintro (h | h)
      · exact Or.inl (Or.inl h)
      · by_cases hh : 0 < List.countP Event.isNewPrimary s1
        · exact Or.inl (Or.inr hh)
        · exact Or.inr (by omega)
  · intro x hx
    have a := h1.dindir_nonzero x hx
    rw [h2.dindir_nonzero x (by rw [a]; exact hx), a]
  · intro x hx
    rw [h2.dindir_index x (fun e he => hx e (List.mem_append_right _ he)),
      h1.dindir_index x (fun e he => hx e (List.mem_append_left _ he))]
  · intro a ha
    rw [h2.blocks_eq a (fun e he => ha e (List.mem_append_right _ he)),
      h1.blocks_eq a (fun e he => ha e (List.mem_append_left _ he))]

/-! ## The backup loop -/

theorem firstError_append (s t : List Event) :
    firstError (s ++ t) = if firstError s ≠ 0 then firstError s else firstError t := by
  induction s with
  | nil => simp [firstError]
  | cons e s ih =>
    simp only [List.cons_append, firstError]
    split_ifs <;> simp_all

theorem backup_loop_frame (env : Env) (blk rsv : Nat) :
    ∀ (fuel t f s last : Nat) (d : Bool) (m : Machine) (rv : Int) (d' : Bool) (m' : Machine),
      backup_loop env blk rsv fuel t f s last d m = some (rv, d', m') →
      m'.fs = m.fs ∧ m'.blocks = m.blocks ∧ m'.disk_inode = m.disk_inode ∧
      m'.dindir_buf = m.dindir_buf ∧ m'.dindir_blk = m.dindir_blk ∧
      m'.dindir_dirty = m.dindir_dirty := by
  intro fuel
  induction fuel with
  | zero => intro t f s last d m rv d' m' h; simp [backup_loop] at h
  | succ n ih =>
    intro t f s last d m rv d' m' h
    simp only [backup_loop] at h
    split_ifs at h with h1 h2 h3
    · have := ih _ _ _ _ _ _ _ _ _ h
      simpa [Machine.log] using this
    · simp only [Option.some.injEq, Prod.mk.injEq] at h
      obtain ⟨-, -, rfl⟩ := h
      simp [Machine.log]
    · exact ih _ _ _ _ _ _ _ _ _ h
    · simp only [Option.some.injEq, Prod.mk.injEq] at h
      obtain ⟨-, -, rfl⟩ := h
      simp

theorem backup_loop_trace (env : Env) (blk rsv : Nat) :
    ∀ (fuel t f s last : Nat) (d : Bool) (m : Machine) (rv : Int) (d' : Bool) (m' : Machine),
      backup_loop env blk rsv fuel t f s last d m = some (rv, d', m') →
      ∃ suf, m'.trace = m.trace ++ suf ∧ (∀ e ∈ suf, e.isBackupOf blk = true) ∧
        firstError suf = rv ∧
        m'.inode.i_blocks % U32 =
          (m.inode.i_blocks + rsv * suf.countP Event.isNewBackup) % U32 ∧
        (d' = true ↔ d = true ∨ 0 < suf.countP Event.isNewBackup) ∧
        (m'.inode_dirty = true ↔ m.inode_dirty = true ∨ 0 < suf.countP Event.isNewBackup) ∧
        (suf.countP Event.isNewBackup = 0 → m'.gdt_buf = m.gdt_buf ∧ m'.inode = m.inode) := by
  intro fuel
  induction fuel with
  | zero => intro t f s last d m rv d' m' h; simp [backup_loop] at h
  | succ n ih =>
    intro t f s last d m rv d' m' h
    simp only [backup_loop] at h
    split_ifs at h with h1 h2 h3
    · obtain ⟨suf, e1, e2, e3, e4, e5, e6, e7⟩ := ih _ _ _ _ _ _ _ _ _ h
      simp only [Machine.log, List.append_assoc, List.singleton_append] at e1
      refine ⟨_, e1, ?_, ?_, ?_, ?_, ?_, ?_⟩
      · intro e he
        rcases List.mem_cons.1 he with rfl | he
        · simp [Event.isBackupOf]
        · exact e2 e he
      · simp [firstError, Event.err, e3]
      · simp only [Machine.log] at e4
        rw [e4]
        simp only [List.countP_cons, Event.isNewBackup, if_true, U32]
        rw [Nat.mul_add]
        generalize rsv * List.countP Event.isNewBackup suf = q
        omega
      · simp [List.countP_cons, Event.isNewBackup, e5]
      · simp [List.countP_cons, Event.isNewBackup, e6, Machine.log]
      · simp [List.countP_cons, Event.isNewBackup]
    · simp only [Option.some.injEq, Prod.mk.injEq] at h
      obtain ⟨rfl, rfl, rfl⟩ := h
      refine ⟨[_], rfl, ?_, ?_, ?_, ?_, ?_, ?_⟩ <;>
        simp [Event.isBackupOf, firstError, Event.err, Event.isNewBackup, Machine.log]
    · exact ih _ _ _ _ _ _ _ _ _ h
    · simp only [Option.some.injEq, Prod.mk.injEq] at h
      obtain ⟨rfl, rfl, rfl⟩ := h
      exact ⟨[], by simp, by simp, by simp [firstError], by simp, by simp, by simp, by simp⟩

theorem backup_loop_mono (env : Env) (blk rsv : Nat) :
    ∀ (fuel t f s last : Nat) (d : Bool) (m : Machine) (rv : Int) (d' : Bool) (m' : Machine),
      backup_loop env blk rsv fuel t f s last d m = some (rv, d', m') →
      (∀ x, m.gdt_buf x ≠ 0 → m'.gdt_buf x = m.gdt_buf x) ∧
      (∀ x, x < last → m'.gdt_buf x = m.gdt_buf x) := by
  intro fuel
  induction fuel with
  | zero => intro t f s last d m rv d' m' h; simp [backup_loop] at h
  | succ n ih =>
    intro t f s last d m rv d' m' h
    simp only [backup_loop] at h
    split_ifs at h with h1 h2 h3
    · obtain ⟨e1, e2⟩ := ih _ _ _ _ _ _ _ _ _ h
      simp only [Machine.log] at e1 e2
      constructor
      · intro x hx
        have hxl : x ≠ last := fun hh => hx (hh ▸ h2)
        by_cases hz : setEntry m.gdt_buf last
            ((blk + (env.list_backups m.fs t f s).1 * m.fs.super.s_blocks_per_group) % U32) x = 0
        · simp [setEntry, hxl] at hz; exact absurd hz hx
        · rw [e1 x hz]; simp [setEntry, hxl]
      · intro x hx
        rw [e2 x (by omega)]
        simp [setEntry, Nat.ne_of_lt hx]
    · simp only [Option.some.injEq, Prod.mk.injEq] at h
      obtain ⟨rfl, rfl, rfl⟩ := h
      simp [Machine.log]
    · obtain ⟨e1, e2⟩ := ih _ _ _ _ _ _ _ _ _ h
      exact ⟨e1, fun x hx => e2 x (by omega)⟩
    · simp only [Option.some.injEq, Prod.mk.injEq] at h
      obtain ⟨rfl, rfl, rfl⟩ := h
      simp

theorem grpFrom_zero (env : Env) (fs : ext2_filsys) (c : Nat × Nat × Nat) :
    grpFrom env fs c 0 = (env.list_backups fs c.1 c.2.1 c.2.2).1 := rfl

theorem grpFrom_succ (env : Env) (fs : ext2_filsys) (c : Nat × Nat × Nat) (k : Nat) :
    grpFrom env fs c (k + 1) = grpFrom env fs (env.list_backups fs c.1 c.2.1 c.2.2).2 k := rfl

theorem backup_loop_fs (env : Env) (blk rsv : Nat) :
    ∀ (fuel t f s last : Nat) (d : Bool) (m : Machine) (rv : Int) (d' : Bool) (m' : Machine),
      backup_loop env blk rsv fuel t f s last d m = some (rv, d', m') → m'.fs = m.fs := by
  intro fuel
  induction fuel with
  | zero => intro t f s last d m rv d' m' h; simp [backup_loop] at h
  | succ n ih =>
    intro t f s last d m rv d' m' h
    simp only [backup_loop] at h
    split_ifs at h with h1 h2 h3
    · simpa [Machine.log] using ih _ _ _ _ _ _ _ _ _ h
    · simp only [Option.some.injEq, Prod.mk.injEq] at h
      obtain ⟨-, -, rfl⟩ := h
      simp [Machine.log]
    · exact ih _ _ _ _ _ _ _ _ _ h
    · simp only [Option.some.injEq, Prod.mk.injEq] at h
      obtain ⟨-, -, rfl⟩ := h
      rfl

theorem backup_loop_done (env : Env) (blk rsv : Nat) :
    ∀ (fuel t f s last : Nat) (d : Bool) (m : Machine) (d' : Bool) (m' : Machine),
      backup_loop env blk rsv fuel t f s last d m = some (0, d', m') →
      ∃ n, n < fuel ∧ (∀ i, i < n → grpFrom env m.fs (t, f, s) i < m.fs.group_desc_count) ∧
        ¬ grpFrom env m.fs (t, f, s) n < m.fs.group_desc_count ∧
        ∀ j, j < n → m'.gdt_buf (last + j) = backup_block m.fs blk (grpFrom env m.fs (t, f, s) j) := by
  intro fuel
  induction fuel with
  | zero => intro t f s last d m d' m' h; simp [backup_loop] at h
  | succ n ih =>
    intro t f s last d m d' m' h
    have hmono := backup_loop_mono env blk rsv (n + 1) t f s last d m 0 d' m' h
    simp only [backup_loop] at h
    split_ifs at h with h1 h2 h3
    · obtain ⟨k, k1, k2, k3, k4⟩ := ih _ _ _ _ _ _ _ _ h
      have hm := (backup_loop_mono env blk rsv n _ _ _ _ _ _ _ _ _ h).2
      simp only [Machine.log] at k2 k3 k4 hm
      refine ⟨k + 1, by omega, ?_, ?_, ?_⟩
      · intro i hi
        cases i with
        | zero => exact h1
        | succ i => rw [grpFrom_succ]; exact k2 i (by omega)
      · rw [grpFrom_succ]; exact k3
      · intro j hj
        cases j with
        | zero =>
          rw [Nat.add_zero, hm last (by omega)]
          simp [setEntry, backup_block, grpFrom_zero]
        | succ j =>
          rw [grpFrom_succ, ← k4 j (by omega)]
          congr 1; omega
    · simp at h
    · obtain ⟨k, k1, k2, k3, k4⟩ := ih _ _ _ _ _ _ _ _ h
      have hm := (backup_loop_mono env blk rsv n _ _ _ _ _ _ _ _ _ h).2
      refine ⟨k + 1, by omega, ?_, ?_, ?_⟩
      · intro i hi
        cases i with
        | zero => exact h1
        | succ i => rw [grpFrom_succ]; exact k2 i (by omega)
      · rw [grpFrom_succ]; exact k3
      · intro j hj
        cases j with
        | zero =>
          rw [Nat.add_zero, hm last (by omega)]
          simp only [ne_eq, Decidable.not_not] at h3
          rw [h3]; simp [backup_block, grpFrom_zero]
        | succ j =>
          rw [grpFrom_succ, ← k4 j (by omega)]
          congr 1; omega
    · exact ⟨0, by omega, by intro i hi; omega, by rw [grpFrom_zero]; exact h1, by intro j hj; omega⟩

theorem backup_loop_clean (env : Env) (blk rsv : Nat) :
    ∀ (n fuel t f s last : Nat) (d : Bool) (m : Machine), n < fuel →
      (∀ i, i < n → grpFrom env m.fs (t, f, s) i < m.fs.group_desc_count) →
      ¬ grpFrom env m.fs (t, f, s) n < m.fs.group_desc_count →
      (∀ j, j < n → m.gdt_buf (last + j) = backup_block m.fs blk (grpFrom env m.fs (t, f, s) j) ∧
        m.gdt_buf (last + j) ≠ 0) →
      backup_loop env blk rsv fuel t f s last d m = some (0, d, m) := by
  intro n
  induction n with
  | zero =>
    intro fuel t f s last d m hf _ h2 _
    obtain ⟨fuel, rfl⟩ : ∃ k, fuel = k + 1 := ⟨fuel - 1, by omega⟩
    rw [grpFrom_zero] at h2
    simp only [backup_loop]
    rw [if_neg h2]
  | succ n ih =>
    intro fuel t f s last d m hf h1 h2 h3
    obtain ⟨fuel, rfl⟩ : ∃ k, fuel = k + 1 := ⟨fuel - 1, by omega⟩
    have g0 := h1 0 (by omega)
    rw [grpFrom_zero] at g0
    have e0 := h3 0 (by omega)
    rw [Nat.add_zero, grpFrom_zero] at e0
    simp only [backup_loop]
    rw [if_pos g0, if_neg e0.2, if_neg (by simpa [backup_block] using e0.1)]
    apply ih fuel _ _ _ _ d m (by omega)
    · intro i hi
      have := h1 (i + 1) (by omega)
      rwa [grpFrom_succ] at this
    · rwa [grpFrom_succ] at h2
    · intro j hj
      have := h3 (j + 1) (by omega)
      rw [grpFrom_succ] at this
      rwa [show last + 1 + j = last + (j + 1) by omega]

theorem backup_loop_total (env : Env) (blk rsv : Nat) :
    ∀ (n fuel t f s last : Nat) (d : Bool) (m : Machine), n < fuel →
      ¬ grpFrom env m.fs (t, f, s) n < m.fs.group_desc_count →
      ∃ r, backup_loop env blk rsv fuel t f s last d m = some r := by
  intro n
  induction n with
  | zero =>
    intro fuel t f s last d m hf h2
    obtain ⟨fuel, rfl⟩ : ∃ k, fuel = k + 1 := ⟨fuel - 1, by omega⟩
    rw [grpFrom_zero] at h2
    simp only [backup_loop]
    rw [if_neg h2]; exact ⟨_, rfl⟩
  | succ n ih =>
    intro fuel t f s last d m hf h2
    obtain ⟨fuel, rfl⟩ : ∃ k, fuel = k + 1 := ⟨fuel - 1, by omega⟩
    rw [grpFrom_succ] at h2
    simp only [backup_loop]
    split_ifs
    · exact ih fuel _ _ _ _ _ _ (by omega) (by simpa [Machine.log] using h2)
    · exact ⟨_, rfl⟩
    · exact ih fuel _ _ _ _ _ _ (by omega) h2
    · exact ⟨_, rfl⟩

/-! ## One slot -/

theorem backup_loop_inode (env : Env) (blk rsv : Nat) :
    ∀ (fuel t f s last : Nat) (d : Bool) (m : Machine) (rv : Int) (d' : Bool) (m' : Machine),
      backup_loop env blk rsv fuel t f s last d m = some (rv, d', m') →
      m'.inode = { m.inode with i_blocks := m'.inode.i_blocks } := by
  intro fuel
  induction fuel with
  | zero => intro t f s last d m rv d' m' h; simp [backup_loop] at h
  | succ n ih =>
    intro t f s last d m rv d' m' h
    simp only [backup_loop] at h
    split_ifs at h with h1 h2 h3
    · have := ih _ _ _ _ _ _ _ _ _ h
      rw [this]; simp [Machine.log]
    · simp only [Option.some.injEq, Prod.mk.injEq] at h
      obtain ⟨-, -, rfl⟩ := h
      simp [Machine.log]
    · exact ih _ _ _ _ _ _ _ _ _ h
    · simp only [Option.some.injEq, Prod.mk.injEq] at h
      obtain ⟨-, -, rfl⟩ := h
      rfl

theorem countP_eq_zero_of_forall {p q : Event → Bool} {l : List Event}
    (h : ∀ e ∈ l, p e = true) (hpq : ∀ e, p e = true → q e = false) : l.countP q = 0 := by
  rw [List.countP_eq_zero]
  intro e he
  simp [hpq e (h e he)]

theorem isBackupOf_not_newPrimary (blk : Nat) (e : Event) (h : e.isBackupOf blk = true) :
    e.isNewPrimary = false := by
  cases e <;> simp_all [Event.isBackupOf, Event.isNewPrimary]

theorem isBackupOf_isSlotOf (blk idx : Nat) (e : Event) (h : e.isBackupOf blk = true) :
    e.isSlotOf blk idx = true := by
  cases e <;> simp_all [Event.isBackupOf, Event.isSlotOf]

theorem backup_loop_Frame (env : Env) (blk rsv fuel t f s last : Nat) (d : Bool) (m : Machine)
    (rv : Int) (d' : Bool) (m' : Machine)
    (h : backup_loop env blk rsv fuel t f s last d m = some (rv, d', m')) :
    ∃ suf, Frame rsv m m' suf ∧ (∀ e ∈ suf, e.isBackupOf blk = true) ∧ firstError suf = rv ∧
      (d' = true ↔ d = true ∨ 0 < suf.countP Event.isNewBackup) ∧
      (suf.countP Event.isNewBackup = 0 → m'.gdt_buf = m.gdt_buf) ∧
      m'.dindir_buf = m.dindir_buf ∧ m'.blocks = m.blocks := by
  obtain ⟨f1, f2, f3, f4, f5, f6⟩ := backup_loop_frame env blk rsv fuel t f s last d m rv d' m' h
  obtain ⟨suf, e1, e2, e3, e4, e5, e6, e7⟩ :=
    backup_loop_trace env blk rsv fuel t f s last d m rv d' m' h
  have hi := backup_loop_inode env blk rsv fuel t f s last d m rv d' m' h
  have hz : suf.countP Event.isNewPrimary = 0 :=
    countP_eq_zero_of_forall e2 (isBackupOf_not_newPrimary blk)
  refine ⟨suf, ⟨f1, f5, f3, e1, hi, ?_, ?_, ?_, ?_, ?_, ?_, ?_⟩, e2, e3, e5, fun hh => (e7 hh).1, f4, f2⟩
  · rw [hz, Nat.zero_add]; exact e4
  · intro hh; exact (e7 (by omega)).2
  · rw [hz, Nat.zero_add]; exact e6
  · rw [hz, f6]; simp
  · intro x _; rw [f4]
  · intro x _; rw [f4]
  · intro a _; rw [f2]

theorem resolve_primary_Frame (env : Env) (rsv idx blk : Nat) (m : Machine)
    (rv : Int) (d : Bool) (m' : Machine) (h : resolve_primary env rsv idx blk m = (rv, d, m')) :
    ∃ suf, Frame rsv m m' suf ∧ (∀ e ∈ suf, e.isSlotOf blk idx = true) ∧
      firstError suf = rv ∧ suf.countP Event.isNewBackup = 0 ∧
      (d = true ↔ 0 < suf.countP Event.isNewPrimary) ∧ m'.blocks = m.blocks := by
  simp only [resolve_primary] at h
  split_ifs at h with h1 h2 h3
  all_goals simp only [Prod.mk.injEq] at h
  all_goals obtain ⟨rfl, rfl, rfl⟩ := h
  · refine ⟨[Event.dbg_added_primary blk m.dindir_blk idx], ?_, ?_, ?_, ?_, ?_, ?_⟩
    · constructor <;> simp [Machine.log, Event.isNewPrimary, Event.isNewBackup, setEntry]
      · intro x hx hxi; exact absurd (hxi ▸ h1) hx
      · intro x hx hxi; exact absurd hxi.symm hx
    all_goals simp [Event.isSlotOf, firstError, Event.err, Event.isNewPrimary, Event.isNewBackup, Machine.log]
  · refine ⟨[Event.msg_reading_primary blk, Event.read_blk blk Buf.gdt_buf
      (env.read_blk (m.trace ++ [Event.msg_reading_primary blk]) blk)], ?_, ?_, ?_, ?_, ?_, ?_⟩
    · constructor <;> simp [Machine.log, Event.isNewPrimary, Event.isNewBackup]
    all_goals simp [Event.isSlotOf, firstError, Event.err, Event.isNewPrimary, Event.isNewBackup, Machine.log]
    intro hh; exact hh.symm
  · simp only [ne_eq, Decidable.not_not, Machine.log] at h3
    refine ⟨[Event.msg_reading_primary blk, Event.read_blk blk Buf.gdt_buf 0], ?_, ?_, ?_, ?_, ?_, ?_⟩
    · constructor <;> simp [Machine.log, Event.isNewPrimary, Event.isNewBackup, h3]
    all_goals simp [Event.isSlotOf, firstError, Event.err, Event.isNewPrimary, Event.isNewBackup, Machine.log, h3]
  · refine ⟨[Event.msg_bad_primary (m.dindir_buf idx) blk m.dindir_blk idx], ?_, ?_, ?_, ?_, ?_, ?_⟩
    · constructor <;> simp [Machine.log, Event.isNewPrimary, Event.isNewBackup]
    all_goals simp [Event.isSlotOf, firstError, Event.err, Event.isNewPrimary, Event.isNewBackup, Machine.log]

theorem flush_primary_Frame (env : Env) (rsv idx blk : Nat) (d : Bool) (m : Machine)
    (rv : Int) (m' : Machine) (h : flush_primary env blk d m = (rv, m')) :
    ∃ suf, Frame rsv m m' suf ∧ (∀ e ∈ suf, e.isSlotOf blk idx = true) ∧
      firstError suf = rv ∧ suf.countP Event.isNewBackup = 0 ∧
      suf.countP Event.isNewPrimary = 0 ∧
      m'.dindir_buf = m.dindir_buf ∧ m'.gdt_buf = m.gdt_buf := by
  simp only [flush_primary] at h
  split_ifs at h with h1 h2
  all_goals simp only [Prod.mk.injEq] at h
  all_goals obtain ⟨rfl, rfl⟩ := h
  · refine ⟨[Event.dbg_writing_primary blk, Event.write_blk blk Buf.gdt_buf
      (env.write_blk (m.trace ++ [Event.dbg_writing_primary blk]) blk)], ?_, ?_, ?_, ?_, ?_, ?_⟩
    · constructor <;> simp [Machine.log, Event.isNewPrimary, Event.isNewBackup]
    all_goals simp [Event.isSlotOf, firstError, Event.err, Event.isNewPrimary, Event.isNewBackup, Machine.log]
    intro hh; exact hh.symm
  · simp only [ne_eq, Decidable.not_not, Machine.log] at h2
    refine ⟨[Event.dbg_writing_primary blk, Event.write_blk blk Buf.gdt_buf 0], ?_, ?_, ?_, ?_, ?_, ?_⟩
    · constructor <;> simp [Machine.log, Event.isNewPrimary, Event.isNewBackup, setBlock, h2]
      intro a ha hab
      exact absurd hab.symm ha
    all_goals simp [Event.isSlotOf, firstError, Event.err, Event.isNewPrimary, Event.isNewBackup, Machine.log, h2]
  · exact ⟨[], Frame.refl _ _, by simp, by simp [firstError], by simp, by simp, rfl, rfl⟩

/-! ## The slot loop: framing -/

theorem firstError_append_of_zero {s t : List Event} (h : firstError s = 0) :
    firstError (s ++ t) = firstError t := by
  rw [firstError_append, h]; simp

theorem firstError_append_of_ne {s : List Event} (t : List Event) (h : firstError s ≠ 0) :
    firstError (s ++ t) = firstError s := by
  rw [firstError_append, if_pos h]

theorem slot_body_Frame (fuel : Nat) (env : Env) (rsv apb off blk : Nat) (m : Machine)
    (rv : Int) (m' : Machine) (h : slot_body fuel env rsv apb off blk m = some (rv, m')) :
    ∃ suf, Frame rsv m m' suf ∧ (∀ e ∈ suf, e.isSlotOf blk (off % apb % U32) = true) ∧
      firstError suf = rv := by
  simp only [slot_body] at h
  rcases hr : resolve_primary env rsv (off % apb % U32) blk m with ⟨rv0, d0, m0⟩
  obtain ⟨s0, F0, c0, e0, -⟩ := resolve_primary_Frame env rsv _ blk m rv0 d0 m0 hr
  rw [hr] at h
  simp only at h
  split_ifs at h with h0
  · simp only [Option.some.injEq, Prod.mk.injEq] at h
    obtain ⟨rfl, rfl⟩ := h
    exact ⟨s0, F0, c0, e0⟩
  · simp only [ne_eq, Decidable.not_not] at h0
    subst h0
    cases hb : backup_loop env blk rsv fuel 1 5 7 0 d0 m0 with
    | none => rw [hb] at h; simp at h
    | some b =>
      rcases b with ⟨rv1, d1, m1⟩
      rw [hb] at h
      simp only at h
      obtain ⟨s1, F1, c1, e1, -⟩ := backup_loop_Frame env blk rsv fuel 1 5 7 0 d0 m0 rv1 d1 m1 hb
      have c1' : ∀ e ∈ s1, e.isSlotOf blk (off % apb % U32) = true :=
        fun e he => isBackupOf_isSlotOf blk _ e (c1 e he)
      split_ifs at h with h1
      · simp only [Option.some.injEq, Prod.mk.injEq] at h
        obtain ⟨rfl, rfl⟩ := h
        refine ⟨s0 ++ s1, F0.trans F1, ?_, ?_⟩
        · intro e he
          rcases List.mem_append.1 he with he | he
          · exact c0 e he
          · exact c1' e he
        · rw [firstError_append_of_zero e0]; exact e1
      · simp only [ne_eq, Decidable.not_not] at h1
        subst h1
        simp only [Option.some.injEq] at h
        obtain ⟨s2, F2, c2, e2, -⟩ := flush_primary_Frame env rsv (off % apb % U32) blk d1 m1 rv m' h
        refine ⟨s0 ++ s1 ++ s2, (F0.trans F1).trans F2, ?_, ?_⟩
        · intro e he
          rcases List.mem_append.1 he with he | he
          · rcases List.mem_append.1 he with he | he
            · exact c0 e he
            · exact c1' e he
          · exact c2 e he
        · rw [firstError_append_of_zero (by rw [firstError_append_of_zero e0]; exact e1)]
          exact e2

theorem gdt_off_at_succ (apb off j : Nat) :
    gdt_off_at apb off (j + 1) = gdt_off_at apb ((off % apb % U32 + 1) % U32) j := by
  induction j with
  | zero => rfl
  | succ j ih =>
    show (gdt_off_at apb off (j + 1) % apb % U32 + 1) % U32 = _
    rw [ih]; rfl

theorem gdt_blk_at_succ (blk j : Nat) :
    gdt_blk_at blk (j + 1) = gdt_blk_at ((blk + 1) % U32) j := by
  induction j with
  | zero => rfl
  | succ j ih =>
    show (gdt_blk_at blk (j + 1) + 1) % U32 = _
    rw [ih]; rfl

theorem slot_loop_Frame (fuel : Nat) (env : Env) (rsv apb : Nat) :
    ∀ (n off blk : Nat) (m : Machine) (rv : Int) (m' : Machine),
      slot_loop fuel env rsv apb n off blk m = some (rv, m') →
      ∃ suf, Frame rsv m m' suf ∧
        (∀ e ∈ suf, ∃ j, j < n ∧
          e.isSlotOf (gdt_blk_at blk j) (gdt_off_at apb off j % apb % U32) = true) ∧
        firstError suf = rv := by
  intro n
  induction n with
  | zero =>
    intro off blk m rv m' h
    simp only [slot_loop, Option.some.injEq, Prod.mk.injEq] at h
    obtain ⟨rfl, rfl⟩ := h
    exact ⟨[], Frame.refl _ _, by simp, rfl⟩
  | succ n ih =>
    intro off blk m rv m' h
    simp only [slot_loop] at h
    cases hb : slot_body fuel env rsv apb off blk m with
    | none => rw [hb] at h; simp at h
    | some b =>
      rcases b with ⟨rv1, m1⟩
      rw [hb] at h
      simp only at h
      obtain ⟨s1, F1, c1, e1⟩ := slot_body_Frame fuel env rsv apb off blk m rv1 m1 hb
      split_ifs at h with h1
      · simp only [Option.some.injEq, Prod.mk.injEq] at h
        obtain ⟨rfl, rfl⟩ := h
        exact ⟨s1, F1, fun e he => ⟨0, by omega, c1 e he⟩, e1⟩
      · simp only [ne_eq, Decidable.not_not] at h1
        subst h1
        obtain ⟨s2, F2, c2, e2⟩ := ih _ _ _ _ _ h
        refine ⟨s1 ++ s2, F1.trans F2, ?_, ?_⟩
        · intro e he
          rcases List.mem_append.1 he with he | he
          · exact ⟨0, by omega, c1 e he⟩
          · obtain ⟨j, hj, hc⟩ := c2 e he
            exact ⟨j + 1, by omega, by rw [gdt_off_at_succ, gdt_blk_at_succ]; exact hc⟩
        · rw [firstError_append_of_zero e1]; exact e2

/-! ## One slot: results -/

theorem slot_body_inv (fuel : Nat) (env : Env) (rsv apb off blk : Nat) (m : Machine)
    (rv : Int) (m' : Machine) (h : slot_body fuel env rsv apb off blk m = some (rv, m')) :
    ∃ rv0 d0 m0, resolve_primary env rsv (off % apb % U32) blk m = (rv0, d0, m0) ∧
      ((rv0 ≠ 0 ∧ rv = rv0 ∧ m' = m0) ∨
       (rv0 = 0 ∧ ∃ rv1 d1 m1, backup_loop env blk rsv fuel 1 5 7 0 d0 m0 = some (rv1, d1, m1) ∧
          ((rv1 ≠ 0 ∧ rv = rv1 ∧ m' = m1) ∨
           (rv1 = 0 ∧ flush_primary env blk d1 m1 = (rv, m'))))) := by
  simp only [slot_body] at h
  rcases hr : resolve_primary env rsv (off % apb % U32) blk m with ⟨rv0, d0, m0⟩
  rw [hr] at h
  simp only at h
  refine ⟨rv0, d0, m0, rfl, ?_⟩
  split_ifs at h with h0
  · simp only [Option.some.injEq, Prod.mk.injEq] at h
    exact Or.inl ⟨h0, h.1.symm, h.2.symm⟩
  · simp only [ne_eq, Decidable.not_not] at h0
    refine Or.inr ⟨h0, ?_⟩
    cases hb : backup_loop env blk rsv fuel 1 5 7 0 d0 m0 with
    | none => rw [hb] at h; simp at h
    | some b =>
      rcases b with ⟨rv1, d1, m1⟩
      rw [hb] at h
      simp only at h
      refine ⟨rv1, d1, m1, rfl, ?_⟩
      split_ifs at h with h1
      · simp only [Option.some.injEq, Prod.mk.injEq] at h
        exact Or.inl ⟨h1, h.1.symm, h.2.symm⟩
      · simp only [ne_eq, Decidable.not_not] at h1
        simp only [Option.some.injEq] at h
        exact Or.inr ⟨h1, h⟩

theorem resolve_primary_done (env : Env) (rsv idx blk : Nat) (m : Machine)
    (d : Bool) (m' : Machine) (h : resolve_primary env rsv idx blk m = (0, d, m')) :
    m'.dindir_buf idx = blk ∧ (d = false → m'.gdt_buf = m.blocks blk) := by
  simp only [resolve_primary] at h
  split_ifs at h with h1 h2 h3
  all_goals simp only [Prod.mk.injEq] at h
  · obtain ⟨-, rfl, rfl⟩ := h
    simp [Machine.log, setEntry]
  · exact absurd h.1 h3
  · obtain ⟨-, rfl, rfl⟩ := h
    simp [Machine.log, h2]
  · simp at h

theorem resolve_primary_bad (env : Env) (rsv idx blk : Nat) (m : Machine)
    (h0 : m.dindir_buf idx ≠ 0) (h1 : m.dindir_buf idx ≠ blk) :
    resolve_primary env rsv idx blk m =
      (-1, false, m.log (Event.msg_bad_primary (m.dindir_buf idx) blk m.dindir_blk idx)) := by
  simp only [resolve_primary]
  rw [if_neg h0, if_neg h1]

theorem resolve_primary_read (env : Env) (rsv idx blk : Nat) (m : Machine)
    (h0 : m.dindir_buf idx = blk) (h1 : blk ≠ 0)
    (hr : env.read_blk (m.trace ++ [Event.msg_reading_primary blk]) blk = 0) :
    resolve_primary env rsv idx blk m =
      (0, false, { m with
        trace := m.trace ++ [Event.msg_reading_primary blk] ++ [Event.read_blk blk Buf.gdt_buf 0],
        gdt_buf := m.blocks blk }) := by
  simp only [resolve_primary, Machine.log]
  rw [if_neg (by rw [h0]; exact h1), if_pos h0, hr]
  simp

theorem resolve_primary_read_inv (env : Env) (rsv idx blk : Nat) (m : Machine)
    (h0 : m.dindir_buf idx = blk) (h1 : blk ≠ 0)
    (d : Bool) (m' : Machine) (h : resolve_primary env rsv idx blk m = (0, d, m')) :
    d = false ∧ m'.gdt_buf = m.blocks blk := by
  simp only [resolve_primary] at h
  rw [if_neg (by rw [h0]; exact h1), if_pos h0] at h
  split_ifs at h with h3
  · simp only [Prod.mk.injEq] at h; exact absurd h.1 h3
  · simp only [Prod.mk.injEq] at h
    obtain ⟨-, rfl, rfl⟩ := h
    simp [Machine.log]

theorem flush_primary_done (env : Env) (blk : Nat) (d : Bool) (m : Machine)
    (m' : Machine) (h : flush_primary env blk d m = (0, m')) :
    (d = true → m'.blocks blk = m.gdt_buf) ∧ (d = false → m' = m) := by
  simp only [flush_primary] at h
  split_ifs at h with h1 h2
  all_goals simp only [Prod.mk.injEq] at h
  · exact absurd h.1 h2
  · obtain ⟨-, rfl⟩ := h
    simp [Machine.log, setBlock, h1]
  · obtain ⟨-, rfl⟩ := h
    simp [h1]

theorem flush_primary_fail (env : Env) (blk : Nat) (d : Bool) (m : Machine)
    (rv : Int) (m' : Machine) (h : flush_primary env blk d m = (rv, m')) (hrv : rv ≠ 0) :
    m'.blocks = m.blocks := by
  simp only [flush_primary] at h
  split_ifs at h with h1 h2
  all_goals simp only [Prod.mk.injEq] at h
  · obtain ⟨-, rfl⟩ := h; rfl
  · exact absurd h.1.symm hrv
  · exact absurd h.1.symm hrv

theorem slot_body_done (fuel : Nat) (env : Env) (rsv apb off blk : Nat) (m : Machine)
    (m' : Machine) (h : slot_body fuel env rsv apb off blk m = some (0, m')) :
    m'.dindir_buf (off % apb % U32) = blk ∧
    (∃ n, n < fuel ∧ (∀ i, i < n → backup_group env m.fs i < m.fs.group_desc_count) ∧
      ¬ backup_group env m.fs n < m.fs.group_desc_count) ∧
    (∀ k, HasBackup env m.fs k →
      m'.blocks blk k = backup_block m.fs blk (backup_group env m.fs k)) := by
  obtain ⟨rv0, d0, m0, hr, hcase⟩ := slot_body_inv fuel env rsv apb off blk m 0 m' h
  rcases hcase with ⟨h0, h1, -⟩ | ⟨rfl, rv1, d1, m1, hb, hcase⟩
  · exact absurd h1.symm h0
  rcases hcase with ⟨h0, h1, -⟩ | ⟨rfl, hf⟩
  · exact absurd h1.symm h0
  obtain ⟨s0, F0, -, -, -, -, B0⟩ := resolve_primary_Frame env rsv _ blk m 0 d0 m0 hr
  obtain ⟨r1, r2⟩ := resolve_primary_done env rsv _ blk m d0 m0 hr
  obtain ⟨s1, F1, -, -, D1, G1, DB1, B1⟩ := backup_loop_Frame env blk rsv fuel 1 5 7 0 d0 m0 0 d1 m1 hb
  obtain ⟨n, n1, n2, n3, n4⟩ := backup_loop_done env blk rsv fuel 1 5 7 0 d0 m0 d1 m1 hb
  obtain ⟨s2, F2, -, -, -, -, DB2, -⟩ := flush_primary_Frame env rsv (off % apb % U32) blk d1 m1 0 m' hf
  obtain ⟨f1, f2⟩ := flush_primary_done env blk d1 m1 m' hf
  rw [F0.fs_eq] at n2 n3 n4
  refine ⟨by rw [DB2, DB1, r1], ⟨n, n1, n2, n3⟩, ?_⟩
  intro k hk
  have hkn : k < n := by
    by_contra hc
    exact n3 (hk n (by omega))
  have e := n4 k hkn
  rw [Nat.zero_add] at e
  cases hd : d1 with
  | true => rw [f1 hd, e]; rfl
  | false =>
    rw [f2 hd]
    show m1.blocks blk k = backup_block m.fs blk (grpFrom env m.fs (1, 5, 7) k)
    rw [← e]
    have hd0 : d0 = false := by
      cases hd0 : d0 with
      | false => rfl
      | true => exact absurd (D1.2 (Or.inl hd0)) (by simp [hd])
    have hc : s1.countP Event.isNewBackup = 0 := by
      by_contra hc
      exact absurd (D1.2 (Or.inr (by omega))) (by simp [hd])
    rw [G1 hc, r2 hd0, B1, B0]

theorem slot_body_fail_blocks (fuel : Nat) (env : Env) (rsv apb off blk : Nat) (m : Machine)
    (rv : Int) (m' : Machine) (h : slot_body fuel env rsv apb off blk m = some (rv, m'))
    (hrv : rv ≠ 0) : m'.blocks = m.blocks := by
  obtain ⟨rv0, d0, m0, hr, hcase⟩ := slot_body_inv fuel env rsv apb off blk m rv m' h
  obtain ⟨s0, F0, -, -, -, -, B0⟩ := resolve_primary_Frame env rsv _ blk m rv0 d0 m0 hr
  rcases hcase with ⟨-, -, rfl⟩ | ⟨rfl, rv1, d1, m1, hb, hcase⟩
  · exact B0
  obtain ⟨s1, F1, -, -, -, -, -, B1⟩ := backup_loop_Frame env blk rsv fuel 1 5 7 0 d0 m0 rv1 d1 m1 hb
  rcases hcase with ⟨-, -, rfl⟩ | ⟨rfl, hf⟩
  · rw [B1, B0]
  · rw [flush_primary_fail env blk d1 m1 rv m' hf hrv, B1, B0]

theorem slot_body_bad_slot (fuel : Nat) (env : Env) (rsv apb off blk : Nat) (m : Machine)
    (rv : Int) (m' : Machine) (h : slot_body fuel env rsv apb off blk m = some (rv, m'))
    (h0 : m.dindir_buf (off % apb % U32) ≠ 0) (h1 : m.dindir_buf (off % apb % U32) ≠ blk) :
    rv ≠ 0 := by
  obtain ⟨rv0, d0, m0, hr, hcase⟩ := slot_body_inv fuel env rsv apb off blk m rv m' h
  rw [resolve_primary_bad env rsv _ blk m h0 h1] at hr
  simp only [Prod.mk.injEq] at hr
  rcases hcase with ⟨-, rfl, -⟩ | ⟨rfl, -⟩
  · rw [← hr.1]; decide
  · exact absurd hr.1 (by decide)

theorem slot_body_bad_entry (fuel : Nat) (env : Env) (rsv apb off blk : Nat) (m : Machine)
    (rv : Int) (m' : Machine) (h : slot_body fuel env rsv apb off blk m = some (rv, m'))
    (h0 : m.dindir_buf (off % apb % U32) = blk) (h1 : blk ≠ 0) (k : Nat)
    (hk : HasBackup env m.fs k) (hz : m.blocks blk k ≠ 0)
    (hne : m.blocks blk k ≠ backup_block m.fs blk (backup_group env m.fs k)) :
    rv ≠ 0 := by
  intro hrv
  subst hrv
  obtain ⟨rv0, d0, m0, hr, hcase⟩ := slot_body_inv fuel env rsv apb off blk m 0 m' h
  rcases hcase with ⟨h0', h1', -⟩ | ⟨rfl, rv1, d1, m1, hb, hcase⟩
  · exact absurd h1'.symm h0'
  rcases hcase with ⟨h0', h1', -⟩ | ⟨rfl, -⟩
  · exact absurd h1'.symm h0'
  obtain ⟨s0, F0, -⟩ := resolve_primary_Frame env rsv _ blk m 0 d0 m0 hr
  obtain ⟨-, g0⟩ := resolve_primary_read_inv env rsv _ blk m h0 h1 d0 m0 hr
  obtain ⟨n, n1, n2, n3, n4⟩ := backup_loop_done env blk rsv fuel 1 5 7 0 d0 m0 d1 m1 hb
  obtain ⟨mono, -⟩ := backup_loop_mono env blk rsv fuel 1 5 7 0 d0 m0 0 d1 m1 hb
  rw [F0.fs_eq] at n2 n3 n4
  have hkn : k < n := by
    by_contra hc
    exact n3 (hk n (by omega))
  have e := n4 k hkn
  rw [Nat.zero_add, mono k (by rw [g0]; exact hz), g0] at e
  exact hne e

/-! ## The slot loop: completed slots -/

theorem firstError_eq_zero_iff (s : List Event) :
    firstError s = 0 ↔ ∀ e ∈ s, e.err = 0 := by
  induction s with
  | nil => simp [firstError]
  | cons e s ih =>
    simp only [firstError, List.mem_cons, forall_eq_or_imp]
    split_ifs with h
    · constructor
      · intro h'; exact absurd h' h
      · intro h'; exact absurd h'.1 h
    · simp only [ne_eq, Decidable.not_not] at h
      rw [ih]; exact ⟨fun h' => ⟨h, h'⟩, fun h' => h'.2⟩

theorem isSlotOf_write (b i a : Nat) (buf : Buf) (err : Int)
    (h : (Event.write_blk a buf err).isSlotOf b i = true) : a = b ∧ buf = Buf.gdt_buf := by
  cases buf <;> simp_all [Event.isSlotOf]

theorem isSlotOf_added (b i b' d o : Nat)
    (h : (Event.dbg_added_primary b' d o).isSlotOf b i = true) : b' = b ∧ o = i := by
  simpa [Event.isSlotOf] using h

/-- The slot loop, slot by slot: `c` slots were completed, and the log of the
loop splits into the part of the completed slots, without error, and the
part of the slot that failed. -/
theorem slot_loop_done (fuel : Nat) (env : Env) (rsv apb : Nat) :
    ∀ (n off blk : Nat) (m : Machine) (rv : Int) (m' : Machine),
      slot_loop fuel env rsv apb n off blk m = some (rv, m') →
      (∀ i j, i < j → j < n → gdt_blk_at blk i ≠ gdt_blk_at blk j) →
      (∀ i j, i < j → j < n → gdt_blk_at blk i ≠ 0 ∨
        gdt_off_at apb off i % apb % U32 ≠ gdt_off_at apb off j % apb % U32) →
      ∃ c sdone sfail, c ≤ n ∧ (rv = 0 → c = n) ∧ (rv ≠ 0 → c < n) ∧
        m'.trace = m.trace ++ sdone ++ sfail ∧ firstError sdone = 0 ∧
        (∀ e ∈ sfail, e.isSlotOf (gdt_blk_at blk c) (gdt_off_at apb off c % apb % U32) = true) ∧
        ∀ j, j < c →
          m'.dindir_buf (gdt_off_at apb off j % apb % U32) = gdt_blk_at blk j ∧
          ∀ k, HasBackup env m.fs k →
            m'.blocks (gdt_blk_at blk j) k =
              backup_block m.fs (gdt_blk_at blk j) (backup_group env m.fs k) := by
  intro n
  induction n with
  | zero =>
    intro off blk m rv m' h _ _
    simp only [slot_loop, Option.some.injEq, Prod.mk.injEq] at h
    obtain ⟨rfl, rfl⟩ := h
    exact ⟨0, [], [], by omega, by simp, by simp, by simp, rfl, by simp, by intro j hj; omega⟩
  | succ n ih =>
    intro off blk m rv m' h hB hI
    simp only [slot_loop] at h
    cases hb : slot_body fuel env rsv apb off blk m with
    | none => rw [hb] at h; simp at h
    | some b =>
      rcases b with ⟨rv1, m1⟩
      rw [hb] at h
      simp only at h
      obtain ⟨s1, F1, c1, e1⟩ := slot_body_Frame fuel env rsv apb off blk m rv1 m1 hb
      split_ifs at h with h1
      · simp only [Option.some.injEq, Prod.mk.injEq] at h
        obtain ⟨rfl, rfl⟩ := h
        refine ⟨0, [], s1, by omega, fun h0 => absurd h0 h1, fun _ => by omega, ?_, rfl, c1,
          by intro j hj; omega⟩
        rw [F1.trace_eq]; simp
      · simp only [ne_eq, Decidable.not_not] at h1
        subst h1
        obtain ⟨d1, -, d3⟩ := slot_body_done fuel env rsv apb off blk m m1 hb
        obtain ⟨s2, F2, c2, e2⟩ := slot_loop_Frame fuel env rsv apb _ _ _ _ _ _ h
        have hB' : ∀ i j, i < j → j < n →
            gdt_blk_at ((blk + 1) % U32) i ≠ gdt_blk_at ((blk + 1) % U32) j := by
          intro i j hij hj
          rw [← gdt_blk_at_succ, ← gdt_blk_at_succ]
          exact hB (i + 1) (j + 1) (by omega) (by omega)
        have hI' : ∀ i j, i < j → j < n → gdt_blk_at ((blk + 1) % U32) i ≠ 0 ∨
            gdt_off_at apb ((off % apb % U32 + 1) % U32) i % apb % U32 ≠
              gdt_off_at apb ((off % apb % U32 + 1) % U32) j % apb % U32 := by
          intro i j hij hj
          rw [← gdt_blk_at_succ, ← gdt_off_at_succ, ← gdt_off_at_succ]
          exact hI (i + 1) (j + 1) (by omega) (by omega)
        obtain ⟨c, sd, sf, k1, k2, k3, k4, k5, k6, k7⟩ := ih _ _ _ _ _ h hB' hI'
        refine ⟨c + 1, s1 ++ sd, sf, by omega, fun h0 => by rw [k2 h0], fun h0 => by
          have := k3 h0; omega, ?_, ?_, ?_, ?_⟩
        · rw [k4, F1.trace_eq]; simp
        · rw [firstError_append_of_zero e1]; exact k5
        · rw [gdt_blk_at_succ, gdt_off_at_succ]; exact k6
        · intro j hj
          cases j with
          | zero =>
            have hblocks : m'.blocks blk = m1.blocks blk := by
              apply F2.blocks_eq
              intro e he hw
              obtain ⟨j, hj, hc⟩ := c2 e he
              rw [hw] at hc
              have := (isSlotOf_write _ _ _ _ _ hc).1
              rw [← gdt_blk_at_succ] at this
              exact hB 0 (j + 1) (by omega) (by omega) this
            have hdind : m'.dindir_buf (off % apb % U32) = m1.dindir_buf (off % apb % U32) := by
              by_cases hz : blk = 0
              · apply F2.dindir_index
                intro e he b d hw
                obtain ⟨j, hj, hc⟩ := c2 e he
                rw [hw] at hc
                have := (isSlotOf_added _ _ _ _ _ hc).2
                rw [← gdt_off_at_succ] at this
                rcases hI 0 (j + 1) (by omega) (by omega) with h0 | h0
                · exact h0 hz
                · exact h0 this
              · exact F2.dindir_nonzero _ (by rw [d1]; exact hz)
            refine ⟨?_, ?_⟩
            · show m'.dindir_buf (off % apb % U32) = blk
              rw [hdind, d1]
            · intro k hk
              show m'.blocks blk k = backup_block m.fs blk (backup_group env m.fs k)
              rw [hblocks]; exact d3 k hk
          | succ j =>
            have := k7 j (by omega)
            rw [gdt_blk_at_succ, gdt_off_at_succ]
            rw [F1.fs_eq] at this
            exact this

/-! ## The slot loop: mismatches and termination -/

theorem slot_loop_bad_slot (fuel : Nat) (env : Env) (rsv apb : Nat) :
    ∀ (n off blk : Nat) (m : Machine) (rv : Int) (m' : Machine),
      slot_loop fuel env rsv apb n off blk m = some (rv, m') →
      ∀ j, j < n → m.dindir_buf (gdt_off_at apb off j % apb % U32) ≠ 0 →
        m.dindir_buf (gdt_off_at apb off j % apb % U32) ≠ gdt_blk_at blk j → rv ≠ 0 := by
  intro n
  induction n with
  | zero => intro off blk m rv m' _ j hj; omega
  | succ n ih =>
    intro off blk m rv m' h j hj h0 h1
    simp only [slot_loop] at h
    cases hb : slot_body fuel env rsv apb off blk m with
    | none => rw [hb] at h; simp at h
    | some b =>
      rcases b with ⟨rv1, m1⟩
      rw [hb] at h
      simp only at h
      split_ifs at h with hrv
      · simp only [Option.some.injEq, Prod.mk.injEq] at h
        rw [← h.1]; exact hrv
      · simp only [ne_eq, Decidable.not_not] at hrv
        subst hrv
        obtain ⟨s1, F1, -, -⟩ := slot_body_Frame fuel env rsv apb off blk m 0 m1 hb
        cases j with
        | zero => exact absurd rfl (slot_body_bad_slot fuel env rsv apb off blk m 0 m1 hb h0 h1)
        | succ j =>
          rw [gdt_off_at_succ] at h0 h1
          rw [gdt_blk_at_succ] at h1
          have e := F1.dindir_nonzero _ h0
          exact ih _ _ _ _ _ h j (by omega) (by rw [e]; exact h0) (by rw [e]; exact h1)

theorem slot_loop_bad_entry (fuel : Nat) (env : Env) (rsv apb : Nat) :
    ∀ (n off blk : Nat) (m : Machine) (rv : Int) (m' : Machine),
      slot_loop fuel env rsv apb n off blk m = some (rv, m') →
      (∀ i j, i < j → j < n → gdt_blk_at blk i ≠ gdt_blk_at blk j) →
      ∀ j k, j < n → m.dindir_buf (gdt_off_at apb off j % apb % U32) = gdt_blk_at blk j →
        gdt_blk_at blk j ≠ 0 → HasBackup env m.fs k → m.blocks (gdt_blk_at blk j) k ≠ 0 →
        m.blocks (gdt_blk_at blk j) k ≠
          backup_block m.fs (gdt_blk_at blk j) (backup_group env m.fs k) →
        rv ≠ 0 ∧ m'.blocks (gdt_blk_at blk j) = m.blocks (gdt_blk_at blk j) := by
  intro n
  induction n with
  | zero => intro off blk m rv m' _ _ j k hj; omega
  | succ n ih =>
    intro off blk m rv m' h hB j k hj h0 h1 hk hz hne
    simp only [slot_loop] at h
    cases hb : slot_body fuel env rsv apb off blk m with
    | none => rw [hb] at h; simp at h
    | some b =>
      rcases b with ⟨rv1, m1⟩
      rw [hb] at h
      simp only at h
      split_ifs at h with hrv
      · simp only [Option.some.injEq, Prod.mk.injEq] at h
        obtain ⟨rfl, rfl⟩ := h
        exact ⟨hrv, by rw [slot_body_fail_blocks fuel env rsv apb off blk m rv1 m1 hb hrv]⟩
      · simp only [ne_eq, Decidable.not_not] at hrv
        subst hrv
        obtain ⟨s1, F1, c1, -⟩ := slot_body_Frame fuel env rsv apb off blk m 0 m1 hb
        cases j with
        | zero =>
          exact absurd rfl (slot_body_bad_entry fuel env rsv apb off blk m 0 m1 hb h0 h1 k hk hz hne)
        | succ j =>
          have hblocks : m1.blocks (gdt_blk_at blk (j + 1)) = m.blocks (gdt_blk_at blk (j + 1)) := by
            apply F1.blocks_eq
            intro e he hw
            have hc := c1 e he
            rw [hw] at hc
            have := (isSlotOf_write _ _ _ _ _ hc).1
            exact hB 0 (j + 1) (by omega) (by omega) this.symm
          have hB' : ∀ i j, i < j → j < n →
              gdt_blk_at ((blk + 1) % U32) i ≠ gdt_blk_at ((blk + 1) % U32) j := by
            intro i j hij hj
            rw [← gdt_blk_at_succ, ← gdt_blk_at_succ]
            exact hB (i + 1) (j + 1) (by omega) (by omega)
          have e := F1.dindir_nonzero (gdt_off_at apb off (j + 1) % apb % U32)
            (by rw [h0]; exact h1)
          rw [← hblocks] at hz hne ⊢
          rw [← e, gdt_off_at_succ, gdt_blk_at_succ] at h0
          rw [gdt_blk_at_succ] at hz hne h1 ⊢
          rw [← F1.fs_eq] at hk hne
          exact ih _ _ _ _ _ h hB' j k (by omega) h0 h1 hk hz hne

theorem slot_body_total (fuel : Nat) (env : Env) (rsv apb off blk : Nat) (m : Machine)
    (n : Nat) (hn : n < fuel) (hstop : ¬ backup_group env m.fs n < m.fs.group_desc_count) :
    ∃ r, slot_body fuel env rsv apb off blk m = some r := by
  simp only [slot_body]
  rcases hr : resolve_primary env rsv (off % apb % U32) blk m with ⟨rv0, d0, m0⟩
  obtain ⟨s0, F0, -⟩ := resolve_primary_Frame env rsv _ blk m rv0 d0 m0 hr
  simp only
  split_ifs with h0
  · exact ⟨_, rfl⟩
  · obtain ⟨b, hb⟩ := backup_loop_total env blk rsv n fuel 1 5 7 0 d0 m0 hn
      (by rw [F0.fs_eq]; exact hstop)
    rw [hb]
    simp only
    split_ifs
    · exact ⟨_, rfl⟩
    · exact ⟨_, rfl⟩

theorem slot_loop_total (fuel : Nat) (env : Env) (rsv apb : Nat) :
    ∀ (n off blk : Nat) (m : Machine) (k : Nat), k < fuel →
      ¬ backup_group env m.fs k < m.fs.group_desc_count →
      ∃ r, slot_loop fuel env rsv apb n off blk m = some r := by
  intro n
  induction n with
  | zero => intro off blk m k _ _; exact ⟨_, rfl⟩
  | succ n ih =>
    intro off blk m k hk hstop
    obtain ⟨⟨rv1, m1⟩, hb⟩ := slot_body_total fuel env rsv apb off blk m k hk hstop
    obtain ⟨s1, F1, -, -⟩ := slot_body_Frame fuel env rsv apb off blk m rv1 m1 hb
    simp only [slot_loop]
    rw [hb]
    simp only
    split_ifs
    · exact ⟨_, rfl⟩
    · exact ih _ _ _ k hk (by rw [F1.fs_eq]; exact hstop)

/-! ## The slot loop on a finished structure -/

theorem slot_body_clean (fuel : Nat) (env : Env) (rsv apb off blk : Nat) (m : Machine)
    (n : Nat) (hn : n < fuel) (h0 : m.dindir_buf (off % apb % U32) = blk) (h1 : blk ≠ 0)
    (hread : ∀ t b, env.read_blk t b = 0)
    (hlt : ∀ i, i < n → backup_group env m.fs i < m.fs.group_desc_count)
    (hstop : ¬ backup_group env m.fs n < m.fs.group_desc_count)
    (hent : ∀ j, j < n → m.blocks blk j = backup_block m.fs blk (backup_group env m.fs j) ∧
      m.blocks blk j ≠ 0) :
    slot_body fuel env rsv apb off blk m = some (0, { m with
      trace := m.trace ++ [Event.msg_reading_primary blk] ++ [Event.read_blk blk Buf.gdt_buf 0],
      gdt_buf := m.blocks blk }) := by
  simp only [slot_body]
  rw [resolve_primary_read env rsv _ blk m h0 h1 (hread _ _)]
  simp only [ne_eq, not_true_eq_false, if_false]
  have hb := backup_loop_clean env blk rsv n fuel 1 5 7 0 false
    { m with
      trace := m.trace ++ [Event.msg_reading_primary blk] ++ [Event.read_blk blk Buf.gdt_buf 0],
      gdt_buf := m.blocks blk } hn hlt hstop
    (by intro j hj; rw [Nat.zero_add]; exact hent j hj)
  rw [hb]
  simp [flush_primary]

theorem slot_loop_clean (fuel : Nat) (env : Env) (rsv apb : Nat) (k : Nat) (hk : k < fuel)
    (hread : ∀ t b, env.read_blk t b = 0) :
    ∀ (n off blk : Nat) (m : Machine),
      (∀ i, i < k → backup_group env m.fs i < m.fs.group_desc_count) →
      ¬ backup_group env m.fs k < m.fs.group_desc_count →
      (∀ j, j < n → m.dindir_buf (gdt_off_at apb off j % apb % U32) = gdt_blk_at blk j ∧
        gdt_blk_at blk j ≠ 0 ∧
        ∀ i, i < k → m.blocks (gdt_blk_at blk j) i =
            backup_block m.fs (gdt_blk_at blk j) (backup_group env m.fs i) ∧
          m.blocks (gdt_blk_at blk j) i ≠ 0) →
      ∃ m', slot_loop fuel env rsv apb n off blk m = some (0, m') ∧
        m'.fs = m.fs ∧ m'.blocks = m.blocks ∧ m'.disk_inode = m.disk_inode ∧
        m'.inode = m.inode ∧ m'.dindir_buf = m.dindir_buf ∧ m'.dindir_blk = m.dindir_blk ∧
        m'.dindir_dirty = m.dindir_dirty ∧ m'.inode_dirty = m.inode_dirty ∧
        ∃ suf, m'.trace = m.trace ++ suf ∧ ∀ e ∈ suf, e.isPrimaryRead = true := by
  intro n
  induction n with
  | zero =>
    intro off blk m _ _ _
    exact ⟨m, rfl, rfl, rfl, rfl, rfl, rfl, rfl, rfl, rfl, [], by simp, by simp⟩
  | succ n ih =>
    intro off blk m hlt hstop hall
    obtain ⟨a1, a2, a3⟩ := hall 0 (by omega)
    have hb := slot_body_clean fuel env rsv apb off blk m k hk a1 a2 hread hlt hstop a3
    simp only [slot_loop]
    rw [hb]
    simp only [ne_eq, not_true_eq_false, if_false]
    obtain ⟨m', e0, e1, e2, e3, e4, e5, e6, e7, e8, suf, e9, e10⟩ :=
      ih ((off % apb % U32 + 1) % U32) ((blk + 1) % U32)
        { m with
          trace := m.trace ++ [Event.msg_reading_primary blk] ++ [Event.read_blk blk Buf.gdt_buf 0],
          gdt_buf := m.blocks blk } hlt hstop
        (by
          intro j hj
          have := hall (j + 1) (by omega)
          rw [gdt_off_at_succ, gdt_blk_at_succ] at this
          exact this)
    refine ⟨m', e0, e1, e2, e3, e4, e5, e6, e7, e8,
      [Event.msg_reading_primary blk, Event.read_blk blk Buf.gdt_buf 0] ++ suf, ?_, ?_⟩
    · rw [e9]; simp
    · intro e he
      rcases List.mem_append.1 he with he | he
      · simp only [List.mem_cons, List.mem_singleton, List.not_mem_nil, or_false] at he
        rcases he with rfl | rfl <;> rfl
      · exact e10 e he

/-! ## The final flushes -/

theorem out_dindir_frame (env : Env) (rv : Int) (m : Machine) :
    (out_dindir env rv m).2.fs = m.fs ∧
    (out_dindir env rv m).2.dindir_blk = m.dindir_blk ∧
    (out_dindir env rv m).2.dindir_buf = m.dindir_buf ∧
    (out_dindir env rv m).2.dindir_dirty = m.dindir_dirty ∧
    (out_dindir env rv m).2.inode_dirty = m.inode_dirty ∧
    (out_dindir env rv m).2.inode.i_blocks = m.inode.i_blocks ∧
    (out_dindir env rv m).2.inode.i_block = m.inode.i_block ∧
    (out_dindir env rv m).2.inode.i_mode = m.inode.i_mode ∧
    (out_dindir env rv m).2.inode.i_links_count = m.inode.i_links_count ∧
    (out_dindir env rv m).2.inode.i_size = m.inode.i_size ∧
    (out_dindir env rv m).2.inode.i_size_high = m.inode.i_size_high ∧
    (out_dindir env rv m).2.inode.i_ctime = m.inode.i_ctime := by
  simp only [out_dindir, out_inode, out_free, Machine.log]
  split_ifs <;> simp

theorem out_dindir_retval_of_ne (env : Env) (rv : Int) (m : Machine) (h : rv ≠ 0) :
    (out_dindir env rv m).1 = rv := by
  simp only [out_dindir, out_inode, out_free, Machine.log]
  split_ifs <;> simp_all

theorem out_dindir_trace (env : Env) (rv : Int) (m : Machine) :
    ∃ osuf, (out_dindir env rv m).2.trace = m.trace ++ osuf ∧
      (∀ e ∈ osuf, e.isOut = true) ∧
      (rv = 0 → (out_dindir env rv m).1 = firstError osuf) ∧
      (m.dindir_dirty = true → ∃ e, Event.write_blk m.dindir_blk Buf.dindir_buf e ∈ osuf) ∧
      (m.inode_dirty = true → ∃ e, Event.write_inode e ∈ osuf) ∧
      (m.dindir_dirty = false → ∀ e ∈ osuf, e.isWriteBlk = false) ∧
      (m.inode_dirty = false → ∀ e ∈ osuf, e.isWriteInode = false) := by
  simp only [out_dindir, out_inode, out_free, Machine.log]
  split_ifs with h1 h2 h3 h4 h5 h6 h7 h8
  all_goals simp only [List.append_assoc]
  all_goals refine ⟨_, rfl, ?_⟩
  all_goals simp_all [Event.isOut, firstError, Event.err, Event.isWriteBlk, Event.isWriteInode]

theorem out_dindir_blocks_clean (env : Env) (rv : Int) (m : Machine)
    (h : m.dindir_dirty = false) : (out_dindir env rv m).2.blocks = m.blocks := by
  simp only [out_dindir, out_inode, out_free, Machine.log]
  split_ifs <;> simp_all

theorem out_dindir_blocks_written (env : Env) (rv : Int) (m : Machine)
    (h : m.dindir_dirty = true) (hw : env.write_blk m.trace m.dindir_blk = 0) :
    (out_dindir env rv m).2.blocks = setBlock m.blocks m.dindir_blk m.dindir_buf := by
  simp only [out_dindir, out_inode, out_free, Machine.log]
  split_ifs <;> simp_all

theorem out_dindir_blocks_other (env : Env) (rv : Int) (m : Machine) (a : Nat)
    (h : a ≠ m.dindir_blk) : (out_dindir env rv m).2.blocks a = m.blocks a := by
  simp only [out_dindir, out_inode, out_free, Machine.log]
  split_ifs <;> simp_all [setBlock]

theorem out_dindir_blocks_entry (env : Env) (rv : Int) (m : Machine) (a x : Nat)
    (h : m.blocks a x = m.dindir_buf x) : (out_dindir env rv m).2.blocks a x = m.blocks a x := by
  simp only [out_dindir, out_inode, out_free, Machine.log]
  split_ifs <;> simp_all [setBlock]
  all_goals split_ifs <;> simp_all

theorem out_dindir_zero (env : Env) (m : Machine) (h : (out_dindir env 0 m).1 = 0) :
    (m.dindir_dirty = true → (out_dindir env 0 m).2.blocks =
      setBlock m.blocks m.dindir_blk m.dindir_buf) ∧
    (m.inode_dirty = true → (out_dindir env 0 m).2.disk_inode = (out_dindir env 0 m).2.inode) := by
  simp only [out_dindir, out_inode, out_free, Machine.log] at h ⊢
  split_ifs at h ⊢ <;> simp_all

theorem out_dindir_disk_inode_clean (env : Env) (rv : Int) (m : Machine)
    (h : m.inode_dirty = false) : (out_dindir env rv m).2.disk_inode = m.disk_inode := by
  simp only [out_dindir, out_inode, out_free, Machine.log]
  split_ifs <;> simp_all

theorem out_dindir_disk_inode_written (env : Env) (rv : Int) (m : Machine)
    (h : m.inode_dirty = true) (hw : ∀ t, env.write_inode t = 0) :
    (out_dindir env rv m).2.disk_inode = (out_dindir env rv m).2.inode := by
  simp only [out_dindir, out_inode, out_free, Machine.log]
  split_ifs <;> simp_all

/-! ## The initializer and the whole function -/

theorem init_dindir_inl (env : Env) (rsv apb : Nat) (m : Machine) (r : Int × Machine)
    (h : init_dindir env rsv apb m = Sum.inl r) :
    (m.inode.i_block EXT2_DIND_BLOCK ≠ 0 ∧
      env.read_blk (m.trace ++ [Event.msg_reading_dindir (m.inode.i_block EXT2_DIND_BLOCK)])
        (m.inode.i_block EXT2_DIND_BLOCK) ≠ 0 ∧
      r = out_inode env
        (env.read_blk (m.trace ++ [Event.msg_reading_dindir (m.inode.i_block EXT2_DIND_BLOCK)])
          (m.inode.i_block EXT2_DIND_BLOCK))
        { m with
          dindir_blk := m.inode.i_block EXT2_DIND_BLOCK,
          trace := m.trace ++ [Event.msg_reading_dindir (m.inode.i_block EXT2_DIND_BLOCK)] ++
            [Event.read_blk (m.inode.i_block EXT2_DIND_BLOCK) Buf.dindir_buf
              (env.read_blk
                (m.trace ++ [Event.msg_reading_dindir (m.inode.i_block EXT2_DIND_BLOCK)])
                (m.inode.i_block EXT2_DIND_BLOCK))] }) ∨
    (m.inode.i_block EXT2_DIND_BLOCK = 0 ∧ (env.alloc_block m.trace (alloc_goal m.fs)).1 ≠ 0 ∧
      r = ((env.alloc_block m.trace (alloc_goal m.fs)).1,
        { m with
          dindir_blk := m.inode.i_block EXT2_DIND_BLOCK,
          trace := m.trace ++ [Event.alloc_block (alloc_goal m.fs)
            (env.alloc_block m.trace (alloc_goal m.fs)).1
            (env.alloc_block m.trace (alloc_goal m.fs)).2] })) := by
  simp only [init_dindir, Machine.log, out_free] at h
  split_ifs at h with h1 h2 h3
  · simp only [Sum.inl.injEq] at h
    exact Or.inl ⟨h1, h2, h.symm⟩
  · simp only [ne_eq, Decidable.not_not] at h1
    simp only [Sum.inl.injEq] at h
    exact Or.inr ⟨h1, h3, h.symm⟩

theorem init_dindir_inr (env : Env) (rsv apb : Nat) (m : Machine) (mi : Machine)
    (h : init_dindir env rsv apb m = Sum.inr mi) :
    mi.blocks = m.blocks ∧ mi.disk_inode = m.disk_inode ∧
    mi.fs.magic = m.fs.magic ∧ mi.fs.blocksize = m.fs.blocksize ∧
    mi.fs.desc_blocks = m.fs.desc_blocks ∧
    mi.fs.inode_blocks_per_group = m.fs.inode_blocks_per_group ∧
    mi.fs.group_desc_count = m.fs.group_desc_count ∧
    mi.fs.super.s_reserved_gdt_blocks = m.fs.super.s_reserved_gdt_blocks ∧
    mi.fs.super.s_first_data_block = m.fs.super.s_first_data_block ∧
    mi.fs.super.s_blocks_per_group = m.fs.super.s_blocks_per_group ∧
    mi.fs.super.s_log_block_size = m.fs.super.s_log_block_size ∧
    ∃ isuf, mi.trace = m.trace ++ isuf ∧ firstError isuf = 0 ∧
      (∀ e ∈ isuf, e.isInit = true) ∧
      ((m.inode.i_block EXT2_DIND_BLOCK ≠ 0 ∧ mi.fs = m.fs ∧ mi.inode = m.inode ∧
          mi.dindir_blk = m.inode.i_block EXT2_DIND_BLOCK ∧
          mi.dindir_buf = m.blocks (m.inode.i_block EXT2_DIND_BLOCK) ∧
          mi.dindir_dirty = m.dindir_dirty ∧ mi.inode_dirty = m.inode_dirty ∧
          isuf.countP Event.isNewDindir = 0 ∧ isuf.countP Event.isAlloc = 0) ∨
       (m.inode.i_block EXT2_DIND_BLOCK = 0 ∧ mi.dindir_dirty = true ∧ mi.inode_dirty = true ∧
          mi.dindir_buf = (fun _ => 0) ∧ mi.inode.i_blocks = rsv % U32 ∧
          mi.inode.i_block EXT2_DIND_BLOCK = mi.dindir_blk ∧
          isuf.countP Event.isNewDindir = 1 ∧ isuf.countP Event.isAlloc = 1)) := by
  simp only [init_dindir, Machine.log, out_free] at h
  split_ifs at h with h1 h2 h3 h4
  · simp only [Sum.inr.injEq] at h
    subst h
    simp only [ne_eq, Decidable.not_not] at h2
    refine ⟨rfl, rfl, rfl, rfl, rfl, rfl, rfl, rfl, rfl, rfl, rfl,
      [Event.msg_reading_dindir (m.inode.i_block EXT2_DIND_BLOCK),
       Event.read_blk (m.inode.i_block EXT2_DIND_BLOCK) Buf.dindir_buf 0], ?_, ?_, ?_, ?_⟩
    · simp [h2]
    · simp [firstError, Event.err]
    · simp [Event.isInit]
    · exact Or.inl ⟨h1, rfl, rfl, rfl, rfl, rfl, rfl, by simp [Event.isNewDindir],
        by simp [Event.isAlloc]⟩
  · simp only [Sum.inr.injEq] at h
    have ht := (congrArg Machine.trace h).symm
    simp only [List.append_assoc] at ht
    subst h
    simp only [ne_eq, Decidable.not_not] at h1 h3
    refine ⟨rfl, rfl, rfl, rfl, rfl, rfl, rfl, rfl, rfl, rfl, rfl, _, ht, ?_, ?_, ?_⟩
    · simp [firstError, Event.err, h3]
    · simp [Event.isInit]
    · exact Or.inr ⟨h1, rfl, rfl, rfl, rfl, by simp [setEntry], by simp [Event.isNewDindir],
        by simp [Event.isAlloc]⟩
  · simp only [Sum.inr.injEq] at h
    have ht := (congrArg Machine.trace h).symm
    simp only [List.append_assoc] at ht
    subst h
    simp only [ne_eq, Decidable.not_not] at h1 h3
    refine ⟨rfl, rfl, rfl, rfl, rfl, rfl, rfl, rfl, rfl, rfl, rfl, _, ht, ?_, ?_, ?_⟩
    · simp [firstError, Event.err, h3]
    · simp [Event.isInit]
    · exact Or.inr ⟨h1, rfl, rfl, rfl, rfl, by simp [setEntry], by simp [Event.isNewDindir],
        by simp [Event.isAlloc]⟩

theorem run_inv (fuel : Nat) (env : Env) (fs : ext2_filsys) (blocks : Nat → Nat → Nat)
    (ino : ext2_inode) (r : Int × Machine)
    (h : ext2fs_create_resize_inode fuel env (initMachine fs blocks ino) = some r)
    (hmagic : fs.magic = EXT2_ET_MAGIC_EXT2FS_FILSYS)
    (hN : fs.super.s_reserved_gdt_blocks ≠ 0) :
    (env.get_mem [] ≠ 0 ∧
      r = (env.get_mem [], (initMachine fs blocks ino).log (Event.get_mem (env.get_mem [])))) ∨
    (env.get_mem [] = 0 ∧ env.read_inode [Event.get_mem 0] ≠ 0 ∧
      r = (env.read_inode [Event.get_mem 0],
        { initMachine fs blocks ino with
          trace := [Event.get_mem 0, Event.read_inode (env.read_inode [Event.get_mem 0])] })) ∨
    (env.get_mem [] = 0 ∧ env.read_inode [Event.get_mem 0] = 0 ∧
      init_dindir env (fs.blocksize / 512) (EXT2_ADDR_PER_BLOCK fs.super)
        (afterReadInode fs blocks ino) = Sum.inl r) ∨
    (env.get_mem [] = 0 ∧ env.read_inode [Event.get_mem 0] = 0 ∧ ∃ mi rv ml,
      init_dindir env (fs.blocksize / 512) (EXT2_ADDR_PER_BLOCK fs.super)
        (afterReadInode fs blocks ino) = Sum.inr mi ∧
      slot_loop fuel env (fs.blocksize / 512) (EXT2_ADDR_PER_BLOCK fs.super)
        fs.super.s_reserved_gdt_blocks (fs.desc_blocks % U32)
        ((fs.super.s_first_data_block + 1 + fs.desc_blocks % U32) % U32) mi = some (rv, ml) ∧
      r = out_dindir env rv ml) := by
  simp only [ext2fs_create_resize_inode, initMachine, Machine.log, out_free] at h
  rw [if_neg (by simpa using hmagic), if_neg hN] at h
  simp only [List.nil_append] at h
  split_ifs at h with h1 h2
  · simp only [Option.some.injEq] at h
    exact Or.inl ⟨h1, by rw [← h]; rfl⟩
  · simp only [ne_eq, Decidable.not_not] at h1
    rw [h1] at h2
    simp only [Option.some.injEq] at h
    refine Or.inr (Or.inl ⟨h1, h2, ?_⟩)
    rw [← h, h1]; rfl
  · simp only [ne_eq, Decidable.not_not] at h1 h2
    rw [h1] at h2
    refine Or.inr (Or.inr ?_)
    rw [h1, h2] at h
    cases hi : init_dindir env (fs.blocksize / 512) (EXT2_ADDR_PER_BLOCK fs.super)
        (afterReadInode fs blocks ino) with
    | inl r0 =>
      simp only [afterReadInode, initMachine] at hi
      simp only [List.singleton_append] at h
      rw [hi] at h
      simp only [Option.some.injEq] at h
      exact Or.inl ⟨h1, h2, by rw [h]⟩
    | inr mi =>
      have hf := init_dindir_inr env _ _ _ mi hi
      simp only [afterReadInode, initMachine] at hi hf
      simp only [List.singleton_append] at h
      rw [hi] at h
      simp only at h
      obtain ⟨-, -, -, -, f5, -, -, f8, f9, -, -, -⟩ := hf
      rw [f5, f8, f9] at h
      cases hl : slot_loop fuel env (fs.blocksize / 512) (EXT2_ADDR_PER_BLOCK fs.super)
          fs.super.s_reserved_gdt_blocks (fs.desc_blocks % U32)
          ((fs.super.s_first_data_block + 1 + fs.desc_blocks % U32) % U32) mi with
      | none => rw [hl] at h; simp at h
      | some b =>
        rcases b with ⟨rv, ml⟩
        rw [hl] at h
        simp only [Option.some.injEq] at h
        exact Or.inr ⟨h1, h2, mi, rv, ml, rfl, hl, h.symm⟩

/-! ## Closed forms of the running variables -/

theorem gdt_blk_at_eq (blk j : Nat) (h : blk < U32) : gdt_blk_at blk j = (blk + j) % U32 := by
  induction j with
  | zero => simp only [gdt_blk_at, Nat.add_zero]; exact (Nat.mod_eq_of_lt h).symm
  | succ j ih =>
    simp only [gdt_blk_at, ih, U32]
    omega

theorem gdt_blk_at_slot (fs : ext2_filsys) (j : Nat) :
    gdt_blk_at ((fs.super.s_first_data_block + 1 + fs.desc_blocks % U32) % U32) j =
      slot_block fs j := by
  rw [gdt_blk_at_eq _ _ (Nat.mod_lt _ U32_pos)]
  simp only [slot_block, U32]
  omega

theorem apb_eq (sb : ext2_super_block) :
    EXT2_ADDR_PER_BLOCK sb = 2 ^ (8 + sb.s_log_block_size) := by
  simp only [EXT2_ADDR_PER_BLOCK, Nat.shiftLeft_eq]
  rw [pow_add]
  omega

theorem apb_pos (sb : ext2_super_block) : 0 < EXT2_ADDR_PER_BLOCK sb := by
  rw [apb_eq]; positivity

theorem apb_dvd (sb : ext2_super_block) (h : sb.s_log_block_size ≤ 20) :
    EXT2_ADDR_PER_BLOCK sb ∣ U32 := by
  rw [apb_eq, show U32 = 2 ^ 32 by rfl]
  exact Nat.pow_dvd_pow 2 (by omega)

theorem gdt_off_at_mod (apb off j : Nat) (hpos : 0 < apb) (hdvd : apb ∣ U32) :
    gdt_off_at apb off j % apb % U32 = (off + j) % apb := by
  have hle : apb ≤ U32 := Nat.le_of_dvd U32_pos hdvd
  have key : ∀ j, gdt_off_at apb off j % apb = (off + j) % apb := by
    intro j
    induction j with
    | zero => rfl
    | succ j ih =>
      simp only [gdt_off_at]
      rw [Nat.mod_mod_of_dvd _ hdvd]
      have hlt : gdt_off_at apb off j % apb < apb := Nat.mod_lt _ hpos
      rw [Nat.mod_eq_of_lt (lt_of_lt_of_le hlt hle), ih, ← Nat.add_assoc]
      exact Nat.mod_add_mod _ _ _
  rw [key j]
  exact Nat.mod_eq_of_lt (lt_of_lt_of_le (Nat.mod_lt _ hpos) hle)

theorem gdt_off_at_slot (fs : ext2_filsys) (j : Nat) (h : fs.super.s_log_block_size ≤ 20) :
    gdt_off_at (EXT2_ADDR_PER_BLOCK fs.super) (fs.desc_blocks % U32) j %
      EXT2_ADDR_PER_BLOCK fs.super % U32 = slot_index fs j := by
  rw [gdt_off_at_mod _ _ _ (apb_pos _) (apb_dvd _ h)]
  simp only [slot_index]
  rw [Nat.add_mod, Nat.mod_mod_of_dvd _ (apb_dvd _ h), ← Nat.add_mod]

theorem slot_block_inj (fs : ext2_filsys) (i j n : Nat) (hn : n ≤ U32) (hij : i < j)
    (hj : j < n) : slot_block fs i ≠ slot_block fs j := by
  simp only [slot_block, U32] at *
  omega

theorem slot_index_inj (fs : ext2_filsys) (i j : Nat) (hij : i < j)
    (hj : j < EXT2_ADDR_PER_BLOCK fs.super) : slot_index fs i ≠ slot_index fs j := by
  simp only [slot_index]
  intro h
  have h1 : (fs.desc_blocks + i) ≡ (fs.desc_blocks + j) [MOD EXT2_ADDR_PER_BLOCK fs.super] := h
  have h2 : i ≡ j [MOD EXT2_ADDR_PER_BLOCK fs.super] := Nat.ModEq.add_left_cancel' _ h1
  have h3 := (Nat.modEq_iff_dvd' (le_of_lt hij)).1 h2
  have h4 := Nat.le_of_dvd (by omega) h3
  omega

/-! ## The slot loop in the closed forms -/

theorem backup_block_congr (fs fs' : ext2_filsys)
    (h : fs'.super.s_blocks_per_group = fs.super.s_blocks_per_group) (b g : Nat) :
    backup_block fs' b g = backup_block fs b g := by
  simp only [backup_block, h]

/-- The slot loop as the function runs it, in the closed forms of the spec:
what it logged, what it may have changed, and the slots it completed. -/
theorem loop_summary (fuel : Nat) (env : Env) (fs : ext2_filsys) (mi : Machine) (rv : Int)
    (ml : Machine)
    (hl : slot_loop fuel env (fs.blocksize / 512) (EXT2_ADDR_PER_BLOCK fs.super)
      fs.super.s_reserved_gdt_blocks (fs.desc_blocks % U32)
      ((fs.super.s_first_data_block + 1 + fs.desc_blocks % U32) % U32) mi = some (rv, ml))
    (hbpg : mi.fs.super.s_blocks_per_group = fs.super.s_blocks_per_group)
    (hlog : fs.super.s_log_block_size ≤ 20) :
    ∃ suf, Frame (fs.blocksize / 512) mi ml suf ∧ firstError suf = rv ∧
      (∀ e ∈ suf, ∃ j, j < fs.super.s_reserved_gdt_blocks ∧
        e.isSlotOf (slot_block fs j) (slot_index fs j) = true) ∧
      (fs.super.s_reserved_gdt_blocks < U32 →
        (fs.super.s_reserved_gdt_blocks ≤ EXT2_ADDR_PER_BLOCK fs.super ∨
          ∀ i, i < fs.super.s_reserved_gdt_blocks → slot_block fs i ≠ 0) →
        ∃ c sdone sfail, c ≤ fs.super.s_reserved_gdt_blocks ∧
          (rv = 0 → c = fs.super.s_reserved_gdt_blocks) ∧
          (rv ≠ 0 → c < fs.super.s_reserved_gdt_blocks) ∧
          suf = sdone ++ sfail ∧ firstError sdone = 0 ∧
          (∀ e ∈ sfail, e.isSlotOf (slot_block fs c) (slot_index fs c) = true) ∧
          ∀ j, j < c → ml.dindir_buf (slot_index fs j) = slot_block fs j ∧
            ∀ k, HasBackup env ml.fs k →
              ml.blocks (slot_block fs j) k =
                backup_block fs (slot_block fs j) (backup_group env ml.fs k)) := by
  obtain ⟨suf, F, cls, fe⟩ := slot_loop_Frame fuel env _ _ _ _ _ _ _ _ hl
  refine ⟨suf, F, fe, ?_, ?_⟩
  · intro e he
    obtain ⟨j, hj, hc⟩ := cls e he
    rw [gdt_blk_at_slot, gdt_off_at_slot fs j hlog] at hc
    exact ⟨j, hj, hc⟩
  · intro hN hsep
    have hB : ∀ i j, i < j → j < fs.super.s_reserved_gdt_blocks →
        gdt_blk_at ((fs.super.s_first_data_block + 1 + fs.desc_blocks % U32) % U32) i ≠
          gdt_blk_at ((fs.super.s_first_data_block + 1 + fs.desc_blocks % U32) % U32) j := by
      intro i j hij hj
      rw [gdt_blk_at_slot, gdt_blk_at_slot]
      exact slot_block_inj fs i j _ (le_of_lt hN) hij hj
    have hI : ∀ i j, i < j → j < fs.super.s_reserved_gdt_blocks →
        gdt_blk_at ((fs.super.s_first_data_block + 1 + fs.desc_blocks % U32) % U32) i ≠ 0 ∨
        gdt_off_at (EXT2_ADDR_PER_BLOCK fs.super) (fs.desc_blocks % U32) i %
            EXT2_ADDR_PER_BLOCK fs.super % U32 ≠
          gdt_off_at (EXT2_ADDR_PER_BLOCK fs.super) (fs.desc_blocks % U32) j %
            EXT2_ADDR_PER_BLOCK fs.super % U32 := by
      intro i j hij hj
      rw [gdt_blk_at_slot, gdt_off_at_slot fs i hlog, gdt_off_at_slot fs j hlog]
      rcases hsep with h | h
      · exact Or.inr (slot_index_inj fs i j hij (by omega))
      · exact Or.inl (h i (by omega))
    obtain ⟨c, sd, sf, k1, k2, k3, k4, k5, k6, k7⟩ :=
      slot_loop_done fuel env _ _ _ _ _ _ _ _ hl hB hI
    refine ⟨c, sd, sf, k1, k2, k3, ?_, k5, ?_, ?_⟩
    · have := F.trace_eq
      rw [k4, List.append_assoc] at this
      exact (List.append_cancel_left this).symm
    · rw [gdt_blk_at_slot, gdt_off_at_slot fs c hlog] at k6
      exact k6
    · intro j hj
      have := k7 j hj
      rw [gdt_blk_at_slot, gdt_off_at_slot fs j hlog] at this
      refine ⟨this.1, ?_⟩
      intro k hk
      rw [F.fs_eq] at hk ⊢
      rw [this.2 k hk, backup_block_congr fs mi.fs hbpg]

/-! ## Runs that succeed -/

theorem magic_ne_zero : EXT2_ET_MAGIC_EXT2FS_FILSYS ≠ 0 := by decide

theorem run_bad_magic (fuel : Nat) (env : Env) (m : Machine)
    (h : m.fs.magic ≠ EXT2_ET_MAGIC_EXT2FS_FILSYS) :
    ext2fs_create_resize_inode fuel env m = some (EXT2_ET_MAGIC_EXT2FS_FILSYS, m) := by
  simp only [ext2fs_create_resize_inode]
  rw [if_pos h]

theorem run_no_slots (fuel : Nat) (env : Env) (m : Machine)
    (h : m.fs.magic = EXT2_ET_MAGIC_EXT2FS_FILSYS) (h0 : m.fs.super.s_reserved_gdt_blocks = 0) :
    ext2fs_create_resize_inode fuel env m = some (0, m) := by
  simp only [ext2fs_create_resize_inode]
  rw [if_neg (by simpa using h), if_pos h0]

theorem out_inode_retval_of_ne (env : Env) (rv : Int) (m : Machine) (h : rv ≠ 0) :
    (out_inode env rv m).1 = rv := by
  simp only [out_inode, out_free, Machine.log]
  split_ifs <;> simp_all

theorem init_dindir_inl_ne (env : Env) (rsv apb : Nat) (m : Machine) (r : Int × Machine)
    (h : init_dindir env rsv apb m = Sum.inl r) : r.1 ≠ 0 := by
  rcases init_dindir_inl env rsv apb m r h with ⟨-, h2, rfl⟩ | ⟨-, h2, rfl⟩
  · rw [out_inode_retval_of_ne _ _ _ h2]; exact h2
  · exact h2

/-- A run that returns success went through the initializer, the whole slot
loop and the final flushes, each without error. -/
theorem run_success_inv (fuel : Nat) (env : Env) (fs : ext2_filsys) (blocks : Nat → Nat → Nat)
    (ino : ext2_inode) (r : Int × Machine)
    (h : ext2fs_create_resize_inode fuel env (initMachine fs blocks ino) = some r)
    (hok : r.1 = 0) (hN : fs.super.s_reserved_gdt_blocks ≠ 0) :
    fs.magic = EXT2_ET_MAGIC_EXT2FS_FILSYS ∧
    env.get_mem [] = 0 ∧ env.read_inode [Event.get_mem 0] = 0 ∧ ∃ mi ml,
      init_dindir env (fs.blocksize / 512) (EXT2_ADDR_PER_BLOCK fs.super)
        (afterReadInode fs blocks ino) = Sum.inr mi ∧
      slot_loop fuel env (fs.blocksize / 512) (EXT2_ADDR_PER_BLOCK fs.super)
        fs.super.s_reserved_gdt_blocks (fs.desc_blocks % U32)
        ((fs.super.s_first_data_block + 1 + fs.desc_blocks % U32) % U32) mi = some (0, ml) ∧
      r = out_dindir env 0 ml := by
  have hmagic : fs.magic = EXT2_ET_MAGIC_EXT2FS_FILSYS := by
    by_contra hm
    rw [run_bad_magic fuel env _ hm] at h
    simp only [Option.some.injEq] at h
    rw [← h] at hok
    exact magic_ne_zero hok
  refine ⟨hmagic, ?_⟩
  rcases run_inv fuel env fs blocks ino r h hmagic hN with
    ⟨h1, rfl⟩ | ⟨-, h2, rfl⟩ | ⟨-, -, h3⟩ | ⟨h1, h2, mi, rv, ml, h3, h4, rfl⟩
  · exact absurd hok h1
  · exact absurd hok h2
  · exact absurd hok (init_dindir_inl_ne _ _ _ _ _ h3)
  · have hrv : rv = 0 := by
      by_contra hne
      rw [out_dindir_retval_of_ne env rv ml hne] at hok
      exact hne hok
    subst hrv
    exact ⟨h1, h2, mi, ml, h3, h4, rfl⟩

/-- After the slot loop the double-indirect block in storage is still what
was loaded, as long as no primary block lies at its address. -/
theorem loop_keeps_dindir_block (rsv : Nat) (fs : ext2_filsys) (mi ml : Machine)
    (suf : List Event) (F : Frame rsv mi ml suf)
    (cls : ∀ e ∈ suf, ∃ j, j < fs.super.s_reserved_gdt_blocks ∧
      e.isSlotOf (slot_block fs j) (slot_index fs j) = true)
    (halias : ∀ i, i < fs.super.s_reserved_gdt_blocks → slot_block fs i ≠ mi.dindir_blk) :
    ml.blocks mi.dindir_blk = mi.blocks mi.dindir_blk := by
  apply F.blocks_eq
  intro e he hw
  obtain ⟨j, hj, hc⟩ := cls e he
  rw [hw] at hc
  exact halias j hj (isSlotOf_write _ _ _ _ _ hc).1.symm

theorem loop_clean_dindir_buf (rsv : Nat) (mi ml : Machine) (suf : List Event)
    (F : Frame rsv mi ml suf) (h : ml.dindir_dirty = false) :
    mi.dindir_dirty = false ∧ ml.dindir_buf = mi.dindir_buf := by
  have hiff := F.dindir_dirty_iff
  have h1 : mi.dindir_dirty = false := by
    cases hd : mi.dindir_dirty with
    | false => rfl
    | true => rw [hiff.2 (Or.inl hd)] at h; exact absurd h (by simp)
  have h2 : suf.countP Event.isNewPrimary = 0 := by
    by_contra hc
    rw [hiff.2 (Or.inr (by omega))] at h
    exact absurd h (by simp)
  refine ⟨h1, funext fun x => F.dindir_index x ?_⟩
  intro e he b d hw
  rw [List.countP_eq_zero] at h2
  have := h2 e he
  rw [hw] at this
  simp [Event.isNewPrimary] at this

/-! ## The two ways through the initializer -/

theorem out_inode_trace (env : Env) (rv : Int) (m : Machine) :
    ∃ osuf, (out_inode env rv m).2.trace = m.trace ++ osuf ∧ (∀ e ∈ osuf, e.isOut = true) ∧
      (m.inode_dirty = false → ∀ e ∈ osuf, e.isWriteBlk = false ∧ e.isWriteInode = false) := by
  simp only [out_inode, out_free, Machine.log]
  split_ifs
  all_goals simp only [List.append_assoc]
  all_goals refine ⟨_, rfl, ?_⟩
  all_goals simp_all [Event.isOut, Event.isWriteBlk, Event.isWriteInode]

theorem out_inode_frame (env : Env) (rv : Int) (m : Machine) (h : m.inode_dirty = false) :
    (out_inode env rv m).2.fs = m.fs ∧ (out_inode env rv m).2.blocks = m.blocks ∧
    (out_inode env rv m).2.disk_inode = m.disk_inode ∧ (out_inode env rv m).2.inode = m.inode ∧
    (out_inode env rv m).2.dindir_dirty = m.dindir_dirty ∧
    (out_inode env rv m).2.inode_dirty = m.inode_dirty ∧ (out_inode env rv m).1 = rv := by
  simp only [out_inode, out_free, Machine.log]
  split_ifs <;> simp_all

/-- The initializer that allocates: the machine at the slot loop. -/
theorem init_dindir_alloc (env : Env) (fs : ext2_filsys) (blocks : Nat → Nat → Nat)
    (ino : ext2_inode) (mi : Machine)
    (h : init_dindir env (fs.blocksize / 512) (EXT2_ADDR_PER_BLOCK fs.super)
      (afterReadInode fs blocks ino) = Sum.inr mi)
    (hz : ino.i_block EXT2_DIND_BLOCK = 0) :
    mi.fs = fsAfterAlloc fs ∧
    mi.inode.i_size = inode_size fs % U32 ∧ mi.inode.i_size_high = inode_size fs / U32 % U32 ∧
    mi.inode.i_mode = LINUX_S_IFREG ||| 0o600 ∧ mi.inode.i_links_count = 1 ∧
    mi.inode.i_blocks = fs.blocksize / 512 % U32 ∧
    ∃ blk t, mi.dindir_blk = blk ∧ mi.inode.i_ctime = t % U32 ∧
      mi.trace = [Event.get_mem 0, Event.read_inode 0, Event.alloc_block (alloc_goal fs) 0 blk,
        Event.dbg_allocated_dindir blk, Event.time t] := by
  simp only [init_dindir, Machine.log, out_free, afterReadInode, initMachine] at h
  rw [if_neg (by simpa using hz)] at h
  split_ifs at h with h3 h4
  · simp only [Sum.inr.injEq] at h
    subst h
    simp only [ne_eq, Decidable.not_not] at h3
    refine ⟨?_, rfl, rfl, rfl, rfl, rfl, _, _, rfl, rfl, ?_⟩
    · simp only [fsAfterAlloc, inode_size]
      rw [if_pos h4]
    · simp [alloc_goal, h3]
  · simp only [Sum.inr.injEq] at h
    subst h
    simp only [ne_eq, Decidable.not_not] at h3
    refine ⟨?_, rfl, rfl, rfl, rfl, rfl, _, _, rfl, rfl, ?_⟩
    · simp only [fsAfterAlloc, inode_size]
      rw [if_neg h4]
    · simp [alloc_goal, h3]

/-- The initializer that loads: the machine at the slot loop. -/
theorem init_dindir_load (env : Env) (fs : ext2_filsys) (blocks : Nat → Nat → Nat)
    (ino : ext2_inode) (mi : Machine)
    (h : init_dindir env (fs.blocksize / 512) (EXT2_ADDR_PER_BLOCK fs.super)
      (afterReadInode fs blocks ino) = Sum.inr mi)
    (hz : ino.i_block EXT2_DIND_BLOCK ≠ 0) :
    mi = { afterReadInode fs blocks ino with
      dindir_blk := ino.i_block EXT2_DIND_BLOCK,
      dindir_buf := blocks (ino.i_block EXT2_DIND_BLOCK),
      trace := [Event.get_mem 0, Event.read_inode 0,
        Event.msg_reading_dindir (ino.i_block EXT2_DIND_BLOCK),
        Event.read_blk (ino.i_block EXT2_DIND_BLOCK) Buf.dindir_buf 0] } := by
  simp only [init_dindir, Machine.log, out_free, afterReadInode, initMachine] at h
  rw [if_pos hz] at h
  split_ifs at h with h3
  simp only [Sum.inr.injEq] at h
  subst h
  simp only [ne_eq, Decidable.not_not, List.cons_append, List.nil_append] at h3
  simp [h3, afterReadInode, initMachine]

/-! ## The log of a run -/

theorem isOut_not_init (e : Event) (h : e.isOut = true) :
    e.isAlloc = false ∧ e.isNewDindir = false ∧ e.isNewPrimary = false ∧
    e.isNewBackup = false ∧ (∀ x, e ≠ Event.read_inode x) ∧ (∀ x, e ≠ Event.get_mem x) ∧
    (∀ b x, e ≠ Event.read_blk b Buf.dindir_buf x) ∧ (∀ b x, e ≠ Event.write_blk b Buf.gdt_buf x) ∧
    (∀ a b c d, e ≠ Event.msg_bad_primary a b c d) ∧
    (∀ a b c d, e ≠ Event.msg_bad_backup a b c d) := by
  cases e with
  | read_blk b buf x =>
    cases buf <;> simp_all [Event.isOut, Event.isAlloc, Event.isNewDindir, Event.isNewPrimary,
      Event.isNewBackup]
  | write_blk b buf x =>
    cases buf <;> simp_all [Event.isOut, Event.isAlloc, Event.isNewDindir, Event.isNewPrimary,
      Event.isNewBackup]
  | _ =>
    simp_all [Event.isOut, Event.isAlloc, Event.isNewDindir, Event.isNewPrimary,
      Event.isNewBackup]

theorem isSlotOf_not_init (blk idx : Nat) (e : Event) (h : e.isSlotOf blk idx = true) :
    e.isAlloc = false ∧ e.isNewDindir = false ∧ e.isWriteInode = false ∧ e.isOut = false ∧
    (∀ x, e ≠ Event.read_inode x) ∧ (∀ x, e ≠ Event.get_mem x) ∧
    (∀ b x, e ≠ Event.read_blk b Buf.dindir_buf x) ∧
    (∀ b x, e ≠ Event.write_blk b Buf.dindir_buf x) := by
  cases e with
  | read_blk b buf x =>
    cases buf <;> simp_all [Event.isSlotOf, Event.isAlloc, Event.isNewDindir,
      Event.isWriteInode, Event.isOut]
  | write_blk b buf x =>
    cases buf <;> simp_all [Event.isSlotOf, Event.isAlloc, Event.isNewDindir,
      Event.isWriteInode, Event.isOut]
  | _ =>
    simp_all [Event.isSlotOf, Event.isAlloc, Event.isNewDindir, Event.isWriteInode,
      Event.isOut]

/-- The log of a run that reached the slot loop: the log of the initializer,
then events of the slots, then events of the final flushes. -/
theorem loop_run_trace (fuel : Nat) (env : Env) (fs : ext2_filsys) (mi : Machine) (rv : Int)
    (ml : Machine)
    (hl : slot_loop fuel env (fs.blocksize / 512) (EXT2_ADDR_PER_BLOCK fs.super)
      fs.super.s_reserved_gdt_blocks (fs.desc_blocks % U32)
      ((fs.super.s_first_data_block + 1 + fs.desc_blocks % U32) % U32) mi = some (rv, ml)) :
    ∃ suf osuf, Frame (fs.blocksize / 512) mi ml suf ∧ firstError suf = rv ∧
      (out_dindir env rv ml).2.trace = mi.trace ++ suf ++ osuf ∧
      (∀ e ∈ suf, ∃ j, j < fs.super.s_reserved_gdt_blocks ∧
        e.isSlotOf (gdt_blk_at ((fs.super.s_first_data_block + 1 + fs.desc_blocks % U32) % U32) j)
          (gdt_off_at (EXT2_ADDR_PER_BLOCK fs.super) (fs.desc_blocks % U32) j %
            EXT2_ADDR_PER_BLOCK fs.super % U32) = true) ∧
      (∀ e ∈ osuf, e.isOut = true) ∧
      (rv = 0 → (out_dindir env rv ml).1 = firstError osuf) ∧
      (ml.dindir_dirty = true → ∃ e, Event.write_blk ml.dindir_blk Buf.dindir_buf e ∈ osuf) ∧
      (ml.inode_dirty = true → ∃ e, Event.write_inode e ∈ osuf) ∧
      (ml.dindir_dirty = false → ∀ e ∈ osuf, e.isWriteBlk = false) ∧
      (ml.inode_dirty = false → ∀ e ∈ osuf, e.isWriteInode = false) := by
  obtain ⟨suf, F, cls, fe⟩ := slot_loop_Frame fuel env _ _ _ _ _ _ _ _ hl
  obtain ⟨osuf, o1, o2, o3, o4, o5, o6, o7⟩ := out_dindir_trace env rv ml
  refine ⟨suf, osuf, F, fe, ?_, cls, o2, o3, o4, o5, o6, o7⟩
  rw [o1, F.trace_eq]

/-- A run whose log records a successful allocation went through the
allocating initializer and reached the slot loop. -/
theorem run_allocated_inv (fuel : Nat) (env : Env) (fs : ext2_filsys)
    (blocks : Nat → Nat → Nat) (ino : ext2_inode) (r : Int × Machine)
    (h : ext2fs_create_resize_inode fuel env (initMachine fs blocks ino) = some r)
    (g b : Nat) (ha : Event.alloc_block g 0 b ∈ r.2.trace) :
    ino.i_block EXT2_DIND_BLOCK = 0 ∧ ∃ mi rv ml,
      init_dindir env (fs.blocksize / 512) (EXT2_ADDR_PER_BLOCK fs.super)
        (afterReadInode fs blocks ino) = Sum.inr mi ∧
      slot_loop fuel env (fs.blocksize / 512) (EXT2_ADDR_PER_BLOCK fs.super)
        fs.super.s_reserved_gdt_blocks (fs.desc_blocks % U32)
        ((fs.super.s_first_data_block + 1 + fs.desc_blocks % U32) % U32) mi = some (rv, ml) ∧
      r = out_dindir env rv ml := by
  by_cases hmagic : fs.magic = EXT2_ET_MAGIC_EXT2FS_FILSYS
  swap
  · rw [run_bad_magic fuel env _ hmagic] at h
    simp only [Option.some.injEq] at h
    subst h
    simp [initMachine] at ha
  by_cases hN : fs.super.s_reserved_gdt_blocks = 0
  · rw [run_no_slots fuel env _ hmagic hN] at h
    simp only [Option.some.injEq] at h
    subst h
    simp [initMachine] at ha
  rcases run_inv fuel env fs blocks ino r h hmagic hN with
    ⟨h1, rfl⟩ | ⟨-, h2, rfl⟩ | ⟨-, -, h3⟩ | ⟨h1, h2, mi, rv, ml, h3, h4, rfl⟩
  · simp [initMachine, Machine.log] at ha
  · simp [initMachine] at ha
  · rcases init_dindir_inl env _ _ _ r h3 with ⟨-, h5, rfl⟩ | ⟨-, h5, rfl⟩
    · obtain ⟨osuf, o1, o2, -⟩ := out_inode_trace env
        (env.read_blk ((afterReadInode fs blocks ino).trace ++
          [Event.msg_reading_dindir ((afterReadInode fs blocks ino).inode.i_block EXT2_DIND_BLOCK)])
          ((afterReadInode fs blocks ino).inode.i_block EXT2_DIND_BLOCK))
        { afterReadInode fs blocks ino with
          dindir_blk := (afterReadInode fs blocks ino).inode.i_block EXT2_DIND_BLOCK,
          trace := (afterReadInode fs blocks ino).trace ++
            [Event.msg_reading_dindir ((afterReadInode fs blocks ino).inode.i_block EXT2_DIND_BLOCK)] ++
            [Event.read_blk ((afterReadInode fs blocks ino).inode.i_block EXT2_DIND_BLOCK) Buf.dindir_buf
              (env.read_blk ((afterReadInode fs blocks ino).trace ++
                [Event.msg_reading_dindir ((afterReadInode fs blocks ino).inode.i_block EXT2_DIND_BLOCK)])
                ((afterReadInode fs blocks ino).inode.i_block EXT2_DIND_BLOCK))] }
      rw [o1] at ha
      simp only [afterReadInode, initMachine, List.mem_append, List.mem_cons, List.mem_singleton,
        List.not_mem_nil, or_false, reduceCtorEq, false_or] at ha
      have := (isOut_not_init _ (o2 _ ha)).1
      simp [Event.isAlloc] at this
    · simp only [afterReadInode, initMachine, List.mem_append, List.mem_cons, List.mem_singleton,
        List.not_mem_nil, or_false, reduceCtorEq, false_or, Event.alloc_block.injEq] at ha
      exact absurd ha.2.1.symm h5
  · obtain ⟨suf, osuf, F, -, tr, cls, ocl, -⟩ := loop_run_trace fuel env fs mi rv ml h4
    by_cases hz : ino.i_block EXT2_DIND_BLOCK = 0
    · exact ⟨hz, mi, rv, ml, h3, h4, rfl⟩
    · exfalso
      have hmi := init_dindir_load env fs blocks ino mi h3 hz
      rw [tr, hmi] at ha
      simp only [List.mem_append, List.mem_cons, List.mem_singleton, List.not_mem_nil, or_false,
        reduceCtorEq, false_or] at ha
      rcases ha with ha | ha
      · obtain ⟨j, -, hc⟩ := cls _ ha
        have := (isSlotOf_not_init _ _ _ hc).1
        simp [Event.isAlloc] at this
      · have := (isOut_not_init _ (ocl _ ha)).1
        simp [Event.isAlloc] at this

/-! ## The inode at return -/

theorem inode_size_value (fs : ext2_filsys) (hlog : fs.super.s_log_block_size ≤ 6)
    (hbs : fs.blocksize = 1024 <<< fs.super.s_log_block_size) :
    inode_size fs = fs.blocksize * (EXT2_ADDR_PER_BLOCK fs.super * EXT2_ADDR_PER_BLOCK fs.super +
      EXT2_ADDR_PER_BLOCK fs.super + 12) ∧ inode_size fs < U64 ∧
    (inode_size fs / U32 % U32 ≠ 0 ↔ 4096 ≤ fs.blocksize) := by
  simp only [inode_size, EXT2_ADDR_PER_BLOCK, hbs, EXT2_NDIR_BLOCKS, U64, U32]
  generalize fs.super.s_log_block_size = l at hlog
  interval_cases l <;> decide

/-- The fields of the local inode at return, for a run that reached the slot
loop, in terms of the inode at the start of the loop. -/
theorem loop_run_inode (env : Env) (rsv : Nat) (mi ml : Machine) (suf : List Event) (rv : Int)
    (F : Frame rsv mi ml suf) :
    (out_dindir env rv ml).2.inode.i_block = mi.inode.i_block ∧
    (out_dindir env rv ml).2.inode.i_mode = mi.inode.i_mode ∧
    (out_dindir env rv ml).2.inode.i_links_count = mi.inode.i_links_count ∧
    (out_dindir env rv ml).2.inode.i_size = mi.inode.i_size ∧
    (out_dindir env rv ml).2.inode.i_size_high = mi.inode.i_size_high ∧
    (out_dindir env rv ml).2.inode.i_ctime = mi.inode.i_ctime ∧
    (out_dindir env rv ml).2.inode.i_blocks = ml.inode.i_blocks ∧
    (out_dindir env rv ml).2.fs = mi.fs := by
  obtain ⟨o1, -, -, -, -, o6, o7, o8, o9, o10, o11, o12⟩ := out_dindir_frame env rv ml
  have hi := F.inode_eq
  refine ⟨by rw [o7, hi], by rw [o8, hi], by rw [o9, hi], by rw [o10, hi], by rw [o11, hi],
    by rw [o12, hi], o6, by rw [o1, F.fs_eq]⟩

theorem out_inode_written (env : Env) (rv : Int) (m : Machine)
    (hm : ∀ e, Event.write_inode e ∉ m.trace)
    (h : Event.write_inode 0 ∈ (out_inode env rv m).2.trace) :
    (out_inode env rv m).2.disk_inode = (out_inode env rv m).2.inode := by
  simp only [out_inode, out_free, Machine.log] at h ⊢
  split_ifs at h ⊢
  all_goals first
    | rfl
    | (exfalso
       simp only [List.mem_append, List.mem_singleton, reduceCtorEq, or_false] at h
       exact hm 0 h)
    | (exfalso
       simp only [List.mem_append, List.mem_singleton, reduceCtorEq, or_false,
         Event.write_inode.injEq] at h
       rcases h with h | h
       · exact hm 0 h
       · exact absurd h.symm (by assumption))

theorem out_dindir_inode_written (env : Env) (rv : Int) (m : Machine)
    (hm : ∀ e, Event.write_inode e ∉ m.trace)
    (h : Event.write_inode 0 ∈ (out_dindir env rv m).2.trace) :
    (out_dindir env rv m).2.disk_inode = (out_dindir env rv m).2.inode := by
  simp only [out_dindir, Machine.log] at h ⊢
  split_ifs at h ⊢ with h1 h2
  all_goals apply out_inode_written _ _ _ _ h
  all_goals intro e he
  all_goals first
    | exact hm e he
    | (simp only [List.mem_append, List.mem_singleton, reduceCtorEq, or_false] at he
       exact hm e he)

/-- No inode write is logged before the final flushes. -/
theorem loop_no_write_inode (fs : ext2_filsys) (mi ml : Machine) (suf : List Event)
    (rsv : Nat) (F : Frame rsv mi ml suf)
    (cls : ∀ e ∈ suf, ∃ j, j < fs.super.s_reserved_gdt_blocks ∧
      e.isSlotOf (gdt_blk_at ((fs.super.s_first_data_block + 1 + fs.desc_blocks % U32) % U32) j)
        (gdt_off_at (EXT2_ADDR_PER_BLOCK fs.super) (fs.desc_blocks % U32) j %
          EXT2_ADDR_PER_BLOCK fs.super % U32) = true)
    (hmi : ∀ e, Event.write_inode e ∉ mi.trace) : ∀ e, Event.write_inode e ∉ ml.trace := by
  intro e he
  rw [F.trace_eq, List.mem_append] at he
  rcases he with he | he
  · exact hmi e he
  · obtain ⟨j, -, hc⟩ := cls _ he
    simp [Event.isSlotOf] at hc

/-! ## Every way the function returns -/

theorem out_inode_clean (env : Env) (rv : Int) (m : Machine) (h : m.inode_dirty = false) :
    out_inode env rv m = (rv, m.log (Event.msg_inode m.inode.i_blocks m.inode.i_size)) := by
  simp only [out_inode, out_free, Machine.log, h]
  simp

/-- Every way the function returns: the six early exits, each with its log,
result and untouched state, or the slot loop followed by the final flushes. -/
theorem run_exits (fuel : Nat) (env : Env) (fs : ext2_filsys) (blocks : Nat → Nat → Nat)
    (ino : ext2_inode) (r : Int × Machine)
    (h : ext2fs_create_resize_inode fuel env (initMachine fs blocks ino) = some r) :
    (r.2.fs = fs ∧ r.2.blocks = blocks ∧ r.2.disk_inode = ino ∧
      r.2.dindir_dirty = false ∧ r.2.inode_dirty = false ∧
      ((fs.magic ≠ EXT2_ET_MAGIC_EXT2FS_FILSYS ∧ r.1 = EXT2_ET_MAGIC_EXT2FS_FILSYS ∧
          r.2.trace = []) ∨
       (fs.magic = EXT2_ET_MAGIC_EXT2FS_FILSYS ∧ fs.super.s_reserved_gdt_blocks = 0 ∧
          r.1 = 0 ∧ r.2.trace = []) ∨
       (fs.magic = EXT2_ET_MAGIC_EXT2FS_FILSYS ∧ fs.super.s_reserved_gdt_blocks ≠ 0 ∧
         ((r.1 ≠ 0 ∧ r.2.trace = [Event.get_mem r.1]) ∨
          (r.1 ≠ 0 ∧ r.2.trace = [Event.get_mem 0, Event.read_inode r.1]) ∨
          (r.1 ≠ 0 ∧ ino.i_block EXT2_DIND_BLOCK ≠ 0 ∧ r.2.inode = ino ∧
            r.2.trace = [Event.get_mem 0, Event.read_inode 0,
              Event.msg_reading_dindir (ino.i_block EXT2_DIND_BLOCK),
              Event.read_blk (ino.i_block EXT2_DIND_BLOCK) Buf.dindir_buf r.1,
              Event.msg_inode ino.i_blocks ino.i_size]) ∨
          (r.1 ≠ 0 ∧ ino.i_block EXT2_DIND_BLOCK = 0 ∧ r.2.inode = ino ∧ ∃ b,
            r.2.trace = [Event.get_mem 0, Event.read_inode 0,
              Event.alloc_block (alloc_goal fs) r.1 b]))))) ∨
    (fs.magic = EXT2_ET_MAGIC_EXT2FS_FILSYS ∧ fs.super.s_reserved_gdt_blocks ≠ 0 ∧
      ∃ mi rv ml,
        init_dindir env (fs.blocksize / 512) (EXT2_ADDR_PER_BLOCK fs.super)
          (afterReadInode fs blocks ino) = Sum.inr mi ∧
        slot_loop fuel env (fs.blocksize / 512) (EXT2_ADDR_PER_BLOCK fs.super)
          fs.super.s_reserved_gdt_blocks (fs.desc_blocks % U32)
          ((fs.super.s_first_data_block + 1 + fs.desc_blocks % U32) % U32) mi = some (rv, ml) ∧
        r = out_dindir env rv ml) := by
  by_cases hmagic : fs.magic = EXT2_ET_MAGIC_EXT2FS_FILSYS
  swap
  · rw [run_bad_magic fuel env _ hmagic] at h
    simp only [Option.some.injEq] at h
    subst h
    exact Or.inl ⟨rfl, rfl, rfl, rfl, rfl, Or.inl ⟨hmagic, rfl, rfl⟩⟩
  by_cases hN : fs.super.s_reserved_gdt_blocks = 0
  · rw [run_no_slots fuel env _ hmagic hN] at h
    simp only [Option.some.injEq] at h
    subst h
    exact Or.inl ⟨rfl, rfl, rfl, rfl, rfl, Or.inr (Or.inl ⟨hmagic, hN, rfl, rfl⟩)⟩
  rcases run_inv fuel env fs blocks ino r h hmagic hN with
    ⟨h1, rfl⟩ | ⟨-, h2, rfl⟩ | ⟨-, -, h3⟩ | ⟨h1, h2, mi, rv, ml, h3, h4, rfl⟩
  · exact Or.inl ⟨rfl, rfl, rfl, rfl, rfl, Or.inr (Or.inr ⟨hmagic, hN, Or.inl ⟨h1, rfl⟩⟩)⟩
  · exact Or.inl ⟨rfl, rfl, rfl, rfl, rfl,
      Or.inr (Or.inr ⟨hmagic, hN, Or.inr (Or.inl ⟨h2, rfl⟩)⟩)⟩
  · rcases init_dindir_inl env _ _ _ r h3 with ⟨h4, h5, rfl⟩ | ⟨h4, h5, rfl⟩
    · refine Or.inl ?_
      rw [out_inode_clean _ _ _ rfl]
      refine ⟨rfl, rfl, rfl, rfl, rfl, Or.inr (Or.inr ⟨hmagic, hN, Or.inr (Or.inr (Or.inl
        ⟨h5, h4, rfl, ?_⟩))⟩)⟩
      simp [Machine.log, afterReadInode, initMachine]
    · exact Or.inl ⟨rfl, rfl, rfl, rfl, rfl, Or.inr (Or.inr ⟨hmagic, hN, Or.inr (Or.inr (Or.inr
        ⟨h5, h4, rfl, _, rfl⟩))⟩)⟩
  · exact Or.inr ⟨hmagic, hN, mi, rv, ml, h3, h4, rfl⟩

/-- The log of the initializer when the slot loop is reached: either the
four events of a successful load or the five of a successful allocation. -/
theorem init_trace (env : Env) (fs : ext2_filsys) (blocks : Nat → Nat → Nat)
    (ino : ext2_inode) (mi : Machine)
    (h : init_dindir env (fs.blocksize / 512) (EXT2_ADDR_PER_BLOCK fs.super)
      (afterReadInode fs blocks ino) = Sum.inr mi) :
    (ino.i_block EXT2_DIND_BLOCK ≠ 0 ∧
      mi.trace = [Event.get_mem 0, Event.read_inode 0,
        Event.msg_reading_dindir (ino.i_block EXT2_DIND_BLOCK),
        Event.read_blk (ino.i_block EXT2_DIND_BLOCK) Buf.dindir_buf 0]) ∨
    (ino.i_block EXT2_DIND_BLOCK = 0 ∧ ∃ blk t,
      mi.trace = [Event.get_mem 0, Event.read_inode 0, Event.alloc_block (alloc_goal fs) 0 blk,
        Event.dbg_allocated_dindir blk, Event.time t]) := by
  by_cases hz : ino.i_block EXT2_DIND_BLOCK = 0
  · obtain ⟨-, -, -, -, -, -, blk, t, -, -, atr⟩ := init_dindir_alloc env fs blocks ino mi h hz
    exact Or.inr ⟨hz, blk, t, atr⟩
  · have := init_dindir_load env fs blocks ino mi h hz
    exact Or.inl ⟨hz, by rw [this]⟩

/-- The events of the slot loop and of the final flushes are no events of
the initializer. -/
theorem loop_event_classes (fs : ext2_filsys) (suf osuf : List Event)
    (cls : ∀ e ∈ suf, ∃ j, j < fs.super.s_reserved_gdt_blocks ∧
      e.isSlotOf (gdt_blk_at ((fs.super.s_first_data_block + 1 + fs.desc_blocks % U32) % U32) j)
        (gdt_off_at (EXT2_ADDR_PER_BLOCK fs.super) (fs.desc_blocks % U32) j %
          EXT2_ADDR_PER_BLOCK fs.super % U32) = true)
    (ocl : ∀ e ∈ osuf, e.isOut = true) :
    ∀ e, e ∈ suf ++ osuf →
      e.isAlloc = false ∧ e.isNewDindir = false ∧ (∀ x, e ≠ Event.read_inode x) ∧
      (∀ x, e ≠ Event.get_mem x) ∧ (∀ b x, e ≠ Event.read_blk b Buf.dindir_buf x) := by
  intro e he
  rcases List.mem_append.1 he with he | he
  · obtain ⟨j, -, hc⟩ := cls e he
    obtain ⟨c1, c2, -, -, c5, c6, c7, -⟩ := isSlotOf_not_init _ _ e hc
    exact ⟨c1, c2, c5, c6, c7⟩
  · obtain ⟨c1, c2, -, -, c5, c6, c7, -⟩ := isOut_not_init e (ocl e he)
    exact ⟨c1, c2, c5, c6, c7⟩

theorem countP_loop_zero (suf osuf : List Event) (q : Event → Bool)
    (hq : ∀ e, e ∈ suf ++ osuf → q e = false) : (suf ++ osuf).countP q = 0 := by
  rw [List.countP_eq_zero]
  intro e he
  simp [hq e he]

/-- The handle at return: the one at entry, or, when the log records a
successful allocation, the one the allocating initializer left. -/
theorem run_fs (fuel : Nat) (env : Env) (fs : ext2_filsys) (blocks : Nat → Nat → Nat)
    (ino : ext2_inode) (r : Int × Machine)
    (hrun : ext2fs_create_resize_inode fuel env (initMachine fs blocks ino) = some r) :
    ((¬ ∃ g b, Event.alloc_block g 0 b ∈ r.2.trace) ∧ r.2.fs = fs) ∨
    ((∃ g b, Event.alloc_block g 0 b ∈ r.2.trace) ∧ ino.i_block EXT2_DIND_BLOCK = 0 ∧
      r.2.fs = fsAfterAlloc fs) := by
  by_cases hex : ∃ g b, Event.alloc_block g 0 b ∈ r.2.trace
  · obtain ⟨g, b, ha⟩ := hex
    obtain ⟨hz, mi, rv, ml, h3, h4, rfl⟩ := run_allocated_inv fuel env fs blocks ino r hrun g b ha
    obtain ⟨a1, -⟩ := init_dindir_alloc env fs blocks ino mi h3 hz
    obtain ⟨suf, F, -, -⟩ := slot_loop_Frame fuel env _ _ _ _ _ _ _ _ h4
    exact Or.inr ⟨⟨g, b, ha⟩, hz, by rw [(out_dindir_frame env rv ml).1, F.fs_eq, a1]⟩
  · refine Or.inl ⟨hex, ?_⟩
    rcases run_exits fuel env fs blocks ino r hrun with
      ⟨e1, -⟩ | ⟨-, hN, mi, rv, ml, h3, h4, rfl⟩
    · exact e1
    · obtain ⟨suf, osuf, F, -, tr, -⟩ := loop_run_trace fuel env fs mi rv ml h4
      rw [(out_dindir_frame env rv ml).1, F.fs_eq]
      rcases init_trace env fs blocks ino mi h3 with ⟨hz, -⟩ | ⟨hz, blk, t, ht⟩
      · rw [init_dindir_load env fs blocks ino mi h3 hz]; rfl
      · exfalso
        apply hex
        refine ⟨alloc_goal fs, blk, ?_⟩
        rw [tr, ht]
        simp

theorem out_inode_disk_cases (env : Env) (rv : Int) (m : Machine) :
    (out_inode env rv m).2.disk_inode = m.disk_inode ∨
    (Event.write_inode 0 ∈ (out_inode env rv m).2.trace ∧
      (out_inode env rv m).2.disk_inode = (out_inode env rv m).2.inode) := by
  simp only [out_inode, out_free, Machine.log]
  split_ifs with h1 h2
  all_goals first
    | (left; rfl)
    | (right
       refine ⟨?_, rfl⟩
       apply List.mem_append_right
       rw [List.mem_singleton]
       congr 1
       symm
       assumption)

theorem out_dindir_disk_cases (env : Env) (rv : Int) (m : Machine) :
    (out_dindir env rv m).2.disk_inode = m.disk_inode ∨
    (Event.write_inode 0 ∈ (out_dindir env rv m).2.trace ∧
      (out_dindir env rv m).2.disk_inode = (out_dindir env rv m).2.inode) := by
  simp only [out_dindir, Machine.log]
  split_ifs
  all_goals exact out_inode_disk_cases _ _ _

/-- The new-block counters of the whole log are those of the slot loop. -/
theorem loop_run_counts (mi : Machine) (suf osuf : List Event)
    (hmi : mi.trace.countP Event.isNewPrimary = 0 ∧ mi.trace.countP Event.isNewBackup = 0)
    (ocl : ∀ e ∈ osuf, e.isOut = true) :
    (mi.trace ++ suf ++ osuf).countP Event.isNewPrimary = suf.countP Event.isNewPrimary ∧
    (mi.trace ++ suf ++ osuf).countP Event.isNewBackup = suf.countP Event.isNewBackup := by
  have h1 : osuf.countP Event.isNewPrimary = 0 :=
    countP_eq_zero_of_forall ocl (fun e he => (isOut_not_init e he).2.2.1)
  have h2 : osuf.countP Event.isNewBackup = 0 :=
    countP_eq_zero_of_forall ocl (fun e he => (isOut_not_init e he).2.2.2.1)
  simp only [List.countP_append, hmi.1, hmi.2, h1, h2, Nat.zero_add, Nat.add_zero, and_self]

theorem init_trace_counts (env : Env) (fs : ext2_filsys) (blocks : Nat → Nat → Nat)
    (ino : ext2_inode) (mi : Machine)
    (h : init_dindir env (fs.blocksize / 512) (EXT2_ADDR_PER_BLOCK fs.super)
      (afterReadInode fs blocks ino) = Sum.inr mi) :
    mi.trace.countP Event.isNewPrimary = 0 ∧ mi.trace.countP Event.isNewBackup = 0 ∧
    (∀ e, Event.write_inode e ∉ mi.trace) := by
  rcases init_trace env fs blocks ino mi h with ⟨-, ht⟩ | ⟨-, blk, t, ht⟩ <;>
    rw [ht] <;> simp [Event.isNewPrimary, Event.isNewBackup]

/-- The in-memory inode of a run that read the inode: its block-count and
what the stored inode is at return. -/
theorem run_i_blocks (fuel : Nat) (env : Env) (fs : ext2_filsys) (blocks : Nat → Nat → Nat)
    (ino : ext2_inode) (r : Int × Machine)
    (hrun : ext2fs_create_resize_inode fuel env (initMachine fs blocks ino) = some r)
    (hread : Event.read_inode 0 ∈ r.2.trace) :
    (r.2.trace.countP Event.isNewDindir = 1 ∧ ino.i_block EXT2_DIND_BLOCK = 0 ∧
        r.2.inode.i_blocks % U32 = (fs.blocksize / 512 * (1 +
          r.2.trace.countP Event.isNewPrimary + r.2.trace.countP Event.isNewBackup)) % U32 ∨
      r.2.trace.countP Event.isNewDindir = 0 ∧
        r.2.inode.i_blocks % U32 = (ino.i_blocks + fs.blocksize / 512 *
          (r.2.trace.countP Event.isNewPrimary + r.2.trace.countP Event.isNewBackup)) % U32 ∧
        r.2.fs = fs ∧ r.2.inode = { ino with
          i_blocks := r.2.inode.i_blocks, i_atime := r.2.inode.i_atime,
          i_mtime := r.2.inode.i_mtime }) ∧
    (Event.write_inode 0 ∈ r.2.trace → r.2.disk_inode = r.2.inode) ∧
    (Event.write_inode 0 ∉ r.2.trace → r.2.disk_inode = ino) := by
  rcases run_exits fuel env fs blocks ino r hrun with
    ⟨e1, -, e3, -, -, hc⟩ | ⟨-, hN, mi, rv, ml, h3, h4, rfl⟩
  · rcases hc with ⟨-, -, ht⟩ | ⟨-, -, -, ht⟩ | ⟨-, hN, hc⟩
    · rw [ht] at hread; simp at hread
    · rw [ht] at hread; simp at hread
    · rcases hc with ⟨-, ht⟩ | ⟨h0, ht⟩ | ⟨-, -, hi, ht⟩ | ⟨-, -, hi, b, ht⟩
      · rw [ht] at hread; simp at hread
      · rw [ht] at hread
        simp only [List.mem_cons, List.mem_singleton, reduceCtorEq, List.not_mem_nil, or_false,
          false_or, Event.read_inode.injEq] at hread
        exact absurd hread.symm h0
      · refine ⟨Or.inr ⟨?_, ?_, e1, by rw [hi]⟩, ?_, fun _ => e3⟩
        · rw [ht]; simp [Event.isNewDindir]
        · rw [ht, hi]; simp [Event.isNewPrimary, Event.isNewBackup]
        · intro h; rw [ht] at h; simp at h
      · refine ⟨Or.inr ⟨?_, ?_, e1, by rw [hi]⟩, ?_, fun _ => e3⟩
        · rw [ht]; simp [Event.isNewDindir]
        · rw [ht, hi]; simp [Event.isNewPrimary, Event.isNewBackup]
        · intro h; rw [ht] at h; simp at h
  · obtain ⟨suf, osuf, F, -, tr, cls, ocl, -⟩ := loop_run_trace fuel env fs mi rv ml h4
    obtain ⟨c1, c2, c3⟩ := init_trace_counts env fs blocks ino mi h3
    obtain ⟨n1, n2⟩ := loop_run_counts mi suf osuf ⟨c1, c2⟩ ocl
    obtain ⟨i1, i2, i3, i4, i5, i6, i7, i8⟩ := loop_run_inode env _ mi ml suf rv F
    have hcl := loop_event_classes fs suf osuf cls ocl
    have hd0 := countP_loop_zero suf osuf Event.isNewDindir (fun e he => (hcl e he).2.1)
    have hib := F.i_blocks_eq
    obtain ⟨-, i2', -⟩ := init_dindir_inr env _ _ _ mi h3
    refine ⟨?_, out_dindir_inode_written env rv ml (loop_no_write_inode fs mi ml suf _ F cls c3),
      ?_⟩
    · rw [tr, n1, n2, i7, hib, List.append_assoc, List.countP_append, hd0, Nat.add_zero]
      rcases init_trace env fs blocks ino mi h3 with ⟨hz, ht⟩ | ⟨hz, blk, t, ht⟩
      · right
        have hmi := init_dindir_load env fs blocks ino mi h3 hz
        refine ⟨by rw [ht]; simp [Event.isNewDindir], by rw [hmi]; rfl, by rw [i8, hmi]; rfl, ?_⟩
        have hml := F.inode_eq
        have hfin : (out_dindir env rv ml).2.inode =
            { ml.inode with i_atime := (out_dindir env rv ml).2.inode.i_atime,
                            i_mtime := (out_dindir env rv ml).2.inode.i_mtime } := by
          simp only [out_dindir, out_inode, out_free, Machine.log]
          split_ifs <;> rfl
        rw [hfin, hml, hmi]
        rfl
      · left
        obtain ⟨-, -, -, -, -, a6, -⟩ := init_dindir_alloc env fs blocks ino mi h3 hz
        refine ⟨by rw [ht]; simp [Event.isNewDindir], hz, ?_⟩
        rw [a6]
        simp only [U32, Nat.mul_add, Nat.mul_one]
        generalize fs.blocksize / 512 = q
        generalize q * List.countP Event.isNewPrimary suf = x
        generalize q * List.countP Event.isNewBackup suf = y
        omega
    · intro hw
      rcases out_dindir_disk_cases env rv ml with h | ⟨h, -⟩
      · rw [h, F.disk_inode_eq, i2']; rfl
      · exact absurd h hw

/-- With more slots than addresses per block the slot loop cannot run to its
end: the slot number `apb` finds the entry of slot 0. -/
theorem slot_loop_overfull (fuel : Nat) (env : Env) (rsv apb : Nat) (hpos : 0 < apb)
    (hdvd : apb ∣ U32) (hlt : apb < U32) (n off blk : Nat) (m : Machine) (rv : Int)
    (m' : Machine) (hblk : blk < U32) (hnz : blk ≠ 0) (hn : apb < n)
    (h : slot_loop fuel env rsv apb n off blk m = some (rv, m')) : rv ≠ 0 := by
  obtain ⟨n, rfl⟩ : ∃ k, n = k + 1 := ⟨n - 1, by omega⟩
  simp only [slot_loop] at h
  cases hb : slot_body fuel env rsv apb off blk m with
  | none => rw [hb] at h; simp at h
  | some b =>
    rcases b with ⟨rv1, m1⟩
    rw [hb] at h
    simp only at h
    split_ifs at h with hrv
    · simp only [Option.some.injEq, Prod.mk.injEq] at h
      rw [← h.1]; exact hrv
    · simp only [ne_eq, Decidable.not_not] at hrv
      subst hrv
      obtain ⟨d1, -, -⟩ := slot_body_done fuel env rsv apb off blk m m1 hb
      have hidx : gdt_off_at apb ((off % apb % U32 + 1) % U32) (apb - 1) % apb % U32 =
          off % apb % U32 := by
        rw [← gdt_off_at_succ, show apb - 1 + 1 = apb by omega,
          gdt_off_at_mod apb off apb hpos hdvd, Nat.add_mod_right]
        exact (Nat.mod_eq_of_lt (lt_trans (Nat.mod_lt _ hpos) hlt)).symm
      have hb' : gdt_blk_at ((blk + 1) % U32) (apb - 1) = (blk + apb) % U32 := by
        rw [← gdt_blk_at_succ, show apb - 1 + 1 = apb by omega, gdt_blk_at_eq blk apb hblk]
      have hne : (blk + apb) % U32 ≠ blk := by
        simp only [U32] at *
        omega
      exact slot_loop_bad_slot fuel env rsv apb n _ _ m1 rv m' h (apb - 1) (by omega)
        (by rw [hidx, d1]; exact hnz) (by rw [hidx, d1, hb']; exact fun hh => hne hh.symm)

theorem isSlotOf_bad (b i f b' d o : Nat)
    (h : (Event.msg_bad_primary f b' d o).isSlotOf b i = true) : b' = b ∧ o = i := by
  simpa [Event.isSlotOf] using h

theorem isSlotOf_reading (b i b' : Nat)
    (h : (Event.msg_reading_primary b').isSlotOf b i = true) : b' = b := by
  simpa [Event.isSlotOf] using h

/-! ## The log of the slot loop, slot by slot -/

theorem resolve_primary_nowrite (env : Env) (rsv idx blk : Nat) (m : Machine)
    (rv : Int) (d : Bool) (m' : Machine) (h : resolve_primary env rsv idx blk m = (rv, d, m'))
    (suf : List Event) (hs : m'.trace = m.trace ++ suf) : ∀ e ∈ suf, e.isWriteBlk = false := by
  simp only [resolve_primary] at h
  split_ifs at h with h1 h2 h3
  all_goals simp only [Prod.mk.injEq] at h
  all_goals obtain ⟨-, -, rfl⟩ := h
  all_goals simp only [Machine.log, List.append_assoc] at hs
  all_goals have := List.append_cancel_left hs
  all_goals subst this
  all_goals simp [Event.isWriteBlk]

theorem flush_primary_suffix (env : Env) (blk : Nat) (d : Bool) (m : Machine)
    (rv : Int) (m' : Machine) (h : flush_primary env blk d m = (rv, m'))
    (suf : List Event) (hs : m'.trace = m.trace ++ suf) :
    suf = [] ∨ ∃ e, suf = [Event.dbg_writing_primary blk, Event.write_blk blk Buf.gdt_buf e] := by
  simp only [flush_primary] at h
  split_ifs at h with h1 h2
  all_goals simp only [Prod.mk.injEq] at h
  all_goals obtain ⟨-, rfl⟩ := h
  · simp only [Machine.log, List.append_assoc] at hs
    exact Or.inr ⟨_, (List.append_cancel_left hs).symm⟩
  · simp only [Machine.log, List.append_assoc] at hs
    exact Or.inr ⟨_, (List.append_cancel_left hs).symm⟩
  · left
    have : m.trace ++ [] = m.trace ++ suf := by rw [List.append_nil]; exact hs
    exact (List.append_cancel_left this).symm

theorem isBackupOf_nowrite (blk : Nat) (e : Event) (h : e.isBackupOf blk = true) :
    e.isWriteBlk = false := by
  cases e <;> simp_all [Event.isBackupOf, Event.isWriteBlk]

/-- The log of one slot: events of the slot, the block write last. -/
theorem slot_body_segment (fuel : Nat) (env : Env) (rsv apb off blk : Nat) (m : Machine)
    (rv : Int) (m' : Machine) (h : slot_body fuel env rsv apb off blk m = some (rv, m')) :
    ∃ s, m'.trace = m.trace ++ s ∧ (∀ e ∈ s, e.isSlotOf blk (off % apb % U32) = true) ∧
      WriteLast blk s := by
  obtain ⟨rv0, d0, m0, hr, hcase⟩ := slot_body_inv fuel env rsv apb off blk m rv m' h
  obtain ⟨s0, F0, c0, -⟩ := resolve_primary_Frame env rsv _ blk m rv0 d0 m0 hr
  have w0 := resolve_primary_nowrite env rsv _ blk m rv0 d0 m0 hr s0 F0.trace_eq
  rcases hcase with ⟨-, -, rfl⟩ | ⟨rfl, rv1, d1, m1, hb, hcase⟩
  · exact ⟨s0, F0.trace_eq, c0, Or.inl w0⟩
  obtain ⟨s1, F1, c1, -⟩ := backup_loop_Frame env blk rsv fuel 1 5 7 0 d0 m0 rv1 d1 m1 hb
  have w1 : ∀ e ∈ s1, e.isWriteBlk = false := fun e he => isBackupOf_nowrite blk e (c1 e he)
  have c1' : ∀ e ∈ s1, e.isSlotOf blk (off % apb % U32) = true :=
    fun e he => isBackupOf_isSlotOf blk _ e (c1 e he)
  have c01 : ∀ e ∈ s0 ++ s1, e.isSlotOf blk (off % apb % U32) = true := by
    intro e he
    rcases List.mem_append.1 he with he | he
    · exact c0 e he
    · exact c1' e he
  have w01 : ∀ e ∈ s0 ++ s1, e.isWriteBlk = false := by
    intro e he
    rcases List.mem_append.1 he with he | he
    · exact w0 e he
    · exact w1 e he
  rcases hcase with ⟨-, -, rfl⟩ | ⟨rfl, hf⟩
  · exact ⟨s0 ++ s1, (F0.trans F1).trace_eq, c01, Or.inl w01⟩
  obtain ⟨s2, F2, c2, -⟩ := flush_primary_Frame env rsv (off % apb % U32) blk d1 m1 rv m' hf
  refine ⟨s0 ++ s1 ++ s2, ((F0.trans F1).trans F2).trace_eq, ?_, ?_⟩
  · intro e he
    rcases List.mem_append.1 he with he | he
    · exact c01 e he
    · exact c2 e he
  · rcases flush_primary_suffix env blk d1 m1 rv m' hf s2 F2.trace_eq with rfl | ⟨e, rfl⟩
    · left; rw [List.append_nil]; exact w01
    · right
      refine ⟨s0 ++ s1 ++ [Event.dbg_writing_primary blk], e, by simp, ?_⟩
      intro e' he'
      rcases List.mem_append.1 he' with he' | he'
      · exact w01 e' he'
      · rw [List.mem_singleton] at he'; rw [he']; rfl

theorem SlotSegments_shift (B I B' I' : Nat → Nat) (hB : ∀ k, B' k = B (k + 1))
    (hI : ∀ k, I' k = I (k + 1)) :
    ∀ (segs : List (List Event)) (j : Nat), SlotSegments B' I' j segs →
      SlotSegments B I (j + 1) segs := by
  intro segs
  induction segs with
  | nil => intro j _; trivial
  | cons s rest ih =>
    intro j h
    obtain ⟨h1, h2, h3⟩ := h
    refine ⟨?_, ?_, ih (j + 1) h3⟩
    · rw [← hB, ← hI]; exact h1
    · rw [← hB]; exact h2

/-- The log of the slot loop is the log of slot 0, then of slot 1, and so
on. -/
theorem slot_loop_segments (fuel : Nat) (env : Env) (rsv apb : Nat) :
    ∀ (n off blk : Nat) (m : Machine) (rv : Int) (m' : Machine),
      slot_loop fuel env rsv apb n off blk m = some (rv, m') →
      ∃ segs : List (List Event), m'.trace = m.trace ++ segs.flatten ∧ segs.length ≤ n ∧
        SlotSegments (gdt_blk_at blk) (fun j => gdt_off_at apb off j % apb % U32) 0 segs := by
  intro n
  induction n with
  | zero =>
    intro off blk m rv m' h
    simp only [slot_loop, Option.some.injEq, Prod.mk.injEq] at h
    obtain ⟨-, rfl⟩ := h
    exact ⟨[], by simp, by simp, trivial⟩
  | succ n ih =>
    intro off blk m rv m' h
    simp only [slot_loop] at h
    cases hb : slot_body fuel env rsv apb off blk m with
    | none => rw [hb] at h; simp at h
    | some b =>
      rcases b with ⟨rv1, m1⟩
      rw [hb] at h
      simp only at h
      obtain ⟨s, t1, c1, w1⟩ := slot_body_segment fuel env rsv apb off blk m rv1 m1 hb
      split_ifs at h with hrv
      · simp only [Option.some.injEq, Prod.mk.injEq] at h
        obtain ⟨-, rfl⟩ := h
        exact ⟨[s], by simpa using t1, by simp, c1, w1, trivial⟩
      · obtain ⟨segs, t2, l2, g2⟩ := ih _ _ _ _ _ h
        refine ⟨s :: segs, ?_, by simp; omega, c1, w1, ?_⟩
        · rw [t2, t1]; simp
        · exact SlotSegments_shift _ _ _ _ (fun k => (gdt_blk_at_succ blk k).symm)
            (fun k => by show _ = gdt_off_at apb off (k + 1) % apb % U32; rw [gdt_off_at_succ])
            segs 0 g2

theorem out_inode_shape (env : Env) (rv : Int) (m : Machine) :
    ∃ wi a b, (out_inode env rv m).2.trace = m.trace ++ ([Event.msg_inode a b] ++ wi) ∧
      (m.inode_dirty = true → ∃ t e, wi = [Event.time t, Event.write_inode e] ∧
        (out_inode env rv m).2.inode.i_atime = t % U32 ∧
        (out_inode env rv m).2.inode.i_mtime = t % U32) ∧
      (m.inode_dirty = false → wi = []) := by
  by_cases h1 : m.inode_dirty = true
  · refine ⟨[Event.time (env.time (m.trace ++ [Event.msg_inode m.inode.i_blocks m.inode.i_size])),
      Event.write_inode (env.write_inode (m.trace ++
        [Event.msg_inode m.inode.i_blocks m.inode.i_size] ++
        [Event.time (env.time (m.trace ++ [Event.msg_inode m.inode.i_blocks m.inode.i_size]))]))],
      m.inode.i_blocks, m.inode.i_size, ?_, fun _ => ⟨_, _, rfl, ?_, ?_⟩,
      fun h => by rw [h1] at h; exact absurd h (by simp)⟩
    all_goals simp only [out_inode, out_free, Machine.log, h1, if_true]
    all_goals split_ifs <;> simp
  · refine ⟨[], m.inode.i_blocks, m.inode.i_size, ?_, fun h => absurd h h1, fun _ => rfl⟩
    simp only [out_inode, out_free, Machine.log]
    rw [if_neg h1]
    simp

theorem out_dindir_shape (env : Env) (rv : Int) (m : Machine) :
    ∃ wd wi a b, (out_dindir env rv m).2.trace = m.trace ++ (wd ++ [Event.msg_inode a b] ++ wi) ∧
      (m.dindir_dirty = true → ∃ e, wd = [Event.write_blk m.dindir_blk Buf.dindir_buf e]) ∧
      (m.dindir_dirty = false → wd = []) ∧
      (m.inode_dirty = true → ∃ t e, wi = [Event.time t, Event.write_inode e] ∧
        (out_dindir env rv m).2.inode.i_atime = t % U32 ∧
        (out_dindir env rv m).2.inode.i_mtime = t % U32) ∧
      (m.inode_dirty = false → wi = []) := by
  by_cases h1 : m.dindir_dirty = true
  · by_cases h2 : env.write_blk m.trace m.dindir_blk = 0
    · have e : out_dindir env rv m = out_inode env (if rv = 0 then 0 else rv)
          { m with
            blocks := setBlock m.blocks m.dindir_blk m.dindir_buf,
            trace := m.trace ++ [Event.write_blk m.dindir_blk Buf.dindir_buf 0] } := by
        simp only [out_dindir, Machine.log, h1, h2, if_true]
      rw [e]
      obtain ⟨wi, a, b, o1, o2, o3⟩ := out_inode_shape env (if rv = 0 then 0 else rv)
        { m with
          blocks := setBlock m.blocks m.dindir_blk m.dindir_buf,
          trace := m.trace ++ [Event.write_blk m.dindir_blk Buf.dindir_buf 0] }
      exact ⟨[Event.write_blk m.dindir_blk Buf.dindir_buf 0], wi, a, b, by rw [o1]; simp,
        fun _ => ⟨_, rfl⟩,
        fun h => by rw [h1] at h; exact absurd h (by simp), o2, o3⟩
    · have e : out_dindir env rv m = out_inode env
          (if rv = 0 then env.write_blk m.trace m.dindir_blk else rv)
          { m with
            trace := m.trace ++ [Event.write_blk m.dindir_blk Buf.dindir_buf
              (env.write_blk m.trace m.dindir_blk)] } := by
        simp only [out_dindir, Machine.log, h1, h2, if_true, if_false]
      rw [e]
      obtain ⟨wi, a, b, o1, o2, o3⟩ := out_inode_shape env
        (if rv = 0 then env.write_blk m.trace m.dindir_blk else rv)
        { m with
          trace := m.trace ++ [Event.write_blk m.dindir_blk Buf.dindir_buf
            (env.write_blk m.trace m.dindir_blk)] }
      exact ⟨[Event.write_blk m.dindir_blk Buf.dindir_buf
          (env.write_blk m.trace m.dindir_blk)], wi, a, b, by rw [o1]; simp,
        fun _ => ⟨_, rfl⟩,
        fun h => by rw [h1] at h; exact absurd h (by simp), o2, o3⟩
  · have e : out_dindir env rv m = out_inode env rv m := by
      simp only [out_dindir]
      rw [if_neg h1]
    rw [e]
    obtain ⟨wi, a, b, o1, o2, o3⟩ := out_inode_shape env rv m
    exact ⟨[], wi, a, b, by rw [o1]; simp, fun h => absurd h h1, fun _ => rfl, o2, o3⟩

theorem SlotSegments_noinode (B I : Nat → Nat) :
    ∀ (segs : List (List Event)) (j : Nat), SlotSegments B I j segs →
      ∀ s ∈ segs, ∀ e ∈ s, e.isWriteInode = false := by
  intro segs
  induction segs with
  | nil => intro j _ s hs; simp at hs
  | cons s0 rest ih =>
    intro j h s hs e he
    obtain ⟨h1, -, h3⟩ := h
    rcases List.mem_cons.1 hs with rfl | hs
    · exact (isSlotOf_not_init _ _ e (h1 e he)).2.2.1
    · exact ih (j + 1) h3 s hs e he

/-! ## The enumerator of the backup groups -/

theorem list_backups_fst (fs : ext2_filsys) (t f s : Nat) :
    (ext2fs_list_backups fs t f s).1 = min t (min f s) := by
  unfold ext2fs_list_backups; split_ifs <;> simp <;> omega

theorem countersFrom_spec (env : Env) (fs : ext2_filsys)
    (henv : env.list_backups = ext2fs_list_backups) :
    ∀ (k : Nat) (c : Nat × Nat × Nat),
      countersFrom env fs k c = countersFrom (okEnv 0 0) scenarioFs k c := by
  intro k
  induction k with
  | zero => intro c; rfl
  | succ k ih =>
    intro c
    simp only [countersFrom]
    rw [ih, henv]
    rfl

theorem backup_group_spec (env : Env) (fs : ext2_filsys)
    (henv : env.list_backups = ext2fs_list_backups) (k : Nat) :
    backup_group env fs k = backup_group (okEnv 0 0) scenarioFs k := by
  simp only [backup_group, grpFrom]
  rw [countersFrom_spec env fs henv, henv]
  rfl

set_option maxRecDepth 100000 in
theorem backup_group_41 (env : Env) (fs : ext2_filsys)
    (henv : env.list_backups = ext2fs_list_backups) :
    backup_group env fs 41 = 1162261467 := by
  rw [backup_group_spec env fs henv]
  decide

theorem pow_ne_pow_of_primes (p q : Nat) (hp : p.Prime) (hq : q.Prime) (hpq : p ≠ q)
    (a b : Nat) : p ^ a ≠ q ^ (b + 1) := by
  intro h
  have h1 : q ∣ p ^ a := h ▸ dvd_pow_self q (Nat.succ_ne_zero b)
  have h2 := hq.dvd_of_dvd_pow h1
  exact hpq ((Nat.prime_dvd_prime_iff_eq hq hp).1 h2).symm

theorem pow_lt_next (b i a : Nat) (hb : 1 < b) (h : b ^ i < b * b ^ a) : b ^ i ≤ b ^ a := by
  have h' : b ^ i < b ^ (a + 1) := by rw [pow_succ, Nat.mul_comm]; exact h
  have hi : i < a + 1 := (Nat.pow_lt_pow_iff_right hb).1 h'
  exact Nat.pow_le_pow_right (by omega) (by omega)

theorem seq_step (fs : ext2_filsys) (c : Nat × Nat × Nat) (h : SeqInv c)
    (hno : 7 * min c.1 (min c.2.1 c.2.2) < U32) :
    SeqInv (ext2fs_list_backups fs c.1 c.2.1 c.2.2).2 ∧
    min c.1 (min c.2.1 c.2.2) <
      min (ext2fs_list_backups fs c.1 c.2.1 c.2.2).2.1
        (min (ext2fs_list_backups fs c.1 c.2.1 c.2.2).2.2.1
          (ext2fs_list_backups fs c.1 c.2.1 c.2.2).2.2.2) ∧
    (∀ i, 3 ^ i < min (ext2fs_list_backups fs c.1 c.2.1 c.2.2).2.1
        (min (ext2fs_list_backups fs c.1 c.2.1 c.2.2).2.2.1
          (ext2fs_list_backups fs c.1 c.2.1 c.2.2).2.2.2) →
      3 ^ i ≤ min c.1 (min c.2.1 c.2.2)) ∧
    (∀ i, 5 ^ (i + 1) < min (ext2fs_list_backups fs c.1 c.2.1 c.2.2).2.1
        (min (ext2fs_list_backups fs c.1 c.2.1 c.2.2).2.2.1
          (ext2fs_list_backups fs c.1 c.2.1 c.2.2).2.2.2) →
      5 ^ (i + 1) ≤ min c.1 (min c.2.1 c.2.2)) ∧
    (∀ i, 7 ^ (i + 1) < min (ext2fs_list_backups fs c.1 c.2.1 c.2.2).2.1
        (min (ext2fs_list_backups fs c.1 c.2.1 c.2.2).2.2.1
          (ext2fs_list_backups fs c.1 c.2.1 c.2.2).2.2.2) →
      7 ^ (i + 1) ≤ min c.1 (min c.2.1 c.2.2)) := by
  obtain ⟨t, f, s⟩ := c
  obtain ⟨⟨a, ha⟩, ⟨b, hb⟩, ⟨d, hd⟩, l3, l5, l7⟩ := h
  simp only at ha hb hd l3 l5 l7 hno ⊢
  have htf : t ≠ f := by
    rw [ha, hb]; exact pow_ne_pow_of_primes 3 5 Nat.prime_three Nat.prime_five (by decide) a b
  have hts : t ≠ s := by
    rw [ha, hd]; exact pow_ne_pow_of_primes 3 7 Nat.prime_three (by norm_num) (by decide) a d
  have hfs : f ≠ s := by
    rw [hb, hd]; exact pow_ne_pow_of_primes 5 7 Nat.prime_five (by norm_num) (by decide) (b + 1) d
  have ht0 : 0 < t := by rw [ha]; exact pow_pos (by decide) _
  have hf0 : 0 < f := by rw [hb]; exact pow_pos (by decide) _
  have hs0 : 0 < s := by rw [hd]; exact pow_pos (by decide) _
  have k3 : ∀ i, 3 ^ i < 3 * t → 3 ^ i ≤ t := by
    intro i hi; rw [ha] at hi ⊢; exact pow_lt_next 3 i a (by decide) hi
  have k5 : ∀ i, 5 ^ (i + 1) < 5 * f → 5 ^ (i + 1) ≤ f := by
    intro i hi; rw [hb] at hi ⊢; exact pow_lt_next 5 (i + 1) (b + 1) (by decide) hi
  have k7 : ∀ i, 7 ^ (i + 1) < 7 * s → 7 ^ (i + 1) ≤ s := by
    intro i hi; rw [hd] at hi ⊢; exact pow_lt_next 7 (i + 1) (d + 1) (by decide) hi
  have hU : U32 = 4294967296 := rfl
  unfold ext2fs_list_backups
  split_ifs with c1 c2 c3
  · -- seven is the least
    have e : s * 7 % U32 = 7 * s := by
      rw [Nat.mod_eq_of_lt (by omega)]; omega
    simp only [e, SeqInv]
    refine ⟨⟨⟨a, ha⟩, ⟨b, hb⟩, ⟨d + 1, by rw [hd]; ring⟩, ?_, ?_, ?_⟩, by omega, ?_, ?_, ?_⟩
    · intro i hi; have := l3 i hi; omega
    · intro i hi; have := l5 i hi; omega
    · intro i hi; have := k7 i hi; omega
    · intro i hi; have := l3 i (by omega); omega
    · intro i hi; have := l5 i (by omega); omega
    · intro i hi; have := k7 i (by omega); omega
  · -- five is the least
    have e : f * 5 % U32 = 5 * f := by
      rw [Nat.mod_eq_of_lt (by omega)]; omega
    simp only [e, SeqInv]
    refine ⟨⟨⟨a, ha⟩, ⟨b + 1, by rw [hb]; ring⟩, ⟨d, hd⟩, ?_, ?_, ?_⟩, by omega, ?_, ?_, ?_⟩
    · intro i hi; have := l3 i hi; omega
    · intro i hi; have := k5 i hi; omega
    · intro i hi; have := l7 i hi; omega
    · intro i hi; have := l3 i (by omega); omega
    · intro i hi; have := k5 i (by omega); omega
    · intro i hi; have := l7 i (by omega); omega
  · have e : s * 7 % U32 = 7 * s := by
      rw [Nat.mod_eq_of_lt (by omega)]; omega
    simp only [e, SeqInv]
    refine ⟨⟨⟨a, ha⟩, ⟨b, hb⟩, ⟨d + 1, by rw [hd]; ring⟩, ?_, ?_, ?_⟩, by omega, ?_, ?_, ?_⟩
    · intro i hi; have := l3 i hi; omega
    · intro i hi; have := l5 i hi; omega
    · intro i hi; have := k7 i hi; omega
    · intro i hi; have := l3 i (by omega); omega
    · intro i hi; have := l5 i (by omega); omega
    · intro i hi; have := k7 i (by omega); omega
  · have e : t * 3 % U32 = 3 * t := by
      rw [Nat.mod_eq_of_lt (by omega)]; omega
    simp only [e, SeqInv]
    refine ⟨⟨⟨a + 1, by rw [ha]; ring⟩, ⟨b, hb⟩, ⟨d, hd⟩, ?_, ?_, ?_⟩, by omega, ?_, ?_, ?_⟩
    · intro i hi; have := k3 i hi; omega
    · intro i hi; have := l5 i hi; omega
    · intro i hi; have := l7 i hi; omega
    · intro i hi; have := k3 i (by omega); omega
    · intro i hi; have := l5 i (by omega); omega
    · intro i hi; have := l7 i (by omega); omega

theorem countersFrom_succ_last (env : Env) (fs : ext2_filsys) :
    ∀ (k : Nat) (c : Nat × Nat × Nat),
      countersFrom env fs (k + 1) c =
        (env.list_backups fs (countersFrom env fs k c).1 (countersFrom env fs k c).2.1
          (countersFrom env fs k c).2.2).2 := by
  intro k
  induction k with
  | zero => intro c; rfl
  | succ k ih =>
    intro c
    have h := ih (env.list_backups fs c.1 c.2.1 c.2.2).2
    exact h

theorem backup_group_min (env : Env) (fs : ext2_filsys)
    (henv : env.list_backups = ext2fs_list_backups) (k : Nat) :
    backup_group env fs k =
      min (countersFrom env fs k (1, 5, 7)).1
        (min (countersFrom env fs k (1, 5, 7)).2.1 (countersFrom env fs k (1, 5, 7)).2.2) := by
  simp only [backup_group, grpFrom]
  rw [henv, list_backups_fst]

theorem pow_ge_base (b i : Nat) (hb : 0 < b) : b ≤ b ^ (i + 1) := by
  calc b = b ^ 1 := (pow_one b).symm
    _ ≤ b ^ (i + 1) := Nat.pow_le_pow_right hb (by omega)

theorem seq_inv (env : Env) (fs : ext2_filsys)
    (henv : env.list_backups = ext2fs_list_backups)
    (hg : 7 * fs.group_desc_count < U32) :
    ∀ k, (∀ i, i < k → backup_group env fs i < fs.group_desc_count) →
      SeqInv (countersFrom env fs k (1, 5, 7)) ∧
      (∀ i, i < k → backup_group env fs i < backup_group env fs (i + 1)) ∧
      (∀ x, 3 ^ x < backup_group env fs k → ∃ i, i < k ∧ backup_group env fs i = 3 ^ x) ∧
      (∀ x, 5 ^ (x + 1) < backup_group env fs k →
        ∃ i, i < k ∧ backup_group env fs i = 5 ^ (x + 1)) ∧
      (∀ x, 7 ^ (x + 1) < backup_group env fs k →
        ∃ i, i < k ∧ backup_group env fs i = 7 ^ (x + 1)) := by
  intro k
  induction k with
  | zero =>
    intro _
    have g0 : backup_group env fs 0 = 1 := by
      rw [backup_group_min env fs henv]; rfl
    refine ⟨⟨⟨0, rfl⟩, ⟨0, rfl⟩, ⟨0, rfl⟩, ?_, ?_, ?_⟩, by intro i hi; omega, ?_, ?_, ?_⟩
    · intro i hi
      have : 0 < 3 ^ i := pow_pos (by decide) _
      simp only [countersFrom] at hi; omega
    · intro i hi
      have := pow_ge_base 5 i (by decide)
      simp only [countersFrom] at hi; omega
    · intro i hi
      have := pow_ge_base 7 i (by decide)
      simp only [countersFrom] at hi; omega
    · intro x hx
      have : 0 < 3 ^ x := pow_pos (by decide) _
      omega
    · intro x hx
      have := pow_ge_base 5 x (by decide)
      omega
    · intro x hx
      have := pow_ge_base 7 x (by decide)
      omega
  | succ k ih =>
    intro hk
    obtain ⟨inv, asc, c3, c5, c7⟩ := ih (fun i hi => hk i (by omega))
    have hlt := hk k (by omega)
    have gk := backup_group_min env fs henv k
    have gk1 := backup_group_min env fs henv (k + 1)
    have hs := countersFrom_succ_last env fs k (1, 5, 7)
    rw [henv] at hs
    obtain ⟨inv', lt', s3, s5, s7⟩ := seq_step fs (countersFrom env fs k (1, 5, 7)) inv
      (by rw [← gk]; omega)
    rw [← hs, ← gk, ← gk1] at lt' s3 s5 s7
    rw [← hs] at inv'
    refine ⟨inv', ?_, ?_, ?_, ?_⟩
    · intro i hi
      rcases Nat.lt_succ_iff_lt_or_eq.1 hi with h | h
      · exact asc i h
      · rw [h]; exact lt'
    · intro x hx
      rcases Nat.lt_or_ge (3 ^ x) (backup_group env fs k) with h | h
      · obtain ⟨i, hi, e⟩ := c3 x h
        exact ⟨i, by omega, e⟩
      · exact ⟨k, by omega, Nat.le_antisymm h (s3 x hx)⟩
    · intro x hx
      rcases Nat.lt_or_ge (5 ^ (x + 1)) (backup_group env fs k) with h | h
      · obtain ⟨i, hi, e⟩ := c5 x h
        exact ⟨i, by omega, e⟩
      · exact ⟨k, by omega, Nat.le_antisymm h (s5 x hx)⟩
    · intro x hx
      rcases Nat.lt_or_ge (7 ^ (x + 1)) (backup_group env fs k) with h | h
      · obtain ⟨i, hi, e⟩ := c7 x h
        exact ⟨i, by omega, e⟩
      · exact ⟨k, by omega, Nat.le_antisymm h (s7 x hx)⟩

theorem first_fail (P : Nat → Prop) :
    ∀ N, ¬ P N → ∃ n, n ≤ N ∧ (∀ i, i < n → P i) ∧ ¬ P n := by
  intro N
  induction N using Nat.strong_induction_on with
  | _ N ih =>
    intro h
    by_cases hall : ∀ i, i < N → P i
    · exact ⟨N, le_refl _, hall, h⟩
    · push_neg at hall
      obtain ⟨i, hi, hp⟩ := hall
      obtain ⟨n, hn, h1, h2⟩ := ih i hi hp
      exact ⟨n, by omega, h1, h2⟩

theorem isBackupGroup_iff (g : Nat) :
    isBackupGroup g = true ↔
      (∃ x, g = 3 ^ x) ∨ (∃ x, g = 5 ^ (x + 1)) ∨ (∃ x, g = 7 ^ (x + 1)) := by
  simp only [isBackupGroup, Bool.or_eq_true, beq_iff_eq, List.any_eq_true, List.mem_range]
  constructor
  · rintro (h | ⟨i, -, (h | h) | h⟩)
    · exact Or.inl ⟨0, h⟩
    · exact Or.inl ⟨i + 1, h.symm⟩
    · exact Or.inr (Or.inl ⟨i, h.symm⟩)
    · exact Or.inr (Or.inr ⟨i, h.symm⟩)
  · rintro (⟨x, rfl⟩ | ⟨x, rfl⟩ | ⟨x, rfl⟩)
    · cases x with
      | zero => exact Or.inl rfl
      | succ x =>
        have := Nat.lt_pow_self (by decide : 1 < 3) (x + 1)
        exact Or.inr ⟨x, by omega, Or.inl (Or.inl rfl)⟩
    · have := Nat.lt_pow_self (by decide : 1 < 5) (x + 1)
      exact Or.inr ⟨x, by omega, Or.inl (Or.inr rfl)⟩
    · have := Nat.lt_pow_self (by decide : 1 < 7) (x + 1)
      exact Or.inr ⟨x, by omega, Or.inr rfl⟩

theorem seq_summary (env : Env) (fs : ext2_filsys)
    (henv : env.list_backups = ext2fs_list_backups)
    (hg : 7 * fs.group_desc_count < U32) :
    ∃ n, n ≤ 41 ∧ (∀ i, i < n → backup_group env fs i < fs.group_desc_count) ∧
      ¬ backup_group env fs n < fs.group_desc_count ∧
      (∀ i j, i < j → j ≤ n → backup_group env fs i < backup_group env fs j) ∧
      (∀ k, k ≤ n → isBackupGroup (backup_group env fs k) = true) ∧
      (∀ g, isBackupGroup g = true → g < fs.group_desc_count →
        ∃ i, i < n ∧ backup_group env fs i = g) := by
  have h41 : ¬ backup_group env fs 41 < fs.group_desc_count := by
    rw [backup_group_41 env fs henv]
    have hU : U32 = 4294967296 := rfl
    omega
  obtain ⟨n, hn, hlt, hge⟩ := first_fail (fun k => backup_group env fs k < fs.group_desc_count)
    41 h41
  obtain ⟨inv, asc, c3, c5, c7⟩ := seq_inv env fs henv hg n hlt
  have mono : ∀ j, j ≤ n → ∀ i, i < j → backup_group env fs i < backup_group env fs j := by
    intro j
    induction j with
    | zero => intro _ i hi; omega
    | succ j ih =>
      intro hj i hi
      have h1 := asc j (by omega)
      rcases Nat.lt_succ_iff_lt_or_eq.1 hi with h | h
      · exact Nat.lt_trans (ih (by omega) i h) h1
      · rw [h]; exact h1
  refine ⟨n, hn, hlt, hge, fun i j hij hj => mono j hj i hij, ?_, ?_⟩
  · intro k hk
    obtain ⟨⟨a, ha⟩, ⟨b, hb⟩, ⟨d, hd⟩, -⟩ :=
      (seq_inv env fs henv hg k (fun i hi => hlt i (by omega))).1
    rw [isBackupGroup_iff, backup_group_min env fs henv k]
    rcases Nat.le_total (countersFrom env fs k (1, 5, 7)).2.1
        (countersFrom env fs k (1, 5, 7)).2.2 with h1 | h1
    · rw [Nat.min_eq_left h1]
      rcases Nat.le_total (countersFrom env fs k (1, 5, 7)).1
          (countersFrom env fs k (1, 5, 7)).2.1 with h2 | h2
      · rw [Nat.min_eq_left h2]; exact Or.inl ⟨a, ha⟩
      · rw [Nat.min_eq_right h2]; exact Or.inr (Or.inl ⟨b, hb⟩)
    · rw [Nat.min_eq_right h1]
      rcases Nat.le_total (countersFrom env fs k (1, 5, 7)).1
          (countersFrom env fs k (1, 5, 7)).2.2 with h2 | h2
      · rw [Nat.min_eq_left h2]; exact Or.inl ⟨a, ha⟩
      · rw [Nat.min_eq_right h2]; exact Or.inr (Or.inr ⟨d, hd⟩)
  · intro g hcan hlt'
    have hgn : g < backup_group env fs n := by omega
    rcases (isBackupGroup_iff g).1 hcan with ⟨x, rfl⟩ | ⟨x, rfl⟩ | ⟨x, rfl⟩
    · exact c3 x hgn
    · exact c5 x hgn
    · exact c7 x hgn

theorem visited_eq_canonical (env : Env) (fs : ext2_filsys) (n : Nat)
    (hlt : ∀ i, i < n → backup_group env fs i < fs.group_desc_count)
    (mono : ∀ i j, i < j → j ≤ n → backup_group env fs i < backup_group env fs j)
    (sound : ∀ k, k ≤ n → isBackupGroup (backup_group env fs k) = true)
    (compl : ∀ g, isBackupGroup g = true → g < fs.group_desc_count →
      ∃ i, i < n ∧ backup_group env fs i = g) :
    (List.range n).map (backup_group env fs) = canonical_groups fs.group_desc_count := by
  have s1 : ((List.range n).map (backup_group env fs)).Sorted (· < ·) := by
    rw [List.Sorted, List.pairwise_map]
    refine (List.pairwise_lt_range n).imp_of_mem ?_
    intro a b ha hb hab
    exact mono a b hab (by rw [List.mem_range] at hb; omega)
  have s2 : (canonical_groups fs.group_desc_count).Sorted (· < ·) :=
    (List.sorted_lt_range _).filter _
  refine List.eq_of_perm_of_sorted ((List.perm_ext_iff_of_nodup s1.nodup s2.nodup).2 ?_) s1 s2
  intro g
  simp only [canonical_groups, List.mem_map, List.mem_range, List.mem_filter]
  constructor
  · rintro ⟨i, hi, rfl⟩
    exact ⟨hlt i hi, sound i (by omega)⟩
  · rintro ⟨h1, h2⟩
    exact compl g h2 h1

theorem backup_loop_beyond (env : Env) (blk rsv : Nat) :
    ∀ (n fuel t f s last : Nat) (d : Bool) (m : Machine) (r : Int × Bool × Machine),
      ¬ grpFrom env m.fs (t, f, s) n < m.fs.group_desc_count →
      backup_loop env blk rsv fuel t f s last d m = some r →
      ∀ x, last + n ≤ x → r.2.2.gdt_buf x = m.gdt_buf x := by
  intro n
  induction n with
  | zero =>
    intro fuel t f s last d m r h2 h x _
    obtain ⟨fuel, rfl⟩ : ∃ k, fuel = k + 1 := by
      cases fuel with
      | zero => simp [backup_loop] at h
      | succ k => exact ⟨k, rfl⟩
    rw [grpFrom_zero] at h2
    simp only [backup_loop] at h
    rw [if_neg h2] at h
    simp only [Option.some.injEq] at h
    rw [← h]
  | succ n ih =>
    intro fuel t f s last d m r h2 h x hx
    obtain ⟨fuel, rfl⟩ : ∃ k, fuel = k + 1 := by
      cases fuel with
      | zero => simp [backup_loop] at h
      | succ k => exact ⟨k, rfl⟩
    rw [grpFrom_succ] at h2
    simp only [backup_loop] at h
    split_ifs at h with c1 c2 c3
    · have := ih fuel _ _ _ _ _ _ r (by simpa [Machine.log] using h2) h x (by omega)
      rw [this]
      simp only [Machine.log, setEntry]
      rw [if_neg (by omega)]
    · simp only [Option.some.injEq] at h
      rw [← h]; rfl
    · exact ih fuel _ _ _ _ _ _ r h2 h x (by omega)
    · simp only [Option.some.injEq] at h
      rw [← h]

theorem backup_loop_local (env : Env) (blk rsv : Nat) :
    ∀ (n fuel t f s last : Nat) (d : Bool) (m : Machine) (buf : Nat → Nat),
      n < fuel → ¬ grpFrom env m.fs (t, f, s) n < m.fs.group_desc_count →
      (∀ x, x < n → buf (last + x) = m.gdt_buf (last + x)) →
      ∃ (rv : Int) (d' : Bool) (m' : Machine) (buf' : Nat → Nat),
        backup_loop env blk rsv fuel t f s last d m = some (rv, d', m') ∧
        backup_loop env blk rsv fuel t f s last d { m with gdt_buf := buf } =
          some (rv, d', { m' with gdt_buf := buf' }) ∧
        (∀ x, x < n → buf' (last + x) = m'.gdt_buf (last + x)) := by
  intro n
  induction n with
  | zero =>
    intro fuel t f s last d m buf hf h2 _
    obtain ⟨fuel, rfl⟩ : ∃ k, fuel = k + 1 := ⟨fuel - 1, by omega⟩
    rw [grpFrom_zero] at h2
    refine ⟨0, d, m, buf, ?_, ?_, by intro x hx; omega⟩
    · simp only [backup_loop]; rw [if_neg h2]
    · simp only [backup_loop]; rw [if_neg h2]
  | succ n ih =>
    intro fuel t f s last d m buf hf h2 hb
    obtain ⟨fuel, rfl⟩ : ∃ k, fuel = k + 1 := ⟨fuel - 1, by omega⟩
    have hb0 : buf last = m.gdt_buf last := by simpa using hb 0 (by omega)
    rw [grpFrom_succ] at h2
    by_cases c1 : (env.list_backups m.fs t f s).1 < m.fs.group_desc_count
    · by_cases c2 : m.gdt_buf last = 0
      · obtain ⟨rv, d', m', buf', e1, e2, e3⟩ := ih fuel
          (env.list_backups m.fs t f s).2.1 (env.list_backups m.fs t f s).2.2.1
          (env.list_backups m.fs t f s).2.2.2 (last + 1) true
          { m with
            trace := m.trace ++ [Event.dbg_added_backup
              ((blk + (env.list_backups m.fs t f s).1 * m.fs.super.s_blocks_per_group) % U32)
              (env.list_backups m.fs t f s).1 blk last],
            gdt_buf := setEntry m.gdt_buf last
              ((blk + (env.list_backups m.fs t f s).1 * m.fs.super.s_blocks_per_group) % U32),
            inode := { m.inode with i_blocks := (m.inode.i_blocks + rsv) % U32 },
            inode_dirty := true }
          (setEntry buf last
            ((blk + (env.list_backups m.fs t f s).1 * m.fs.super.s_blocks_per_group) % U32))
          (by omega) h2
          (by
            intro x hx
            simp only [setEntry]
            rw [if_neg (by omega), if_neg (by omega)]
            have := hb (x + 1) (by omega)
            rw [show last + (x + 1) = last + 1 + x by omega] at this
            exact this)
        have w1 := backup_loop_mono env blk rsv _ _ _ _ _ _ _ _ _ _ e1
        have w2 := backup_loop_mono env blk rsv _ _ _ _ _ _ _ _ _ _ e2
        refine ⟨rv, d', m', buf', ?_, ?_, ?_⟩
        · simp only [backup_loop, Machine.log]
          rw [if_pos c1, if_pos c2]
          exact e1
        · simp only [backup_loop, Machine.log]
          rw [if_pos c1, if_pos (by rw [hb0]; exact c2)]
          exact e2
        · intro x hx
          rcases Nat.eq_zero_or_pos x with rfl | hpos
          · have a1 := w1.2 last (by omega)
            have a2 := w2.2 last (by omega)
            simp only [setEntry, if_true] at a1 a2
            simp only [Nat.add_zero]
            rw [a1]; exact a2
          · have := e3 (x - 1) (by omega)
            rw [show last + 1 + (x - 1) = last + x by omega] at this
            exact this
      · by_cases c3 : m.gdt_buf last ≠
            (blk + (env.list_backups m.fs t f s).1 * m.fs.super.s_blocks_per_group) % U32
        · refine ⟨-1, d,
            { m with
              trace := m.trace ++ [Event.msg_bad_backup (m.gdt_buf last)
                ((blk + (env.list_backups m.fs t f s).1 * m.fs.super.s_blocks_per_group) % U32)
                blk last] }, buf, ?_, ?_, fun x hx => hb x hx⟩
          · simp only [backup_loop, Machine.log]
            rw [if_pos c1, if_neg c2, if_pos c3]
          · simp only [backup_loop, Machine.log]
            rw [if_pos c1, if_neg (by rw [hb0]; exact c2), if_pos (by rw [hb0]; exact c3), hb0]
        · obtain ⟨rv, d', m', buf', e1, e2, e3⟩ := ih fuel
            (env.list_backups m.fs t f s).2.1 (env.list_backups m.fs t f s).2.2.1
            (env.list_backups m.fs t f s).2.2.2 (last + 1) d m buf (by omega) h2
            (by
              intro x hx
              have := hb (x + 1) (by omega)
              rw [show last + (x + 1) = last + 1 + x by omega] at this
              exact this)
          have w1 := backup_loop_mono env blk rsv _ _ _ _ _ _ _ _ _ _ e1
          have w2 := backup_loop_mono env blk rsv _ _ _ _ _ _ _ _ _ _ e2
          refine ⟨rv, d', m', buf', ?_, ?_, ?_⟩
          · simp only [backup_loop, Machine.log]
            rw [if_pos c1, if_neg c2, if_neg c3]
            exact e1
          · simp only [backup_loop, Machine.log]
            rw [if_pos c1, if_neg (by rw [hb0]; exact c2), if_neg (by rw [hb0]; exact c3)]
            exact e2
          · intro x hx
            rcases Nat.eq_zero_or_pos x with rfl | hpos
            · have a1 := w1.2 last (by omega)
              have a2 := w2.2 last (by omega)
              simp only [Nat.add_zero]
              rw [a1]; simp only at a2; rw [a2]; exact hb0
            · have := e3 (x - 1) (by omega)
              rw [show last + 1 + (x - 1) = last + x by omega] at this
              exact this
    · refine ⟨0, d, m, buf, ?_, ?_, fun x hx => hb x hx⟩
      · simp only [backup_loop]; rw [if_neg c1]
      · simp only [backup_loop]; rw [if_neg c1]

theorem run_total (fuel : Nat) (env : Env) (fs : ext2_filsys) (blocks : Nat → Nat → Nat)
    (ino : ext2_inode) (k : Nat) (hk : k < fuel)
    (hstop : ∀ fs' : ext2_filsys, fs'.group_desc_count = fs.group_desc_count →
      ¬ backup_group env fs' k < fs'.group_desc_count) :
    ∃ r, ext2fs_create_resize_inode fuel env (initMachine fs blocks ino) = some r := by
  simp only [ext2fs_create_resize_inode, Machine.log]
  split_ifs
  · exact ⟨_, rfl⟩
  · exact ⟨_, rfl⟩
  · exact ⟨_, rfl⟩
  · exact ⟨_, rfl⟩
  · split
    · exact ⟨_, rfl⟩
    · rename_i mi hi
      obtain ⟨-, -, -, -, -, -, g, -⟩ := init_dindir_inr env _ _ _ mi hi
      obtain ⟨⟨rv, ml⟩, hl⟩ := slot_loop_total fuel env (fs.blocksize / 512)
        (EXT2_ADDR_PER_BLOCK fs.super) mi.fs.super.s_reserved_gdt_blocks
        (mi.fs.desc_blocks % U32)
        ((mi.fs.super.s_first_data_block + 1 + mi.fs.desc_blocks % U32) % U32) mi k hk
        (hstop mi.fs g)
      simp only [initMachine] at hl ⊢
      rw [hl]
      exact ⟨_, rfl⟩

theorem run_primary_index (fuel : Nat) (env : Env) (fs : ext2_filsys)
    (blocks : Nat → Nat → Nat) (ino : ext2_inode) (r : Int × Machine)
    (hrun : ext2fs_create_resize_inode fuel env (initMachine fs blocks ino) = some r) :
    ∀ e ∈ r.2.trace, ∀ b d o,
      (e = Event.dbg_added_primary b d o ∨ ∃ f, e = Event.msg_bad_primary f b d o) →
      o < EXT2_ADDR_PER_BLOCK fs.super := by
  intro e he b d o hcase
  have hiso : e.isOut = false ∧ e.isInit = false ∧ (∀ x, e ≠ Event.get_mem x) ∧
      (∀ x, e ≠ Event.read_inode x) ∧ (∀ x y, e ≠ Event.msg_inode x y) := by
    rcases hcase with rfl | ⟨f, rfl⟩ <;> simp [Event.isOut, Event.isInit]
  rcases run_exits fuel env fs blocks ino r hrun with
    ⟨-, -, -, -, -, hc⟩ | ⟨-, -, mi, rv, ml, h3, h4, rfl⟩
  · exfalso
    rcases hc with ⟨-, -, ht⟩ | ⟨-, -, -, ht⟩ | ⟨-, -, hc⟩
    · rw [ht] at he; simp at he
    · rw [ht] at he; simp at he
    · rcases hc with ⟨-, ht⟩ | ⟨-, ht⟩ | ⟨-, -, -, ht⟩ | ⟨-, -, -, b', ht⟩
      all_goals rw [ht] at he
      all_goals rcases hcase with rfl | ⟨f, rfl⟩ <;> simp at he
  · obtain ⟨suf, osuf, -, -, tr, cls, ocl, -⟩ := loop_run_trace fuel env fs mi rv ml h4
    rw [tr] at he
    rcases List.mem_append.1 he with he | he
    · rcases List.mem_append.1 he with he | he
      · exfalso
        rcases init_trace env fs blocks ino mi h3 with ⟨-, ht⟩ | ⟨-, blk, t, ht⟩
        all_goals rw [ht] at he
        all_goals rcases hcase with rfl | ⟨f, rfl⟩ <;> simp at he
      · obtain ⟨j, -, hs⟩ := cls e he
        have hlt : gdt_off_at (EXT2_ADDR_PER_BLOCK fs.super) (fs.desc_blocks % U32) j %
            EXT2_ADDR_PER_BLOCK fs.super % U32 < EXT2_ADDR_PER_BLOCK fs.super :=
          Nat.lt_of_le_of_lt (Nat.mod_le _ _) (Nat.mod_lt _ (apb_pos fs.super))
        rcases hcase with rfl | ⟨f, rfl⟩
        · simp only [Event.isSlotOf, decide_eq_true_eq] at hs
          rw [hs.2]; exact hlt
        · simp only [Event.isSlotOf, decide_eq_true_eq] at hs
          rw [hs.2]; exact hlt
    · have := ocl e he
      rw [hiso.1] at this
      exact absurd this (by simp)

theorem firstError_init (env : Env) (fs : ext2_filsys) (blocks : Nat → Nat → Nat)
    (ino : ext2_inode) (mi : Machine)
    (h : init_dindir env (fs.blocksize / 512) (EXT2_ADDR_PER_BLOCK fs.super)
      (afterReadInode fs blocks ino) = Sum.inr mi) :
    firstError mi.trace = 0 ∧ (mi.dindir_dirty = true → mi.inode_dirty = true) := by
  constructor
  · rcases init_trace env fs blocks ino mi h with ⟨-, ht⟩ | ⟨-, blk, t, ht⟩
    · rw [ht]; simp [firstError, Event.err]
    · rw [ht]; simp [firstError, Event.err]
  · obtain ⟨-, -, -, -, -, -, -, -, -, -, -, isuf, -, -, -, hc⟩ := init_dindir_inr env _ _ _ mi h
    rcases hc with ⟨-, -, -, -, -, c1, c2, -⟩ | ⟨-, c1, c2, -⟩
    · intro hd; rw [c1] at hd; simp [afterReadInode, initMachine] at hd
    · intro _; exact c2

/-- The final state of a successful run: the stored inode points to the
double-indirect block, whose stored content is the buffer at the end of the
slot loop; every other block is as the slot loop left it. -/
theorem success_storage (env : Env) (fs : ext2_filsys) (blocks : Nat → Nat → Nat)
    (ino : ext2_inode) (mi ml : Machine) (suf : List Event)
    (hi : init_dindir env (fs.blocksize / 512) (EXT2_ADDR_PER_BLOCK fs.super)
        (afterReadInode fs blocks ino) = Sum.inr mi)
    (F : Frame (fs.blocksize / 512) mi ml suf)
    (cls : ∀ e ∈ suf, ∃ j, j < fs.super.s_reserved_gdt_blocks ∧
      e.isSlotOf (slot_block fs j) (slot_index fs j) = true)
    (hok : (out_dindir env 0 ml).1 = 0) :
    (out_dindir env 0 ml).2.disk_inode.i_block EXT2_DIND_BLOCK = mi.dindir_blk ∧
    (∀ a, a ≠ mi.dindir_blk → (out_dindir env 0 ml).2.blocks a = ml.blocks a) ∧
    ((ml.dindir_dirty = true ∨
        ∀ i, i < fs.super.s_reserved_gdt_blocks → slot_block fs i ≠ mi.dindir_blk) →
      (out_dindir env 0 ml).2.blocks mi.dindir_blk = ml.dindir_buf) := by
  obtain ⟨i1, i2, -, -, -, -, -, -, -, -, -, isuf, -, -, -, icase⟩ :=
    init_dindir_inr env _ _ _ mi hi
  obtain ⟨o1, o2, -, -, -, -, o7, -⟩ := out_dindir_frame env 0 ml
  obtain ⟨z1, z2⟩ := out_dindir_zero env ml hok
  have hptr : mi.inode.i_block EXT2_DIND_BLOCK = mi.dindir_blk := by
    rcases icase with ⟨-, -, c3, c4, -⟩ | ⟨-, -, -, -, -, c6, -⟩
    · rw [c3, c4]
    · exact c6
  have hml : ml.inode.i_block = mi.inode.i_block := by rw [F.inode_eq]
  refine ⟨?_, ?_, ?_⟩
  · cases hd : ml.inode_dirty with
    | true => rw [z2 hd, o7, hml, hptr]
    | false =>
      rw [out_dindir_disk_inode_clean env 0 ml hd, F.disk_inode_eq, i2]
      have hmi : mi.inode_dirty = false := by
        cases hx : mi.inode_dirty with
        | false => rfl
        | true => rw [F.inode_dirty_iff.2 (Or.inl hx)] at hd; exact absurd hd (by simp)
      rcases icase with ⟨-, -, c3, c4, -⟩ | ⟨-, -, c3, -⟩
      · rw [c4]; rfl
      · rw [c3] at hmi; exact absurd hmi (by simp)
  · intro a ha
    exact out_dindir_blocks_other env 0 ml a (by rw [F.dindir_blk_eq]; exact ha)
  · intro halias
    cases hd : ml.dindir_dirty with
    | true =>
      rw [z1 hd, F.dindir_blk_eq]
      simp [setBlock]
    | false =>
      rw [hd] at halias
      simp only [Bool.false_eq_true, false_or] at halias
      rw [out_dindir_blocks_clean env 0 ml hd]
      obtain ⟨c1, c2⟩ := loop_clean_dindir_buf _ mi ml suf F hd
      rw [loop_keeps_dindir_block _ fs mi ml suf F cls halias, c2]
      rcases icase with ⟨-, -, -, c4, c5, -⟩ | ⟨-, c3, -⟩
      · rw [c5, c4, i1]
      · rw [c3] at c1; exact absurd c1 (by simp)

theorem flush_storage (env : Env) (fs : ext2_filsys) (blocks : Nat → Nat → Nat)
    (ino : ext2_inode) (mi ml : Machine) (suf : List Event) (rv : Int)
    (hi : init_dindir env (fs.blocksize / 512) (EXT2_ADDR_PER_BLOCK fs.super)
        (afterReadInode fs blocks ino) = Sum.inr mi)
    (F : Frame (fs.blocksize / 512) mi ml suf)
    (cls : ∀ e ∈ suf, ∃ j, j < fs.super.s_reserved_gdt_blocks ∧
      e.isSlotOf (slot_block fs j) (slot_index fs j) = true)
    (hwb : ∀ t b, env.write_blk t b = 0) (hwi : ∀ t, env.write_inode t = 0)
    (halias : ∀ i, i < fs.super.s_reserved_gdt_blocks → slot_block fs i ≠ mi.dindir_blk) :
    (out_dindir env rv ml).2.disk_inode.i_block EXT2_DIND_BLOCK = mi.dindir_blk ∧
    (∀ a, a ≠ mi.dindir_blk → (out_dindir env rv ml).2.blocks a = ml.blocks a) ∧
    (out_dindir env rv ml).2.blocks mi.dindir_blk = ml.dindir_buf ∧
    (out_dindir env rv ml).2.disk_inode.i_blocks = (out_dindir env rv ml).2.inode.i_blocks := by
  obtain ⟨i1, i2, -, -, -, -, -, -, -, -, -, isuf, -, -, -, icase⟩ :=
    init_dindir_inr env _ _ _ mi hi
  obtain ⟨o1, o2, -, -, -, o6, o7, -⟩ := out_dindir_frame env rv ml
  have hptr : mi.inode.i_block EXT2_DIND_BLOCK = mi.dindir_blk := by
    rcases icase with ⟨-, -, c3, c4, -⟩ | ⟨-, -, -, -, -, c6, -⟩
    · rw [c3, c4]
    · exact c6
  have hml : ml.inode.i_block = mi.inode.i_block := by rw [F.inode_eq]
  have hclean : ml.inode_dirty = false →
      (out_dindir env rv ml).2.disk_inode = ml.inode := by
    intro hd
    rw [out_dindir_disk_inode_clean env rv ml hd, F.disk_inode_eq, i2]
    have hmi : mi.inode_dirty = false := by
      cases hx : mi.inode_dirty with
      | false => rfl
      | true => rw [F.inode_dirty_iff.2 (Or.inl hx)] at hd; exact absurd hd (by simp)
    have hcnt : suf.countP Event.isNewPrimary + suf.countP Event.isNewBackup = 0 := by
      by_contra hc
      have := F.inode_dirty_iff.2 (Or.inr (Nat.pos_of_ne_zero hc))
      rw [hd] at this; exact absurd this (by simp)
    rw [F.inode_same hcnt]
    rcases icase with ⟨-, -, c3, -⟩ | ⟨-, -, c3, -⟩
    · rw [c3]; rfl
    · rw [c3] at hmi; exact absurd hmi (by simp)
  refine ⟨?_, ?_, ?_, ?_⟩
  · cases hd : ml.inode_dirty with
    | true => rw [out_dindir_disk_inode_written env rv ml hd hwi, o7, hml, hptr]
    | false => rw [hclean hd, hml, hptr]
  · intro a ha
    exact out_dindir_blocks_other env rv ml a (by rw [F.dindir_blk_eq]; exact ha)
  · cases hd : ml.dindir_dirty with
    | true =>
      rw [out_dindir_blocks_written env rv ml hd (hwb _ _), F.dindir_blk_eq]
      simp [setBlock]
    | false =>
      rw [out_dindir_blocks_clean env rv ml hd]
      obtain ⟨c1, c2⟩ := loop_clean_dindir_buf _ mi ml suf F hd
      rw [loop_keeps_dindir_block _ fs mi ml suf F cls halias, c2]
      rcases icase with ⟨-, -, -, c4, c5, -⟩ | ⟨-, c3, -⟩
      · rw [c5, c4, i1]
      · rw [c3] at c1; exact absurd c1 (by simp)
  · cases hd : ml.inode_dirty with
    | true => rw [out_dindir_disk_inode_written env rv ml hd hwi]
    | false => rw [hclean hd, o6]

theorem slot_loop_stop (fuel : Nat) (env : Env) (rsv apb n off blk : Nat) (m m' : Machine)
    (h : slot_loop fuel env rsv apb (n + 1) off blk m = some (0, m')) :
    ∃ k, k < fuel ∧ (∀ i, i < k → backup_group env m.fs i < m.fs.group_desc_count) ∧
      ¬ backup_group env m.fs k < m.fs.group_desc_count := by
  simp only [slot_loop] at h
  rcases hb : slot_body fuel env rsv apb off blk m with _ | ⟨rv1, m1⟩
  · rw [hb] at h; simp at h
  · rw [hb] at h
    simp only at h
    by_cases h1 : rv1 = 0
    · subst h1
      exact (slot_body_done fuel env rsv apb off blk m m1 hb).2.1
    · rw [if_pos h1] at h
      simp only [Option.some.injEq, Prod.mk.injEq] at h
      exact absurd h.1 h1

theorem init_dindir_load_ok (env : Env) (rsv apb : Nat) (fs : ext2_filsys)
    (blocks : Nat → Nat → Nat) (ino : ext2_inode)
    (hz : ino.i_block EXT2_DIND_BLOCK ≠ 0) (hread : ∀ t b, env.read_blk t b = 0) :
    init_dindir env rsv apb (afterReadInode fs blocks ino) =
      Sum.inr { afterReadInode fs blocks ino with
        dindir_blk := ino.i_block EXT2_DIND_BLOCK,
        dindir_buf := blocks (ino.i_block EXT2_DIND_BLOCK),
        trace := [Event.get_mem 0, Event.read_inode 0,
          Event.msg_reading_dindir (ino.i_block EXT2_DIND_BLOCK),
          Event.read_blk (ino.i_block EXT2_DIND_BLOCK) Buf.dindir_buf 0] } := by
  simp only [init_dindir, Machine.log, afterReadInode, initMachine]
  rw [if_pos hz, hread]
  simp

theorem run_of_parts (fuel : Nat) (env : Env) (fs : ext2_filsys) (blocks : Nat → Nat → Nat)
    (ino : ext2_inode) (mi : Machine) (rv : Int) (ml : Machine)
    (hm : fs.magic = EXT2_ET_MAGIC_EXT2FS_FILSYS) (hN : fs.super.s_reserved_gdt_blocks ≠ 0)
    (hg : env.get_mem [] = 0) (hr : env.read_inode [Event.get_mem 0] = 0)
    (hi : init_dindir env (fs.blocksize / 512) (EXT2_ADDR_PER_BLOCK fs.super)
      (afterReadInode fs blocks ino) = Sum.inr mi)
    (hl : slot_loop fuel env (fs.blocksize / 512) (EXT2_ADDR_PER_BLOCK fs.super)
      mi.fs.super.s_reserved_gdt_blocks (mi.fs.desc_blocks % U32)
      ((mi.fs.super.s_first_data_block + 1 + mi.fs.desc_blocks % U32) % U32) mi = some (rv, ml)) :
    ext2fs_create_resize_inode fuel env (initMachine fs blocks ino) =
      some (out_dindir env rv ml) := by
  simp only [ext2fs_create_resize_inode, Machine.log]
  simp only [initMachine] at hi hl ⊢
  simp only [afterReadInode, initMachine] at hi
  rw [if_neg (by simpa using hm), if_neg hN]
  simp only [List.nil_append, hg, ne_eq, not_true_eq_false, if_false, hr, List.cons_append]
  rw [hi]
  simp only
  rw [hl]

theorem backup_group_congr_env (env env2 : Env) (fs : ext2_filsys)
    (h : env2.list_backups = env.list_backups) (k : Nat) :
    backup_group env2 fs k = backup_group env fs k := by
  have hc : ∀ (k : Nat) (c : Nat × Nat × Nat),
      countersFrom env2 fs k c = countersFrom env fs k c := by
    intro k
    induction k with
    | zero => intro c; rfl
    | succ k ih => intro c; simp only [countersFrom]; rw [ih, h]
  simp only [backup_group, grpFrom]
  rw [hc, h]

theorem success_state (fuel : Nat) (env : Env) (fs : ext2_filsys)
    (blocks : Nat → Nat → Nat) (ino : ext2_inode) (r : Int × Machine)
    (hrun : ext2fs_create_resize_inode fuel env (initMachine fs blocks ino) = some r)
    (hok : r.1 = 0) (hN0 : fs.super.s_reserved_gdt_blocks ≠ 0)
    (hN : fs.super.s_reserved_gdt_blocks < U32)
    (hlog : fs.super.s_log_block_size ≤ 20)
    (halias : ∀ i, i < fs.super.s_reserved_gdt_blocks →
      slot_block fs i ≠ r.2.disk_inode.i_block EXT2_DIND_BLOCK)
    (hsep : fs.super.s_reserved_gdt_blocks ≤ EXT2_ADDR_PER_BLOCK fs.super ∨
      ∀ i, i < fs.super.s_reserved_gdt_blocks → slot_block fs i ≠ 0) :
    (r.2.fs.magic = EXT2_ET_MAGIC_EXT2FS_FILSYS ∧ r.2.fs.blocksize = fs.blocksize ∧
      r.2.fs.desc_blocks = fs.desc_blocks ∧
      r.2.fs.super.s_reserved_gdt_blocks = fs.super.s_reserved_gdt_blocks ∧
      r.2.fs.super.s_first_data_block = fs.super.s_first_data_block ∧
      r.2.fs.super.s_blocks_per_group = fs.super.s_blocks_per_group ∧
      r.2.fs.super.s_log_block_size = fs.super.s_log_block_size) ∧
    (∃ k, k < fuel ∧ (∀ i, i < k → backup_group env r.2.fs i < r.2.fs.group_desc_count) ∧
      ¬ backup_group env r.2.fs k < r.2.fs.group_desc_count) ∧
    (∀ i, i < fs.super.s_reserved_gdt_blocks →
      r.2.blocks (r.2.disk_inode.i_block EXT2_DIND_BLOCK) (slot_index fs i) = slot_block fs i ∧
      ∀ k, HasBackup env r.2.fs k →
        r.2.blocks (slot_block fs i) k =
          backup_block fs (slot_block fs i) (backup_group env r.2.fs k)) := by
  obtain ⟨hm, -, -, mi, ml, h3, h4, rfl⟩ := run_success_inv fuel env fs blocks ino r hrun hok hN0
  obtain ⟨-, -, f3, f4, f5, -, -, f8, f9, f10, f11, -⟩ := init_dindir_inr env _ _ _ mi h3
  obtain ⟨suf, F, -, cls, hdone⟩ := loop_summary fuel env fs mi 0 ml h4 f10 hlog
  obtain ⟨c, sd, sf, -, k2, -, -, -, -, k7⟩ := hdone hN hsep
  have hc : c = fs.super.s_reserved_gdt_blocks := k2 rfl
  obtain ⟨s1, s4, s2⟩ := success_storage env fs blocks ino mi ml suf h3 F cls hok
  have ofs := (out_dindir_frame env 0 ml).1
  refine ⟨⟨?_, ?_, ?_, ?_, ?_, ?_, ?_⟩, ?_, ?_⟩
  · rw [ofs, F.fs_eq, f3]; exact hm
  · rw [ofs, F.fs_eq, f4]; rfl
  · rw [ofs, F.fs_eq, f5]; rfl
  · rw [ofs, F.fs_eq, f8]; rfl
  · rw [ofs, F.fs_eq, f9]; rfl
  · rw [ofs, F.fs_eq, f10]; rfl
  · rw [ofs, F.fs_eq, f11]; rfl
  · obtain ⟨n, hn⟩ : ∃ n, fs.super.s_reserved_gdt_blocks = n + 1 :=
      ⟨fs.super.s_reserved_gdt_blocks - 1, by omega⟩
    rw [hn] at h4
    obtain ⟨k, hk, h1, h2⟩ := slot_loop_stop fuel env _ _ n _ _ mi ml h4
    rw [ofs, F.fs_eq]
    exact ⟨k, hk, h1, h2⟩
  · intro i hi
    rw [s1] at halias ⊢
    have s3 := s2 (Or.inr halias)
    obtain ⟨j1, j2⟩ := k7 i (by omega)
    refine ⟨by rw [s3, j1], ?_⟩
    intro k hk
    rw [ofs] at hk ⊢
    rw [s4 _ (halias i hi), j2 k hk]

/-! ## The slot loop, iteration by iteration -/

theorem apb_lt (sb : ext2_super_block) (h : sb.s_log_block_size ≤ 20) :
    EXT2_ADDR_PER_BLOCK sb < U32 := by
  rw [apb_eq, show U32 = 2 ^ 32 by rfl]
  exact Nat.pow_lt_pow_right (by decide) (by omega)

/-- After `i` iterations that returned 0, whatever branches they took, the
loop goes on with the running variables `gdt_off_at i` and `gdt_blk_at i`. -/
theorem slot_loop_split (fuel : Nat) (env : Env) (rsv apb : Nat) :
    ∀ (i n off blk : Nat) (m mj : Machine),
      slot_loop fuel env rsv apb i off blk m = some (0, mj) →
      slot_loop fuel env rsv apb (i + n) off blk m =
        slot_loop fuel env rsv apb n (gdt_off_at apb off i) (gdt_blk_at blk i) mj := by
  intro i
  induction i with
  | zero =>
    intro n off blk m mj h
    simp only [slot_loop, Option.some.injEq, Prod.mk.injEq, true_and] at h
    subst h
    rw [Nat.zero_add]; rfl
  | succ i ih =>
    intro n off blk m mj h
    rw [show i + 1 + n = (i + n) + 1 by omega]
    simp only [slot_loop] at h ⊢
    rcases hb : slot_body fuel env rsv apb off blk m with _ | ⟨rv1, m1⟩
    · rw [hb] at h; simp at h
    · rw [hb] at h
      simp only at h ⊢
      by_cases h1 : rv1 = 0
      · rw [if_neg (by simpa using h1)] at h ⊢
        rw [ih n _ _ m1 mj h, gdt_off_at_succ, gdt_blk_at_succ]
      · rw [if_pos h1] at h
        simp only [Option.some.injEq, Prod.mk.injEq] at h
        exact absurd h.1 h1

/-- The body of a slot uses `gdt_off` only reduced modulo `apb`. -/
theorem slot_body_index (fuel : Nat) (env : Env) (rsv apb off off' blk : Nat) (m : Machine)
    (h : off % apb % U32 = off' % apb % U32) :
    slot_body fuel env rsv apb off blk m = slot_body fuel env rsv apb off' blk m := by
  simp only [slot_body]
  rw [h]

/-- Every iteration logs first which primary block, at which index, it
resolves. -/
theorem slot_body_first_event (fuel : Nat) (env : Env) (rsv apb off blk : Nat) (m : Machine)
    (rv : Int) (m' : Machine) (h : slot_body fuel env rsv apb off blk m = some (rv, m')) :
    ∃ e t, m'.trace = m.trace ++ e :: t ∧
      (e = Event.dbg_added_primary blk m.dindir_blk (off % apb % U32) ∨
        e = Event.msg_reading_primary blk ∨
        ∃ f, e = Event.msg_bad_primary f blk m.dindir_blk (off % apb % U32)) ∧
      ∀ x ∈ e :: t, x.isSlotOf blk (off % apb % U32) = true := by
  obtain ⟨s, hs, cs, -⟩ := slot_body_segment fuel env rsv apb off blk m rv m' h
  obtain ⟨rv0, d0, m0, hr, hcase⟩ := slot_body_inv fuel env rsv apb off blk m rv m' h
  have h0 : ∃ e t0, m0.trace = m.trace ++ e :: t0 ∧
      (e = Event.dbg_added_primary blk m.dindir_blk (off % apb % U32) ∨
        e = Event.msg_reading_primary blk ∨
        ∃ f, e = Event.msg_bad_primary f blk m.dindir_blk (off % apb % U32)) := by
    simp only [resolve_primary] at hr
    split_ifs at hr with h1 h2 h3
    all_goals simp only [Prod.mk.injEq] at hr
    all_goals obtain ⟨-, -, rfl⟩ := hr
    · exact ⟨_, [], rfl, Or.inl rfl⟩
    · exact ⟨_, [Event.read_blk blk Buf.gdt_buf
        (env.read_blk (m.trace ++ [Event.msg_reading_primary blk]) blk)],
        by simp [Machine.log], Or.inr (Or.inl rfl)⟩
    · exact ⟨_, [Event.read_blk blk Buf.gdt_buf
        (env.read_blk (m.trace ++ [Event.msg_reading_primary blk]) blk)],
        by simp [Machine.log], Or.inr (Or.inl rfl)⟩
    · exact ⟨_, [], rfl, Or.inr (Or.inr ⟨_, rfl⟩)⟩
  obtain ⟨e, t0, ht0, hform⟩ := h0
  have hext : ∃ t1, m'.trace = m0.trace ++ t1 := by
    rcases hcase with ⟨-, -, rfl⟩ | ⟨rfl, rv1, d1, m1, hb, hcase⟩
    · exact ⟨[], by simp⟩
    obtain ⟨s1, F1, -⟩ := backup_loop_Frame env blk rsv fuel 1 5 7 0 d0 m0 rv1 d1 m1 hb
    rcases hcase with ⟨-, -, rfl⟩ | ⟨rfl, hf⟩
    · exact ⟨s1, F1.trace_eq⟩
    obtain ⟨s2, F2, -⟩ := flush_primary_Frame env rsv (off % apb % U32) blk d1 m1 rv m' hf
    exact ⟨s1 ++ s2, by rw [F2.trace_eq, F1.trace_eq, List.append_assoc]⟩
  obtain ⟨t1, ht1⟩ := hext
  have hs' : s = e :: (t0 ++ t1) := by
    have : m.trace ++ s = m.trace ++ (e :: (t0 ++ t1)) := by
      rw [← hs, ht1, ht0]; simp
    exact List.append_cancel_left this
  refine ⟨e, t0 ++ t1, by rw [hs, hs'], hform, ?_⟩
  rw [← hs']; exact cs

/-- The log of the slot loop, iteration by iteration: the logs `segs` of the
iterations 0, 1, ... that were executed, in this order; all `n` of them when
the loop returns 0; iteration `j` logs first the primary block and index it
resolves, which are the running variables `gdt_blk_at j` and `gdt_off_at j`
reduced, and only events of this slot. -/
theorem slot_loop_iterations (fuel : Nat) (env : Env) (rsv apb : Nat) :
    ∀ (n off blk : Nat) (m : Machine) (rv : Int) (m' : Machine),
      slot_loop fuel env rsv apb n off blk m = some (rv, m') →
      ∃ segs : List (List Event), m'.trace = m.trace ++ segs.flatten ∧ segs.length ≤ n ∧
        (rv = 0 → segs.length = n) ∧
        ∀ j s, segs[j]? = some s → ∃ e t, s = e :: t ∧
          (e = Event.dbg_added_primary (gdt_blk_at blk j) m.dindir_blk
              (gdt_off_at apb off j % apb % U32) ∨
            e = Event.msg_reading_primary (gdt_blk_at blk j) ∨
            ∃ f, e = Event.msg_bad_primary f (gdt_blk_at blk j) m.dindir_blk
              (gdt_off_at apb off j % apb % U32)) ∧
          ∀ x ∈ s, x.isSlotOf (gdt_blk_at blk j) (gdt_off_at apb off j % apb % U32) = true := by
  intro n
  induction n with
  | zero =>
    intro off blk m rv m' h
    simp only [slot_loop, Option.some.injEq, Prod.mk.injEq] at h
    obtain ⟨-, rfl⟩ := h
    exact ⟨[], by simp, by simp, fun _ => rfl, by intro j s hj; simp at hj⟩
  | succ n ih =>
    intro off blk m rv m' h
    simp only [slot_loop] at h
    cases hb : slot_body fuel env rsv apb off blk m with
    | none => rw [hb] at h; simp at h
    | some b =>
      rcases b with ⟨rv1, m1⟩
      rw [hb] at h
      simp only at h
      obtain ⟨e, t, t1, f1, c1⟩ := slot_body_first_event fuel env rsv apb off blk m rv1 m1 hb
      obtain ⟨s1, F1, -⟩ := slot_body_Frame fuel env rsv apb off blk m rv1 m1 hb
      split_ifs at h with hrv
      · simp only [Option.some.injEq, Prod.mk.injEq] at h
        obtain ⟨rfl, rfl⟩ := h
        refine ⟨[e :: t], by simpa using t1, by simp, fun h0 => absurd h0 hrv, ?_⟩
        intro j s hj
        cases j with
        | zero =>
          simp only [List.getElem?_cons_zero, Option.some.injEq] at hj
          subst hj
          exact ⟨e, t, rfl, f1, c1⟩
        | succ j => simp at hj
      · obtain ⟨segs, t2, l2, z2, g2⟩ := ih _ _ _ _ _ h
        refine ⟨(e :: t) :: segs, ?_, by simp; omega, ?_, ?_⟩
        · rw [t2, t1]; simp
        · intro h0; simp only [List.length_cons]; rw [z2 h0]
        · intro j s hj
          cases j with
          | zero =>
            simp only [List.getElem?_cons_zero, Option.some.injEq] at hj
            subst hj
            exact ⟨e, t, rfl, f1, c1⟩
          | succ j =>
            simp only [List.getElem?_cons_succ] at hj
            obtain ⟨e', t', q1, q2, q3⟩ := g2 j s hj
            rw [gdt_off_at_succ, gdt_blk_at_succ, ← F1.dindir_blk_eq]
            exact ⟨e', t', q1, q2, q3⟩

/-- From every state, once `i` iterations returned 0, the loop of `N` slots
runs the body of a slot with the index and address of slot `i` in closed
form. -/
theorem slot_loop_iteration (fuel : Nat) (env : Env) (fs : ext2_filsys)
    (hlog : fs.super.s_log_block_size ≤ 20) :
    (∀ (m : Machine) (i : Nat) (mj : Machine), i < fs.super.s_reserved_gdt_blocks →
      slot_loop fuel env (fs.blocksize / 512) (EXT2_ADDR_PER_BLOCK fs.super) i
        (fs.desc_blocks % U32)
        ((fs.super.s_first_data_block + 1 + fs.desc_blocks % U32) % U32) m = some (0, mj) →
      slot_loop fuel env (fs.blocksize / 512) (EXT2_ADDR_PER_BLOCK fs.super)
          fs.super.s_reserved_gdt_blocks (fs.desc_blocks % U32)
          ((fs.super.s_first_data_block + 1 + fs.desc_blocks % U32) % U32) m =
        match slot_body fuel env (fs.blocksize / 512) (EXT2_ADDR_PER_BLOCK fs.super)
            ((fs.desc_blocks + i) % EXT2_ADDR_PER_BLOCK fs.super)
            ((fs.super.s_first_data_block + 1 + fs.desc_blocks + i) % U32) mj with
        | none => none
        | some (retval, m') =>
          if retval ≠ 0 then some (retval, m')
          else slot_loop fuel env (fs.blocksize / 512) (EXT2_ADDR_PER_BLOCK fs.super)
            (fs.super.s_reserved_gdt_blocks - (i + 1))
            (gdt_off_at (EXT2_ADDR_PER_BLOCK fs.super) (fs.desc_blocks % U32) (i + 1))
            (gdt_blk_at ((fs.super.s_first_data_block + 1 + fs.desc_blocks % U32) % U32)
              (i + 1)) m') := by
  intro m i mj hi hfirst
  obtain ⟨n, hn⟩ : ∃ n, fs.super.s_reserved_gdt_blocks = i + (n + 1) :=
    ⟨fs.super.s_reserved_gdt_blocks - (i + 1), by omega⟩
  have hsub : fs.super.s_reserved_gdt_blocks - (i + 1) = n := by omega
  rw [hsub, hn, slot_loop_split fuel env _ _ i (n + 1) _ _ m mj hfirst]
  have hidx : gdt_off_at (EXT2_ADDR_PER_BLOCK fs.super) (fs.desc_blocks % U32) i %
        EXT2_ADDR_PER_BLOCK fs.super % U32 =
      (fs.desc_blocks + i) % EXT2_ADDR_PER_BLOCK fs.super % EXT2_ADDR_PER_BLOCK fs.super %
        U32 := by
    rw [gdt_off_at_slot fs i hlog, Nat.mod_mod]
    exact (Nat.mod_eq_of_lt (Nat.lt_trans (Nat.mod_lt _ (apb_pos fs.super))
      (apb_lt fs.super hlog))).symm
  have hbody := slot_body_index fuel env (fs.blocksize / 512) (EXT2_ADDR_PER_BLOCK fs.super)
    (gdt_off_at (EXT2_ADDR_PER_BLOCK fs.super) (fs.desc_blocks % U32) i)
    ((fs.desc_blocks + i) % EXT2_ADDR_PER_BLOCK fs.super)
    (gdt_blk_at ((fs.super.s_first_data_block + 1 + fs.desc_blocks % U32) % U32) i) mj hidx
  have hblk : gdt_blk_at ((fs.super.s_first_data_block + 1 + fs.desc_blocks % U32) % U32) i =
      (fs.super.s_first_data_block + 1 + fs.desc_blocks + i) % U32 := gdt_blk_at_slot fs i
  rw [← hblk, ← hbody]
  rfl

/-- The log of a run, iteration by iteration of the slot loop. -/
theorem run_iterations (fuel : Nat) (env : Env) (fs : ext2_filsys)
    (blocks : Nat → Nat → Nat) (ino : ext2_inode) (r : Int × Machine)
    (hrun : ext2fs_create_resize_inode fuel env (initMachine fs blocks ino) = some r)
    (hlog : fs.super.s_log_block_size ≤ 20) :
    (∃ (pre : List Event) (segs : List (List Event)) (post : List Event),
      r.2.trace = pre ++ segs.flatten ++ post ∧
      (∀ e ∈ pre, ∀ b o, e.isSlotOf b o = false) ∧
      (∀ e ∈ post, ∀ b o, e.isSlotOf b o = false) ∧
      segs.length ≤ fs.super.s_reserved_gdt_blocks ∧
      (r.1 = 0 → segs.length = fs.super.s_reserved_gdt_blocks) ∧
      ∀ i s, segs[i]? = some s → ∃ e t, s = e :: t ∧
        (e = Event.dbg_added_primary
              ((fs.super.s_first_data_block + 1 + fs.desc_blocks + i) % U32) r.2.dindir_blk
              ((fs.desc_blocks + i) % EXT2_ADDR_PER_BLOCK fs.super) ∨
          e = Event.msg_reading_primary
              ((fs.super.s_first_data_block + 1 + fs.desc_blocks + i) % U32) ∨
          ∃ f, e = Event.msg_bad_primary f
              ((fs.super.s_first_data_block + 1 + fs.desc_blocks + i) % U32) r.2.dindir_blk
              ((fs.desc_blocks + i) % EXT2_ADDR_PER_BLOCK fs.super)) ∧
        ∀ x ∈ s, x.isSlotOf ((fs.super.s_first_data_block + 1 + fs.desc_blocks + i) % U32)
          ((fs.desc_blocks + i) % EXT2_ADDR_PER_BLOCK fs.super) = true) := by
  have hnot : ∀ e : Event, ((∃ x, e = Event.get_mem x) ∨ (∃ x, e = Event.read_inode x) ∨
      e.isInit = true ∨ e.isOut = true) → ∀ b o, e.isSlotOf b o = false := by
    intro e he b o
    rcases he with ⟨x, rfl⟩ | ⟨x, rfl⟩ | he | he
    · rfl
    · rfl
    · cases hs : e.isSlotOf b o with
      | false => rfl
      | true =>
        have := (isSlotOf_not_init b o e hs)
        cases e <;> simp_all [Event.isInit, Event.isSlotOf]
    · cases hs : e.isSlotOf b o with
      | false => rfl
      | true =>
        have := (isSlotOf_not_init b o e hs).2.2.2.1
        rw [he] at this; exact absurd this (by simp)
  rcases run_exits fuel env fs blocks ino r hrun with
    ⟨-, -, -, -, -, hc⟩ | ⟨-, hN, mi, rv, ml, h5, h6, rfl⟩
  · have early : ∀ tr : List Event, r.2.trace = tr →
        (∀ e ∈ tr, ∀ b o, e.isSlotOf b o = false) →
        (r.1 = 0 → fs.super.s_reserved_gdt_blocks = 0) →
        ∃ (pre : List Event) (segs : List (List Event)) (post : List Event),
          r.2.trace = pre ++ segs.flatten ++ post ∧
          (∀ e ∈ pre, ∀ b o, e.isSlotOf b o = false) ∧
          (∀ e ∈ post, ∀ b o, e.isSlotOf b o = false) ∧
          segs.length ≤ fs.super.s_reserved_gdt_blocks ∧
          (r.1 = 0 → segs.length = fs.super.s_reserved_gdt_blocks) ∧
          ∀ i s, segs[i]? = some s → ∃ e t, s = e :: t ∧
            (e = Event.dbg_added_primary
                  ((fs.super.s_first_data_block + 1 + fs.desc_blocks + i) % U32)
                  r.2.dindir_blk ((fs.desc_blocks + i) % EXT2_ADDR_PER_BLOCK fs.super) ∨
              e = Event.msg_reading_primary
                  ((fs.super.s_first_data_block + 1 + fs.desc_blocks + i) % U32) ∨
              ∃ f, e = Event.msg_bad_primary f
                  ((fs.super.s_first_data_block + 1 + fs.desc_blocks + i) % U32)
                  r.2.dindir_blk ((fs.desc_blocks + i) % EXT2_ADDR_PER_BLOCK fs.super)) ∧
            ∀ x ∈ s, x.isSlotOf
              ((fs.super.s_first_data_block + 1 + fs.desc_blocks + i) % U32)
              ((fs.desc_blocks + i) % EXT2_ADDR_PER_BLOCK fs.super) = true := by
      intro tr htr hcl hz
      refine ⟨tr, [], [], by rw [htr]; simp, hcl, by simp, Nat.zero_le _, ?_, ?_⟩
      · intro h0; rw [hz h0]; rfl
      · intro i s hs; simp at hs
    rcases hc with ⟨-, h1, ht⟩ | ⟨-, h0, -, ht⟩ | ⟨-, -, hc⟩
    · exact early _ ht (by simp) (fun h0 => by rw [h1] at h0; exact absurd h0 magic_ne_zero)
    · exact early _ ht (by simp) (fun _ => h0)
    · rcases hc with ⟨hne, ht⟩ | ⟨hne, ht⟩ | ⟨hne, -, -, ht⟩ | ⟨hne, -, -, b, ht⟩
      all_goals refine early _ ht ?_ (fun h0 => absurd h0 hne)
      all_goals simp [Event.isSlotOf]
  · obtain ⟨segs, t2, l2, z2, g2⟩ := slot_loop_iterations fuel env _ _ _ _ _ mi rv ml h6
    obtain ⟨suf, F, -⟩ := slot_loop_Frame fuel env _ _ _ _ _ mi rv ml h6
    obtain ⟨osuf, o1, o2, -⟩ := out_dindir_trace env rv ml
    obtain ⟨-, od, -⟩ := out_dindir_frame env rv ml
    refine ⟨mi.trace, segs, osuf, by rw [o1, t2], ?_, ?_, l2, ?_, ?_⟩
    · intro e he
      rcases init_trace env fs blocks ino mi h5 with ⟨-, ht⟩ | ⟨-, blk, t, ht⟩
      all_goals rw [ht] at he
      all_goals simp only [List.mem_cons, List.mem_singleton, List.not_mem_nil, or_false] at he
      · rcases he with rfl | rfl | rfl | rfl <;> intro b o <;> rfl
      · rcases he with rfl | rfl | rfl | rfl | rfl <;> intro b o <;> rfl
    · intro e he
      exact hnot e (Or.inr (Or.inr (Or.inr (o2 e he))))
    · intro h0
      apply z2
      by_contra hrv
      rw [out_dindir_retval_of_ne env rv ml hrv] at h0
      exact hrv h0
    · intro i s hs
      obtain ⟨e, t, q1, q2, q3⟩ := g2 i s hs
      rw [gdt_off_at_slot fs i hlog, gdt_blk_at_slot fs i] at q2 q3
      rw [od, F.dindir_blk_eq]
      exact ⟨e, t, q1, q2, q3⟩

/-! ## The enumerator in the words of the spec -/

theorem spec_fst (t f s : Nat) : (list_backups_spec t f s).1 = min t (min f s) := by
  unfold list_backups_spec; split_ifs <;> simp <;> omega

theorem okEnv_as_specified (blk now G : Nat) (h : 7 * G ≤ U32) :
    EnumAsSpecified (okEnv blk now) G := by
  intro fs t f s _
  have hU : U32 = 4294967296 := rfl
  constructor
  · show (ext2fs_list_backups fs t f s).1 = _
    unfold ext2fs_list_backups list_backups_spec
    split_ifs <;> rfl
  · intro hlt
    show ext2fs_list_backups fs t f s = _
    unfold list_backups_spec at hlt ⊢
    unfold ext2fs_list_backups
    split_ifs at hlt ⊢ with c1 c2 c3
    all_goals simp only at hlt
    all_goals rw [Nat.mod_eq_of_lt (by omega)]

theorem spec_step (c : Nat × Nat × Nat) (h : SeqInv c) :
    SeqInv (list_backups_spec c.1 c.2.1 c.2.2).2 ∧
    min c.1 (min c.2.1 c.2.2) <
      min (list_backups_spec c.1 c.2.1 c.2.2).2.1
        (min (list_backups_spec c.1 c.2.1 c.2.2).2.2.1
          (list_backups_spec c.1 c.2.1 c.2.2).2.2.2) ∧
    (∀ i, 3 ^ i < min (list_backups_spec c.1 c.2.1 c.2.2).2.1
        (min (list_backups_spec c.1 c.2.1 c.2.2).2.2.1
          (list_backups_spec c.1 c.2.1 c.2.2).2.2.2) →
      3 ^ i ≤ min c.1 (min c.2.1 c.2.2)) ∧
    (∀ i, 5 ^ (i + 1) < min (list_backups_spec c.1 c.2.1 c.2.2).2.1
        (min (list_backups_spec c.1 c.2.1 c.2.2).2.2.1
          (list_backups_spec c.1 c.2.1 c.2.2).2.2.2) →
      5 ^ (i + 1) ≤ min c.1 (min c.2.1 c.2.2)) ∧
    (∀ i, 7 ^ (i + 1) < min (list_backups_spec c.1 c.2.1 c.2.2).2.1
        (min (list_backups_spec c.1 c.2.1 c.2.2).2.2.1
          (list_backups_spec c.1 c.2.1 c.2.2).2.2.2) →
      7 ^ (i + 1) ≤ min c.1 (min c.2.1 c.2.2)) := by
  obtain ⟨t, f, s⟩ := c
  obtain ⟨⟨a, ha⟩, ⟨b, hb⟩, ⟨d, hd⟩, l3, l5, l7⟩ := h
  simp only at ha hb hd l3 l5 l7 ⊢
  have htf : t ≠ f := by
    rw [ha, hb]; exact pow_ne_pow_of_primes 3 5 Nat.prime_three Nat.prime_five (by decide) a b
  have hts : t ≠ s := by
    rw [ha, hd]; exact pow_ne_pow_of_primes 3 7 Nat.prime_three (by norm_num) (by decide) a d
  have hfs : f ≠ s := by
    rw [hb, hd]; exact pow_ne_pow_of_primes 5 7 Nat.prime_five (by norm_num) (by decide) (b + 1) d
  have ht0 : 0 < t := by rw [ha]; exact pow_pos (by decide) _
  have hf0 : 0 < f := by rw [hb]; exact pow_pos (by decide) _
  have hs0 : 0 < s := by rw [hd]; exact pow_pos (by decide) _
  have k3 : ∀ i, 3 ^ i < t * 3 → 3 ^ i ≤ t := by
    intro i hi; rw [ha] at hi ⊢; exact pow_lt_next 3 i a (by decide) (by omega)
  have k5 : ∀ i, 5 ^ (i + 1) < f * 5 → 5 ^ (i + 1) ≤ f := by
    intro i hi; rw [hb] at hi ⊢; exact pow_lt_next 5 (i + 1) (b + 1) (by decide) (by omega)
  have k7 : ∀ i, 7 ^ (i + 1) < s * 7 → 7 ^ (i + 1) ≤ s := by
    intro i hi; rw [hd] at hi ⊢; exact pow_lt_next 7 (i + 1) (d + 1) (by decide) (by omega)
  unfold list_backups_spec
  split_ifs with c1 c2 c3
  · simp only [SeqInv]
    refine ⟨⟨⟨a, ha⟩, ⟨b, hb⟩, ⟨d + 1, by rw [hd]; ring⟩, ?_, ?_, ?_⟩, by omega, ?_, ?_, ?_⟩
    · intro i hi; have := l3 i hi; omega
    · intro i hi; have := l5 i hi; omega
    · intro i hi; have := k7 i hi; omega
    · intro i hi; have := l3 i (by omega); omega
    · intro i hi; have := l5 i (by omega); omega
    · intro i hi; have := k7 i (by omega); omega
  · simp only [SeqInv]
    refine ⟨⟨⟨a, ha⟩, ⟨b + 1, by rw [hb]; ring⟩, ⟨d, hd⟩, ?_, ?_, ?_⟩, by omega, ?_, ?_, ?_⟩
    · intro i hi; have := l3 i hi; omega
    · intro i hi; have := k5 i hi; omega
    · intro i hi; have := l7 i hi; omega
    · intro i hi; have := l3 i (by omega); omega
    · intro i hi; have := k5 i (by omega); omega
    · intro i hi; have := l7 i (by omega); omega
  · simp only [SeqInv]
    refine ⟨⟨⟨a, ha⟩, ⟨b, hb⟩, ⟨d + 1, by rw [hd]; ring⟩, ?_, ?_, ?_⟩, by omega, ?_, ?_, ?_⟩
    · intro i hi; have := l3 i hi; omega
    · intro i hi; have := l5 i hi; omega
    · intro i hi; have := k7 i hi; omega
    · intro i hi; have := l3 i (by omega); omega
    · intro i hi; have := l5 i (by omega); omega
    · intro i hi; have := k7 i (by omega); omega
  · simp only [SeqInv]
    refine ⟨⟨⟨a + 1, by rw [ha]; ring⟩, ⟨b, hb⟩, ⟨d, hd⟩, ?_, ?_, ?_⟩, by omega, ?_, ?_, ?_⟩
    · intro i hi; have := k3 i hi; omega
    · intro i hi; have := l5 i hi; omega
    · intro i hi; have := l7 i hi; omega
    · intro i hi; have := k3 i (by omega); omega
    · intro i hi; have := l5 i (by omega); omega
    · intro i hi; have := l7 i (by omega); omega

theorem gen_group_min (env : Env) (fs : ext2_filsys)
    (henv : EnumAsSpecified env fs.group_desc_count) (k : Nat) :
    backup_group env fs k =
      min (countersFrom env fs k (1, 5, 7)).1
        (min (countersFrom env fs k (1, 5, 7)).2.1 (countersFrom env fs k (1, 5, 7)).2.2) := by
  simp only [backup_group, grpFrom]
  rw [(henv fs _ _ _ rfl).1, spec_fst]

theorem gen_seq_inv (env : Env) (fs : ext2_filsys)
    (henv : EnumAsSpecified env fs.group_desc_count) :
    ∀ k, (∀ i, i < k → backup_group env fs i < fs.group_desc_count) →
      SeqInv (countersFrom env fs k (1, 5, 7)) ∧
      (∀ i, i < k → backup_group env fs i < backup_group env fs (i + 1)) ∧
      (∀ x, 3 ^ x < backup_group env fs k → ∃ i, i < k ∧ backup_group env fs i = 3 ^ x) ∧
      (∀ x, 5 ^ (x + 1) < backup_group env fs k →
        ∃ i, i < k ∧ backup_group env fs i = 5 ^ (x + 1)) ∧
      (∀ x, 7 ^ (x + 1) < backup_group env fs k →
        ∃ i, i < k ∧ backup_group env fs i = 7 ^ (x + 1)) := by
  intro k
  induction k with
  | zero =>
    intro _
    have g0 : backup_group env fs 0 = 1 := by
      rw [gen_group_min env fs henv]; rfl
    refine ⟨⟨⟨0, rfl⟩, ⟨0, rfl⟩, ⟨0, rfl⟩, ?_, ?_, ?_⟩, by intro i hi; omega, ?_, ?_, ?_⟩
    · intro i hi
      have : 0 < 3 ^ i := pow_pos (by decide) _
      simp only [countersFrom] at hi; omega
    · intro i hi
      have := pow_ge_base 5 i (by decide)
      simp only [countersFrom] at hi; omega
    · intro i hi
      have := pow_ge_base 7 i (by decide)
      simp only [countersFrom] at hi; omega
    · intro x hx
      have : 0 < 3 ^ x := pow_pos (by decide) _
      omega
    · intro x hx
      have := pow_ge_base 5 x (by decide)
      omega
    · intro x hx
      have := pow_ge_base 7 x (by decide)
      omega
  | succ k ih =>
    intro hk
    obtain ⟨inv, asc, c3, c5, c7⟩ := ih (fun i hi => hk i (by omega))
    have hlt := hk k (by omega)
    have gk := gen_group_min env fs henv k
    have gk1 := gen_group_min env fs henv (k + 1)
    have hs := countersFrom_succ_last env fs k (1, 5, 7)
    have hsp : env.list_backups fs (countersFrom env fs k (1, 5, 7)).1
        (countersFrom env fs k (1, 5, 7)).2.1 (countersFrom env fs k (1, 5, 7)).2.2 =
        list_backups_spec (countersFrom env fs k (1, 5, 7)).1
          (countersFrom env fs k (1, 5, 7)).2.1 (countersFrom env fs k (1, 5, 7)).2.2 :=
      (henv fs _ _ _ rfl).2 (by rw [spec_fst, ← gk]; exact hlt)
    rw [hsp] at hs
    obtain ⟨inv', lt', s3, s5, s7⟩ := spec_step (countersFrom env fs k (1, 5, 7)) inv
    rw [← hs, ← gk, ← gk1] at lt' s3 s5 s7
    rw [← hs] at inv'
    refine ⟨inv', ?_, ?_, ?_, ?_⟩
    · intro i hi
      rcases Nat.lt_succ_iff_lt_or_eq.1 hi with h | h
      · exact asc i h
      · rw [h]; exact lt'
    · intro x hx
      rcases Nat.lt_or_ge (3 ^ x) (backup_group env fs k) with h | h
      · obtain ⟨i, hi, e⟩ := c3 x h
        exact ⟨i, by omega, e⟩
      · exact ⟨k, by omega, Nat.le_antisymm h (s3 x hx)⟩
    · intro x hx
      rcases Nat.lt_or_ge (5 ^ (x + 1)) (backup_group env fs k) with h | h
      · obtain ⟨i, hi, e⟩ := c5 x h
        exact ⟨i, by omega, e⟩
      · exact ⟨k, by omega, Nat.le_antisymm h (s5 x hx)⟩
    · intro x hx
      rcases Nat.lt_or_ge (7 ^ (x + 1)) (backup_group env fs k) with h | h
      · obtain ⟨i, hi, e⟩ := c7 x h
        exact ⟨i, by omega, e⟩
      · exact ⟨k, by omega, Nat.le_antisymm h (s7 x hx)⟩

theorem gen_seq_summary (env : Env) (fs : ext2_filsys)
    (henv : EnumAsSpecified env fs.group_desc_count) :
    ∃ n, (∀ i, i < n → backup_group env fs i < fs.group_desc_count) ∧
      ¬ backup_group env fs n < fs.group_desc_count ∧
      (∀ i j, i < j → j ≤ n → backup_group env fs i < backup_group env fs j) ∧
      (∀ k, k ≤ n → isBackupGroup (backup_group env fs k) = true) ∧
      (∀ g, isBackupGroup g = true → g < fs.group_desc_count →
        ∃ i, i < n ∧ backup_group env fs i = g) := by
  have hstop : ∃ N, ¬ backup_group env fs N < fs.group_desc_count := by
    by_contra hall
    push_neg at hall
    have hgrow : ∀ k, k + 1 ≤ backup_group env fs k := by
      intro k
      induction k with
      | zero =>
        have : backup_group env fs 0 = 1 := by rw [gen_group_min env fs henv]; rfl
        omega
      | succ k ih =>
        have := (gen_seq_inv env fs henv (k + 1) (fun i _ => hall i)).2.1 k (by omega)
        omega
    have h1 := hall fs.group_desc_count
    have h2 := hgrow fs.group_desc_count
    omega
  obtain ⟨N, hN⟩ := hstop
  obtain ⟨n, -, hlt, hge⟩ :=
    first_fail (fun k => backup_group env fs k < fs.group_desc_count) N hN
  obtain ⟨inv, asc, c3, c5, c7⟩ := gen_seq_inv env fs henv n hlt
  have mono : ∀ j, j ≤ n → ∀ i, i < j → backup_group env fs i < backup_group env fs j := by
    intro j
    induction j with
    | zero => intro _ i hi; omega
    | succ j ih =>
      intro hj i hi
      have h1 := asc j (by omega)
      rcases Nat.lt_succ_iff_lt_or_eq.1 hi with h | h
      · exact Nat.lt_trans (ih (by omega) i h) h1
      · rw [h]; exact h1
  refine ⟨n, hlt, hge, fun i j hij hj => mono j hj i hij, ?_, ?_⟩
  · intro k hk
    obtain ⟨⟨a, ha⟩, ⟨b, hb⟩, ⟨d, hd⟩, -⟩ :=
      (gen_seq_inv env fs henv k (fun i hi => hlt i (by omega))).1
    rw [isBackupGroup_iff, gen_group_min env fs henv k]
    rcases Nat.le_total (countersFrom env fs k (1, 5, 7)).2.1
        (countersFrom env fs k (1, 5, 7)).2.2 with h1 | h1
    · rw [Nat.min_eq_left h1]
      rcases Nat.le_total (countersFrom env fs k (1, 5, 7)).1
          (countersFrom env fs k (1, 5, 7)).2.1 with h2 | h2
      · rw [Nat.min_eq_left h2]; exact Or.inl ⟨a, ha⟩
      · rw [Nat.min_eq_right h2]; exact Or.inr (Or.inl ⟨b, hb⟩)
    · rw [Nat.min_eq_right h1]
      rcases Nat.le_total (countersFrom env fs k (1, 5, 7)).1
          (countersFrom env fs k (1, 5, 7)).2.2 with h2 | h2
      · rw [Nat.min_eq_left h2]; exact Or.inl ⟨a, ha⟩
      · rw [Nat.min_eq_right h2]; exact Or.inr (Or.inr ⟨d, hd⟩)
  · intro g hcan hlt'
    have hgn : g < backup_group env fs n := by omega
    rcases (isBackupGroup_iff g).1 hcan with ⟨x, rfl⟩ | ⟨x, rfl⟩ | ⟨x, rfl⟩
    · exact c3 x hgn
    · exact c5 x hgn
    · exact c7 x hgn

/-- The groups a slot visits, as a list: the canonical list; the call after
them returns a group that is not below the group count. -/
theorem visited_canonical (env : Env) (fs : ext2_filsys)
    (henv : EnumAsSpecified env fs.group_desc_count) :
    (List.range (canonical_groups fs.group_desc_count).length).map (backup_group env fs) =
      canonical_groups fs.group_desc_count ∧
    (∀ i, i < (canonical_groups fs.group_desc_count).length →
      backup_group env fs i < fs.group_desc_count) ∧
    ¬ backup_group env fs (canonical_groups fs.group_desc_count).length <
      fs.group_desc_count := by
  obtain ⟨n, hlt, hge, mono, sound, compl⟩ := gen_seq_summary env fs henv
  have heq := visited_eq_canonical env fs n hlt mono sound compl
  have hlen : (canonical_groups fs.group_desc_count).length = n := by
    rw [← heq]; simp
  rw [hlen]
  exact ⟨heq, hlt, hge⟩

/-- The `while` loop of a slot is the Backup Replicator over the list of the
groups the enumerator returns before the first one that is not below the
group count. -/
theorem backup_loop_replicate (env : Env) (blk rsv : Nat) :
    ∀ (k fuel t f s last : Nat) (d : Bool) (m : Machine), k < fuel →
      (∀ i, i < k → grpFrom env m.fs (t, f, s) i < m.fs.group_desc_count) →
      ¬ grpFrom env m.fs (t, f, s) k < m.fs.group_desc_count →
      backup_loop env blk rsv fuel t f s last d m =
        some (replicate_backups blk rsv ((List.range k).map (grpFrom env m.fs (t, f, s)))
          last d m) := by
  intro k
  induction k with
  | zero =>
    intro fuel t f s last d m hf _ h2
    obtain ⟨fuel, rfl⟩ : ∃ j, fuel = j + 1 := ⟨fuel - 1, by omega⟩
    rw [grpFrom_zero] at h2
    simp only [backup_loop, List.range_zero, List.map_nil, replicate_backups]
    rw [if_neg h2]
  | succ k ih =>
    intro fuel t f s last d m hf h1 h2
    obtain ⟨fuel, rfl⟩ : ∃ j, fuel = j + 1 := ⟨fuel - 1, by omega⟩
    have h0 := h1 0 (by omega)
    rw [grpFrom_zero] at h0
    rw [grpFrom_succ] at h2
    have hl : (List.range (k + 1)).map (grpFrom env m.fs (t, f, s)) =
        (env.list_backups m.fs t f s).1 ::
          (List.range k).map (grpFrom env m.fs (env.list_backups m.fs t f s).2) := by
      rw [List.range_succ_eq_map, List.map_cons, List.map_map]
      rfl
    rw [hl]
    simp only [backup_loop, replicate_backups]
    rw [if_pos h0]
    split_ifs with c1 c2
    · exact ih fuel _ _ _ _ _ _ (by omega)
        (fun i hi => by have := h1 (i + 1) (by omega); rw [grpFrom_succ] at this; exact this)
        h2
    · rfl
    · exact ih fuel _ _ _ _ _ _ (by omega)
        (fun i hi => by have := h1 (i + 1) (by omega); rw [grpFrom_succ] at this; exact this)
        h2

/-! ## C1: the layout after a successful run -/

/-- C1 (as amended): on every successful run, if the address of the
double-indirect block is not one of the expected primary addresses (and
either there are at most addresses-per-block slots or no primary address is
0 modulo 2^32), then for every slot `i` the double-indirect block in storage
holds the expected primary address at index `(desc_blocks + i) mod apb`, and
the primary block stored there holds at entry `k`, for every `k` that has a
backup group, the primary address plus `g_k * blocks_per_group` modulo
2^32. -/
theorem success_layout (fuel : Nat) (env : Env) (fs : ext2_filsys)
    (blocks : Nat → Nat → Nat) (ino : ext2_inode) (r : Int × Machine)
    (hrun : ext2fs_create_resize_inode fuel env (initMachine fs blocks ino) = some r)
    (hok : r.1 = 0)
    (hN : fs.super.s_reserved_gdt_blocks < U32)
    (hlog : fs.super.s_log_block_size ≤ 20)
    (halias : ∀ i, i < fs.super.s_reserved_gdt_blocks →
      slot_block fs i ≠ r.2.disk_inode.i_block EXT2_DIND_BLOCK)
    (hsep : fs.super.s_reserved_gdt_blocks ≤ EXT2_ADDR_PER_BLOCK fs.super ∨
      ∀ i, i < fs.super.s_reserved_gdt_blocks → slot_block fs i ≠ 0) :
    ∀ i, i < fs.super.s_reserved_gdt_blocks →
      r.2.blocks (r.2.disk_inode.i_block EXT2_DIND_BLOCK) (slot_index fs i) = slot_block fs i ∧
      ∀ k, HasBackup env r.2.fs k →
        r.2.blocks (slot_block fs i) k =
          backup_block fs (slot_block fs i) (backup_group env r.2.fs k) := by
  intro i hi
  have hN0 : fs.super.s_reserved_gdt_blocks ≠ 0 := by omega
  obtain ⟨-, -, -, mi, ml, h3, h4, rfl⟩ := run_success_inv fuel env fs blocks ino r hrun hok hN0
  obtain ⟨-, -, -, -, -, -, -, -, -, f10, -⟩ := init_dindir_inr env _ _ _ mi h3
  obtain ⟨suf, F, -, cls, hdone⟩ := loop_summary fuel env fs mi 0 ml h4 f10 hlog
  obtain ⟨c, sd, sf, -, k2, -, -, -, -, k7⟩ := hdone hN hsep
  have hc : c = fs.super.s_reserved_gdt_blocks := k2 rfl
  obtain ⟨s1, s4, s2⟩ := success_storage env fs blocks ino mi ml suf h3 F cls hok
  rw [s1] at halias ⊢
  have s3 := s2 (Or.inr halias)
  obtain ⟨j1, j2⟩ := k7 i (by omega)
  refine ⟨by rw [s3, j1], ?_⟩
  intro k hk
  rw [(out_dindir_frame env 0 ml).1] at hk ⊢
  rw [s4 _ (halias i hi), j2 k hk]

/-- C1, witness: the scenario of the spec with the double-indirect block
allocated at block 38. -/
theorem success_layout_witness :
    ext2fs_create_resize_inode 10 (okEnv 38 1000)
        (initMachine scenarioFs (fun _ _ => 0) zeroInode) = some scenarioResult ∧
    scenarioResult.1 = 0 ∧
    ∀ i, i < scenarioFs.super.s_reserved_gdt_blocks →
      scenarioResult.2.blocks (scenarioResult.2.disk_inode.i_block EXT2_DIND_BLOCK)
          (slot_index scenarioFs i) = slot_block scenarioFs i ∧
      ∀ k, HasBackup (okEnv 38 1000) scenarioResult.2.fs k →
        scenarioResult.2.blocks (slot_block scenarioFs i) k =
          backup_block scenarioFs (slot_block scenarioFs i)
            (backup_group (okEnv 38 1000) scenarioResult.2.fs k) :=
  ⟨rfl, rfl, success_layout 10 (okEnv 38 1000) scenarioFs (fun _ _ => 0) zeroInode
    scenarioResult rfl rfl (by decide) (by decide) (by decide) (Or.inl (by decide))⟩

/-- C1, counterexample: in the scenario of the spec, with a stored inode
whose double-indirect pointer is block 3 (the expected primary address of
slot 0), the run succeeds, entry 0 of slot 0 has a backup group, and yet the
block stored at address 3 does not hold the expected backup address at
entry 0: the double-indirect block was written over it. -/
theorem success_layout_counterexample :
    ext2fs_create_resize_inode 10 (okEnv 38 1000)
        (initMachine scenarioFs (fun _ _ => 0) (inodeWith 3 0)) = some aliasResult ∧
    aliasResult.1 = 0 ∧ 0 < scenarioFs.super.s_reserved_gdt_blocks ∧
    HasBackup (okEnv 38 1000) aliasResult.2.fs 0 ∧
    aliasResult.2.blocks (slot_block scenarioFs 0) 0 ≠
      backup_block scenarioFs (slot_block scenarioFs 0)
        (backup_group (okEnv 38 1000) aliasResult.2.fs 0) := by
  refine ⟨rfl, rfl, by decide, ?_, by decide⟩
  intro j hj
  obtain rfl : j = 0 := by omega
  decide

/-! ## C2: a second run changes nothing -/

/-- C2 (as amended): let a first run return 0, let no expected address of a
primary block or of a visited backup entry be 0 modulo `2^32`, let the
double-indirect block, to which the stored inode now points, be none of the
expected primary addresses, and let memory and reads not fail in the second
run.  Then a second run on the state the first one left returns 0; its log
holds no allocator call, no block write and no inode write; both dirty flags
are unset at its end; storage, stored inode and superblock are as the first
run left them. -/
theorem idempotence (fuel : Nat) (env : Env) (fs : ext2_filsys)
    (blocks : Nat → Nat → Nat) (ino : ext2_inode) (r : Int × Machine)
    (hrun : ext2fs_create_resize_inode fuel env (initMachine fs blocks ino) = some r)
    (hok : r.1 = 0)
    (hN : fs.super.s_reserved_gdt_blocks < U32)
    (hlog : fs.super.s_log_block_size ≤ 20)
    (hptr : fs.super.s_reserved_gdt_blocks ≠ 0 → r.2.disk_inode.i_block EXT2_DIND_BLOCK ≠ 0)
    (halias : ∀ i, i < fs.super.s_reserved_gdt_blocks →
      slot_block fs i ≠ r.2.disk_inode.i_block EXT2_DIND_BLOCK)
    (hnz : ∀ i, i < fs.super.s_reserved_gdt_blocks → slot_block fs i ≠ 0)
    (hbnz : ∀ i k, i < fs.super.s_reserved_gdt_blocks → HasBackup env r.2.fs k →
      backup_block fs (slot_block fs i) (backup_group env r.2.fs k) ≠ 0)
    (env2 : Env) (hmem : env2.get_mem [] = 0) (hino : env2.read_inode [Event.get_mem 0] = 0)
    (hread : ∀ t b, env2.read_blk t b = 0)
    (henum : env2.list_backups = env.list_backups) :
    ∃ r2, ext2fs_create_resize_inode fuel env2
        (initMachine r.2.fs r.2.blocks r.2.disk_inode) = some r2 ∧
      r2.1 = 0 ∧
      (∀ e ∈ r2.2.trace, e.isAlloc = false ∧ e.isWriteBlk = false ∧ e.isWriteInode = false) ∧
      r2.2.dindir_dirty = false ∧ r2.2.inode_dirty = false ∧
      r2.2.blocks = r.2.blocks ∧ r2.2.disk_inode = r.2.disk_inode ∧ r2.2.fs = r.2.fs := by
  by_cases hN0 : fs.super.s_reserved_gdt_blocks = 0
  · rcases run_exits fuel env fs blocks ino r hrun with
      ⟨e1, e2, e3, -, -, hc⟩ | ⟨-, hne, -⟩
    · rcases hc with ⟨-, h1, -⟩ | ⟨hm, -, -, -⟩ | ⟨-, hne, -⟩
      · rw [hok] at h1; exact absurd h1.symm magic_ne_zero
      · refine ⟨_, run_no_slots fuel env2 _ (by rw [e1]; exact hm) (by rw [e1]; exact hN0),
          rfl, ?_, rfl, rfl, rfl, rfl, rfl⟩
        intro e he
        simp [initMachine] at he
      · exact absurd hN0 hne
    · exact absurd hN0 hne
  · obtain ⟨⟨g1, g2, g3, g4, g5, g6, g7⟩, ⟨k, hk, hlt, hge⟩, hlay⟩ :=
      success_state fuel env fs blocks ino r hrun hok hN0 hN hlog halias (Or.inr hnz)
    have hapb : EXT2_ADDR_PER_BLOCK r.2.fs.super = EXT2_ADDR_PER_BLOCK fs.super := by
      rw [apb_eq, apb_eq, g7]
    have hsb : ∀ j, slot_block r.2.fs j = slot_block fs j := by
      intro j; simp only [slot_block]; rw [g5, g3]
    have hsi : ∀ j, slot_index r.2.fs j = slot_index fs j := by
      intro j; simp only [slot_index]; rw [hapb, g3]
    have hbb : ∀ b g, backup_block r.2.fs b g = backup_block fs b g := by
      intro b g; simp only [backup_block]; rw [g6]
    have hinit := init_dindir_load_ok env2 (r.2.fs.blocksize / 512)
      (EXT2_ADDR_PER_BLOCK r.2.fs.super) r.2.fs r.2.blocks r.2.disk_inode (hptr hN0) hread
    obtain ⟨ml2, hl2, q1, q2, q3, q4, q5, q6, q7, q8, suf2, q9, q10⟩ :=
      slot_loop_clean fuel env2 (r.2.fs.blocksize / 512) (EXT2_ADDR_PER_BLOCK r.2.fs.super)
        k hk hread r.2.fs.super.s_reserved_gdt_blocks (r.2.fs.desc_blocks % U32)
        ((r.2.fs.super.s_first_data_block + 1 + r.2.fs.desc_blocks % U32) % U32)
        { afterReadInode r.2.fs r.2.blocks r.2.disk_inode with
          dindir_blk := r.2.disk_inode.i_block EXT2_DIND_BLOCK,
          dindir_buf := r.2.blocks (r.2.disk_inode.i_block EXT2_DIND_BLOCK),
          trace := [Event.get_mem 0, Event.read_inode 0,
            Event.msg_reading_dindir (r.2.disk_inode.i_block EXT2_DIND_BLOCK),
            Event.read_blk (r.2.disk_inode.i_block EXT2_DIND_BLOCK) Buf.dindir_buf 0] }
        (by
          intro i hi
          show backup_group env2 r.2.fs i < r.2.fs.group_desc_count
          rw [backup_group_congr_env env env2 r.2.fs henum]; exact hlt i hi)
        (by
          show ¬ backup_group env2 r.2.fs k < r.2.fs.group_desc_count
          rw [backup_group_congr_env env env2 r.2.fs henum]; exact hge)
        (by
          intro j hj
          rw [g4] at hj
          rw [gdt_off_at_slot r.2.fs j (by rw [g7]; exact hlog), gdt_blk_at_slot r.2.fs j,
            hsb, hsi]
          obtain ⟨l1, l2⟩ := hlay j hj
          refine ⟨l1, hnz j hj, ?_⟩
          intro i hi
          have hb : HasBackup env r.2.fs i := fun x hx => hlt x (by omega)
          show r.2.blocks (slot_block fs j) i =
              backup_block r.2.fs (slot_block fs j) (backup_group env2 r.2.fs i) ∧
            r.2.blocks (slot_block fs j) i ≠ 0
          rw [backup_group_congr_env env env2 r.2.fs henum, hbb, l2 i hb]
          exact ⟨rfl, hbnz j i hj hb⟩)
    have hrun2 := run_of_parts fuel env2 r.2.fs r.2.blocks r.2.disk_inode _ 0 ml2 g1
      (by rw [g4]; exact hN0) hmem hino hinit hl2
    have hd : ml2.dindir_dirty = false := by rw [q7]; rfl
    have hi : ml2.inode_dirty = false := by rw [q8]; rfl
    have hout : out_dindir env2 0 ml2 =
        (0, ml2.log (Event.msg_inode ml2.inode.i_blocks ml2.inode.i_size)) := by
      simp only [out_dindir, hd, Bool.false_eq_true, if_false]
      exact out_inode_clean env2 0 ml2 hi
    rw [hout] at hrun2
    refine ⟨_, hrun2, rfl, ?_, hd, hi, ?_, ?_, ?_⟩
    rotate_left
    · show ml2.blocks = r.2.blocks
      rw [q2]; rfl
    · show ml2.disk_inode = r.2.disk_inode
      rw [q3]; rfl
    · show ml2.fs = r.2.fs
      rw [q1]; rfl
    intro e he
    simp only [Machine.log, q9, List.mem_append, List.mem_cons, List.mem_singleton,
      List.not_mem_nil, or_false] at he
    rcases he with (he | he) | he
    · rcases he with rfl | rfl | rfl | rfl <;> exact ⟨rfl, rfl, rfl⟩
    · have := q10 e he
      cases e <;> simp_all [Event.isPrimaryRead, Event.isAlloc, Event.isWriteBlk,
        Event.isWriteInode]
    · rw [he]; exact ⟨rfl, rfl, rfl⟩

/-- C2, witness: the scenario of the spec: the second run, on the state the
first run left, returns 0 and leaves storage, stored inode and superblock as
they were. -/
theorem idempotence_witness :
    scenarioResult.1 = 0 ∧
    ∃ r2, ext2fs_create_resize_inode 10 (okEnv 38 1000)
        (initMachine scenarioResult.2.fs scenarioResult.2.blocks
          scenarioResult.2.disk_inode) = some r2 ∧
      r2.1 = 0 ∧
      (∀ e ∈ r2.2.trace, e.isAlloc = false ∧ e.isWriteBlk = false ∧ e.isWriteInode = false) ∧
      r2.2.dindir_dirty = false ∧ r2.2.inode_dirty = false ∧
      r2.2.blocks = scenarioResult.2.blocks ∧
      r2.2.disk_inode = scenarioResult.2.disk_inode ∧ r2.2.fs = scenarioResult.2.fs :=
  ⟨by decide,
    idempotence 10 (okEnv 38 1000) scenarioFs (fun _ _ => 0) zeroInode scenarioResult rfl
      (by decide) (by decide) (by decide) (fun _ => by decide) (by decide) (by decide)
      (by
        intro i k hi hk
        have hk2 : k < 2 := by
          by_contra hc
          exact absurd (hk 2 (by omega)) (by decide)
        have hi2 : i < 2 := hi
        interval_cases i <;> interval_cases k <;> decide)
      (okEnv 38 1000) rfl rfl (fun _ _ => rfl) rfl⟩

/-- C2, counterexample: in the scenario of the spec let the stored inode
point to block 3, the expected primary block of slot 0.  The first run
returns 0 (no expected address is 0).  The second run, on the state the
first one left, reads block 3 as the primary block of slot 0, sets its entry
0, finds entry 1 bad and returns -1, and it writes the inode. -/
theorem idempotence_counterexample :
    ext2fs_create_resize_inode 10 (okEnv 38 1000)
        (initMachine scenarioFs (fun _ _ => 0) (inodeWith 3 0)) = some aliasResult ∧
    aliasResult.1 = 0 ∧
    (∀ i, i < 2 → slot_block scenarioFs i ≠ 0) ∧
    ext2fs_create_resize_inode 10 (okEnv 38 1000)
        (initMachine aliasResult.2.fs aliasResult.2.blocks aliasResult.2.disk_inode) =
      some aliasSecondResult ∧
    aliasSecondResult.1 = -1 ∧
    Event.write_inode 0 ∈ aliasSecondResult.2.trace ∧
    aliasSecondResult.2.inode_dirty = true ∧
    aliasResult.2.disk_inode.i_blocks = 12 ∧
    aliasSecondResult.2.disk_inode.i_blocks = 14 :=
  ⟨rfl, by decide, by decide, rfl, by decide, by decide, by decide, by decide, by decide⟩

/-! ## C3: a mismatch is rejected and not repaired -/

/-- C3 (as amended): let the stored inode point to a double-indirect block
`d`.  If the entry of a slot `j < N` in block `d` is non-zero and differs
from the expected address, the run returns an error, and, provided `d` is
none of the expected primary addresses, the stored entry is unchanged.  If
the entry of slot `j` is the expected address and entry `k` of that primary
block, one the backup loop visits, is non-zero and differs from the expected
backup address, the run returns an error and the stored entry is
unchanged. -/
theorem mismatch_rejection (fuel : Nat) (env : Env) (fs : ext2_filsys)
    (blocks : Nat → Nat → Nat) (ino : ext2_inode) (r : Int × Machine)
    (hrun : ext2fs_create_resize_inode fuel env (initMachine fs blocks ino) = some r)
    (hlog : fs.super.s_log_block_size ≤ 20)
    (hN : fs.super.s_reserved_gdt_blocks < U32)
    (hd : ino.i_block EXT2_DIND_BLOCK ≠ 0) :
    (∀ j, j < fs.super.s_reserved_gdt_blocks →
      blocks (ino.i_block EXT2_DIND_BLOCK) (slot_index fs j) ≠ 0 →
      blocks (ino.i_block EXT2_DIND_BLOCK) (slot_index fs j) ≠ slot_block fs j →
      r.1 ≠ 0 ∧
      ((∀ i, i < fs.super.s_reserved_gdt_blocks →
          ino.i_block EXT2_DIND_BLOCK ≠ slot_block fs i) →
        r.2.blocks (ino.i_block EXT2_DIND_BLOCK) (slot_index fs j) =
          blocks (ino.i_block EXT2_DIND_BLOCK) (slot_index fs j))) ∧
    (∀ j k, j < fs.super.s_reserved_gdt_blocks →
      blocks (ino.i_block EXT2_DIND_BLOCK) (slot_index fs j) = slot_block fs j →
      slot_block fs j ≠ 0 → HasBackup env fs k →
      blocks (slot_block fs j) k ≠ 0 →
      blocks (slot_block fs j) k ≠ backup_block fs (slot_block fs j) (backup_group env fs k) →
      r.1 ≠ 0 ∧ r.2.blocks (slot_block fs j) k = blocks (slot_block fs j) k) := by
  rcases run_exits fuel env fs blocks ino r hrun with
    ⟨-, e2, -, -, -, hc⟩ | ⟨-, hN0, mi, rv, ml, h3, h4, rfl⟩
  · have hne : ∀ j, j < fs.super.s_reserved_gdt_blocks → r.1 ≠ 0 := by
      intro j hj
      rcases hc with ⟨-, h1, -⟩ | ⟨-, h0, -⟩ | ⟨-, -, hc⟩
      · rw [h1]; exact magic_ne_zero
      · omega
      · rcases hc with ⟨h, -⟩ | ⟨h, -⟩ | ⟨h, -⟩ | ⟨h, -⟩ <;> exact h
    exact ⟨fun j hj _ _ => ⟨hne j hj, fun _ => by rw [e2]⟩,
      fun j k hj _ _ _ _ _ => ⟨hne j hj, by rw [e2]⟩⟩
  · have hmi := init_dindir_load env fs blocks ino mi h3 hd
    have m1 : mi.dindir_buf = blocks (ino.i_block EXT2_DIND_BLOCK) := by rw [hmi]
    have m2 : mi.blocks = blocks := by rw [hmi]; rfl
    have m3 : mi.fs = fs := by rw [hmi]; rfl
    have m4 : mi.dindir_blk = ino.i_block EXT2_DIND_BLOCK := by rw [hmi]
    obtain ⟨suf, osuf, F, -, -, cls, -⟩ := loop_run_trace fuel env fs mi rv ml h4
    have hB : ∀ j, gdt_blk_at ((fs.super.s_first_data_block + 1 + fs.desc_blocks % U32) % U32) j =
        slot_block fs j := fun j => gdt_blk_at_slot fs j
    have hI : ∀ j, gdt_off_at (EXT2_ADDR_PER_BLOCK fs.super) (fs.desc_blocks % U32) j %
        EXT2_ADDR_PER_BLOCK fs.super % U32 = slot_index fs j :=
      fun j => gdt_off_at_slot fs j hlog
    have hbuf : ∀ x, blocks (ino.i_block EXT2_DIND_BLOCK) x ≠ 0 →
        ml.dindir_buf x = blocks (ino.i_block EXT2_DIND_BLOCK) x := by
      intro x hx
      have := F.dindir_nonzero x (by rw [m1]; exact hx)
      rw [this, m1]
    constructor
    · intro j hj h0 h1
      have hrv : rv ≠ 0 := by
        refine slot_loop_bad_slot fuel env _ _ _ _ _ mi rv ml h4 j hj ?_ ?_
        · rw [hI, m1]; exact h0
        · rw [hI, hB, m1]; exact h1
      refine ⟨by rw [out_dindir_retval_of_ne env rv ml hrv]; exact hrv, ?_⟩
      intro hna
      have hblk : ml.blocks (ino.i_block EXT2_DIND_BLOCK) =
          blocks (ino.i_block EXT2_DIND_BLOCK) := by
        rw [← m2]
        refine F.blocks_eq _ ?_
        intro e he heq
        obtain ⟨i, hi, hs⟩ := cls e he
        rw [heq, hB] at hs
        simp only [Event.isSlotOf, decide_eq_true_eq] at hs
        exact hna i hi hs
      rw [out_dindir_blocks_entry env rv ml _ _ (by rw [hblk, hbuf _ h0]), hblk]
    · intro j k hj h0 hnz hk hz hne
      obtain ⟨hrv, hblk⟩ := slot_loop_bad_entry fuel env _ _ _ _ _ mi rv ml h4
        (by
          intro a b hab hb
          rw [hB, hB]
          exact slot_block_inj fs a b _ (Nat.le_of_lt hN) hab hb)
        j k hj (by rw [hI, hB, m1]; exact h0) (by rw [hB]; exact hnz)
        (by rw [m3]; exact hk) (by rw [hB, m2]; exact hz)
        (by rw [hB, m2, m3]; exact hne)
      rw [hB, m2] at hblk
      refine ⟨by rw [out_dindir_retval_of_ne env rv ml hrv]; exact hrv, ?_⟩
      by_cases ha : slot_block fs j = ino.i_block EXT2_DIND_BLOCK
      · have hz' : blocks (ino.i_block EXT2_DIND_BLOCK) k ≠ 0 := by rw [← ha]; exact hz
        rw [out_dindir_blocks_entry env rv ml _ _
          (by rw [hblk, ha, hbuf _ hz']), hblk]
      · rw [out_dindir_blocks_other env rv ml _ (by rw [F.dindir_blk_eq, m4]; exact ha), hblk]

/-- C3, witness: the scenario of the spec with the wrong value 99 in entry 1
of the primary block 3: the run returns an error and the stored entry is
still 99. -/
theorem mismatch_rejection_witness :
    badBackupBlocks 38 (slot_index scenarioFs 0) = slot_block scenarioFs 0 ∧
    badBackupBlocks (slot_block scenarioFs 0) 1 = 99 ∧
    backup_block scenarioFs (slot_block scenarioFs 0)
      (backup_group (okEnv 38 1000) scenarioFs 1) = 24579 ∧
    badBackupResult.1 ≠ 0 ∧ badBackupResult.2.blocks (slot_block scenarioFs 0) 1 = 99 :=
  ⟨by decide, by decide, by decide,
    ((mismatch_rejection 10 (okEnv 38 1000) scenarioFs badBackupBlocks (inodeWith 38 4)
      badBackupResult rfl (by decide) (by decide) (by decide)).2 0 1 (by decide) (by decide)
      (by decide) (fun j hj => by interval_cases j <;> decide) (by decide) (by decide)).1,
    by decide⟩

/-- C3, counterexample: in the scenario of the spec let block 3 be both the
double-indirect block and the expected primary block of slot 0, with the
wrong value 77 at the index 2 of slot 1.  The run writes the new primary block
of slot 0 over block 3, examines slot 1, finds it bad and returns -1; the
write of the double-indirect block then fails, and the stored entry, 77
before the call, is 0 after it. -/
theorem mismatch_rejection_counterexample :
    ext2fs_create_resize_inode 10 secondWriteFailEnv
        (initMachine scenarioFs aliasBadBlocks (inodeWith 3 2)) = some aliasBadResult ∧
    slot_index scenarioFs 1 = 2 ∧ slot_block scenarioFs 1 = 4 ∧
    aliasBadBlocks 3 (slot_index scenarioFs 1) = 77 ∧
    Event.msg_bad_primary 77 4 3 2 ∈ aliasBadResult.2.trace ∧
    aliasBadResult.1 = -1 ∧
    aliasBadResult.2.blocks 3 (slot_index scenarioFs 1) = 0 :=
  ⟨rfl, by decide, by decide, by decide, by decide, by decide, by decide⟩

/-! ## C4: what is flushed when a later slot is bad -/

/-- C4 (as amended): let every block write and inode write succeed, and let
the log record a structure mismatch in slot `k`.  The run returns an error.
If the double-indirect block is none of the expected primary addresses (and
the slots do not collide), then for every slot `j < k` the stored
double-indirect block, to which the stored inode points, holds the expected
address at the index of the slot, the stored primary block at that address
holds the expected backup address in every entry the backup loop visits, and
the stored inode has the block-count of the run. -/
theorem partial_flush (fuel : Nat) (env : Env) (fs : ext2_filsys)
    (blocks : Nat → Nat → Nat) (ino : ext2_inode) (r : Int × Machine)
    (hrun : ext2fs_create_resize_inode fuel env (initMachine fs blocks ino) = some r)
    (hwb : ∀ t b, env.write_blk t b = 0) (hwi : ∀ t, env.write_inode t = 0)
    (hN : fs.super.s_reserved_gdt_blocks < U32)
    (hlog : fs.super.s_log_block_size ≤ 20)
    (halias : ∀ i, i < fs.super.s_reserved_gdt_blocks → slot_block fs i ≠ r.2.dindir_blk)
    (hsep : fs.super.s_reserved_gdt_blocks ≤ EXT2_ADDR_PER_BLOCK fs.super ∨
      ∀ i, i < fs.super.s_reserved_gdt_blocks → slot_block fs i ≠ 0)
    (k : Nat) (hk : k < fs.super.s_reserved_gdt_blocks)
    (hbad : (∃ f d o, Event.msg_bad_primary f (slot_block fs k) d o ∈ r.2.trace) ∨
      (∃ f x last, Event.msg_bad_backup f x (slot_block fs k) last ∈ r.2.trace)) :
    r.1 ≠ 0 ∧
    r.2.disk_inode.i_block EXT2_DIND_BLOCK = r.2.dindir_blk ∧
    r.2.disk_inode.i_blocks = r.2.inode.i_blocks ∧
    ∀ j, j < k →
      r.2.blocks r.2.dindir_blk (slot_index fs j) = slot_block fs j ∧
      ∀ x, HasBackup env r.2.fs x →
        r.2.blocks (slot_block fs j) x =
          backup_block fs (slot_block fs j) (backup_group env r.2.fs x) := by
  obtain ⟨e, he, herr, hout, hslot, hform⟩ : ∃ e, e ∈ r.2.trace ∧ e.err = -1 ∧
      e.isOut = false ∧ (∀ b i, e.isSlotOf b i = true → b = slot_block fs k) ∧
      ((∃ f d o, e = Event.msg_bad_primary f (slot_block fs k) d o) ∨
        (∃ f x last, e = Event.msg_bad_backup f x (slot_block fs k) last)) := by
    rcases hbad with ⟨f, d, o, h⟩ | ⟨f, x, last, h⟩
    · refine ⟨_, h, rfl, rfl, ?_, Or.inl ⟨_, _, _, rfl⟩⟩
      intro b i hs
      simp only [Event.isSlotOf, decide_eq_true_eq] at hs
      exact hs.1.symm
    · refine ⟨_, h, rfl, rfl, ?_, Or.inr ⟨_, _, _, rfl⟩⟩
      intro b i hs
      simp only [Event.isSlotOf, decide_eq_true_eq] at hs
      exact hs.symm
  rcases run_exits fuel env fs blocks ino r hrun with
    ⟨-, -, -, -, -, hc⟩ | ⟨-, -, mi, rv, ml, h3, h4, rfl⟩
  · exfalso
    rcases hc with ⟨-, -, ht⟩ | ⟨-, -, -, ht⟩ | ⟨-, -, hc⟩
    · rw [ht] at he; simp at he
    · rw [ht] at he; simp at he
    · rcases hc with ⟨-, ht⟩ | ⟨-, ht⟩ | ⟨-, -, -, ht⟩ | ⟨-, -, -, b, ht⟩
      all_goals rw [ht] at he
      all_goals rcases hform with ⟨f, d, o, rfl⟩ | ⟨f, x, last, rfl⟩ <;> simp at he
  · obtain ⟨-, -, -, -, -, -, -, -, -, hbpg, -⟩ := init_dindir_inr env _ _ _ mi h3
    obtain ⟨suf, F, fe, cls, hsum⟩ := loop_summary fuel env fs mi rv ml h4 hbpg hlog
    obtain ⟨c, sdone, sfail, -, hc0, hc1, hsplit, hdone, hfail, hlay⟩ := hsum hN hsep
    obtain ⟨osuf, tr, ocl, -⟩ := out_dindir_trace env rv ml
    obtain ⟨o1, o2, -, -, -, -⟩ := out_dindir_frame env rv ml
    have hmem : e ∈ sfail := by
      rw [tr, F.trace_eq, hsplit] at he
      rcases List.mem_append.1 he with he | he
      · rcases List.mem_append.1 he with he | he
        · exfalso
          rcases init_trace env fs blocks ino mi h3 with ⟨-, ht⟩ | ⟨-, blk, t, ht⟩
          all_goals rw [ht] at he
          all_goals rcases hform with ⟨f, d, o, rfl⟩ | ⟨f, x, last, rfl⟩ <;> simp at he
        · rcases List.mem_append.1 he with he | he
          · have := (firstError_eq_zero_iff sdone).1 hdone e he
            rw [herr] at this; exact absurd this (by decide)
          · exact he
      · have := ocl e he
        rw [hout] at this; exact absurd this (by simp)
    have hrv : rv ≠ 0 := by
      intro hz
      have h0 : firstError suf = 0 := by rw [fe, hz]
      have := (firstError_eq_zero_iff suf).1 h0 e
        (by rw [hsplit]; exact List.mem_append_right _ hmem)
      rw [herr] at this; exact absurd this (by decide)
    have hck : c = k := by
      have hcN := hc1 hrv
      have hb := hslot _ _ (hfail e hmem)
      rcases Nat.lt_trichotomy c k with h | h | h
      · exact absurd hb (slot_block_inj fs c k _ (Nat.le_of_lt hN) h hk)
      · exact h
      · exact absurd hb.symm (slot_block_inj fs k c _ (Nat.le_of_lt hN) h hcN)
    subst hck
    have hal : ∀ i, i < fs.super.s_reserved_gdt_blocks → slot_block fs i ≠ mi.dindir_blk := by
      intro i hi
      have := halias i hi
      rw [o2, F.dindir_blk_eq] at this
      exact this
    obtain ⟨s1, s2, s3, s4⟩ := flush_storage env fs blocks ino mi ml suf rv h3 F cls hwb hwi hal
    refine ⟨by rw [out_dindir_retval_of_ne env rv ml hrv]; exact hrv,
      by rw [s1, o2, F.dindir_blk_eq], s4, ?_⟩
    intro j hj
    obtain ⟨l1, l2⟩ := hlay j hj
    refine ⟨by rw [o2, F.dindir_blk_eq, s3]; exact l1, ?_⟩
    intro x hx
    rw [o1] at hx ⊢
    rw [s2 _ (hal j (by omega))]
    exact l2 x hx

/-- C4, witness: the scenario of the spec with an existing double-indirect
block 38 and the wrong value 77 in slot 1: the run returns an error, and the
stored double-indirect block holds the address 3 of slot 0, whose stored
primary block holds the backup address 8195 in entry 0. -/
theorem partial_flush_witness :
    Event.msg_bad_primary 77 (slot_block scenarioFs 1) 38 2 ∈ badSlotResult.2.trace ∧
    badSlotResult.1 ≠ 0 ∧
    badSlotResult.2.disk_inode.i_blocks = badSlotResult.2.inode.i_blocks ∧
    badSlotResult.2.blocks 38 1 = 3 ∧ badSlotResult.2.blocks 3 0 = 8195 ∧
    ∀ j, j < 1 →
      badSlotResult.2.blocks badSlotResult.2.dindir_blk (slot_index scenarioFs j) =
        slot_block scenarioFs j ∧
      ∀ x, HasBackup (okEnv 38 1000) badSlotResult.2.fs x →
        badSlotResult.2.blocks (slot_block scenarioFs j) x =
          backup_block scenarioFs (slot_block scenarioFs j)
            (backup_group (okEnv 38 1000) badSlotResult.2.fs x) :=
  ⟨by decide,
    (partial_flush 10 (okEnv 38 1000) scenarioFs badSlotBlocks (inodeWith 38 2)
      badSlotResult rfl (fun _ _ => rfl) (fun _ => rfl) (by decide) (by decide)
      (by decide) (Or.inl (by decide)) 1 (by decide) (Or.inl ⟨77, 38, 2, by decide⟩)).1,
    (partial_flush 10 (okEnv 38 1000) scenarioFs badSlotBlocks (inodeWith 38 2)
      badSlotResult rfl (fun _ _ => rfl) (fun _ => rfl) (by decide) (by decide)
      (by decide) (Or.inl (by decide)) 1 (by decide) (Or.inl ⟨77, 38, 2, by decide⟩)).2.2.1,
    by decide, by decide,
    (partial_flush 10 (okEnv 38 1000) scenarioFs badSlotBlocks (inodeWith 38 2)
      badSlotResult rfl (fun _ _ => rfl) (fun _ => rfl) (by decide) (by decide)
      (by decide) (Or.inl (by decide)) 1 (by decide) (Or.inl ⟨77, 38, 2, by decide⟩)).2.2.2⟩

/-- C4, counterexample: in the scenario of the spec let block 3 be both the
double-indirect block and the expected primary block of slot 0, with the
wrong value 77 in slot 1, and let every write succeed.  The mismatch is
found in slot 1 and the run returns -1; the final write of the
double-indirect block goes over the primary block of slot 0 written before,
so the stored block 3 has 0 in entry 0 and not the backup address 8195. -/
theorem partial_flush_counterexample :
    ext2fs_create_resize_inode 10 (okEnv 38 1000)
        (initMachine scenarioFs aliasBadBlocks (inodeWith 3 2)) = some aliasFlushResult ∧
    Event.msg_bad_primary 77 (slot_block scenarioFs 1) 3 2 ∈ aliasFlushResult.2.trace ∧
    aliasFlushResult.1 = -1 ∧
    slot_block scenarioFs 0 = 3 ∧
    backup_group (okEnv 38 1000) scenarioFs 0 < scenarioFs.group_desc_count ∧
    backup_block scenarioFs (slot_block scenarioFs 0)
      (backup_group (okEnv 38 1000) scenarioFs 0) = 8195 ∧
    Event.write_blk 3 Buf.gdt_buf 0 ∈ aliasFlushResult.2.trace ∧
    aliasFlushResult.2.blocks (slot_block scenarioFs 0) 0 = 0 :=
  ⟨rfl, by decide, by decide, by decide, by decide, by decide, by decide, by decide⟩

/-! ## C5: a bad backup entry and the entries written before it -/

/-- C5, the code at the failing input: in the scenario of the spec, with
entry 0 of the primary block 3 zero and entry 1 wrong, the run sets entry 0
in the buffer (the log has the event, and the block-count grows by 2), finds
entry 1 bad and returns -1.  The log holds no write of block 3: the stored
block keeps 0 in entry 0, while the inode, which counts the new entry, is
written. -/
theorem bad_backup_skips_primary_write :
    ext2fs_create_resize_inode 10 (okEnv 38 1000)
        (initMachine scenarioFs badBackupBlocks (inodeWith 38 4)) = some badBackupResult ∧
    badBackupResult.1 = -1 ∧
    badBackupResult.2.trace =
      [Event.get_mem 0, Event.read_inode 0, Event.msg_reading_dindir 38,
        Event.read_blk 38 Buf.dindir_buf 0, Event.msg_reading_primary 3,
        Event.read_blk 3 Buf.gdt_buf 0, Event.dbg_added_backup 8195 1 3 0,
        Event.msg_bad_backup 99 24579 3 1, Event.msg_inode 6 0, Event.time 1000,
        Event.write_inode 0] ∧
    badBackupResult.2.gdt_buf 0 = 8195 ∧
    badBackupResult.2.blocks 3 0 = 0 ∧
    badBackupResult.2.inode_dirty = true ∧
    badBackupResult.2.disk_inode.i_blocks = 6 :=
  ⟨rfl, by decide, by decide, by decide, by decide, by decide, by decide⟩

/-! ## C6: the first error is kept -/

/-- C6: the value returned is the first non-zero error of the run in the
order of execution: the error of the handle check when the handle is not a
filesystem (nothing else is executed), and otherwise the first non-zero
error in the log (memory, inode read, allocation, block reads, the two
mismatches, block writes, inode write).  When the slot loop is reached and
ends with result `rv` on the machine `ml`, the log continues with one write
of the double-indirect block exactly when its dirty flag is set, the summary
message, and the time and one inode write exactly when the inode dirty flag
is set; if `rv` is an error the result is `rv` whatever the two writes
return; if `rv = 0` and the write of the double-indirect block fails with
`e2`, the inode write is still done and the result is `e2`. -/
theorem first_error_retention (fuel : Nat) (env : Env) (fs : ext2_filsys)
    (blocks : Nat → Nat → Nat) (ino : ext2_inode) (r : Int × Machine)
    (hrun : ext2fs_create_resize_inode fuel env (initMachine fs blocks ino) = some r) :
    (fs.magic ≠ EXT2_ET_MAGIC_EXT2FS_FILSYS →
      r.1 = EXT2_ET_MAGIC_EXT2FS_FILSYS ∧ r.2.trace = []) ∧
    (fs.magic = EXT2_ET_MAGIC_EXT2FS_FILSYS → r.1 = firstError r.2.trace) ∧
    (∀ (mi : Machine) (rv : Int) (ml : Machine),
      fs.magic = EXT2_ET_MAGIC_EXT2FS_FILSYS → fs.super.s_reserved_gdt_blocks ≠ 0 →
      env.get_mem [] = 0 → env.read_inode [Event.get_mem 0] = 0 →
      init_dindir env (fs.blocksize / 512) (EXT2_ADDR_PER_BLOCK fs.super)
        (afterReadInode fs blocks ino) = Sum.inr mi →
      slot_loop fuel env (fs.blocksize / 512) (EXT2_ADDR_PER_BLOCK fs.super)
        fs.super.s_reserved_gdt_blocks (fs.desc_blocks % U32)
        ((fs.super.s_first_data_block + 1 + fs.desc_blocks % U32) % U32) mi = some (rv, ml) →
      firstError ml.trace = rv ∧
      ∃ (wd wi : List Event) (a b : Nat),
        r.2.trace = ml.trace ++ (wd ++ [Event.msg_inode a b] ++ wi) ∧
        (ml.dindir_dirty = true → ∃ e, wd = [Event.write_blk ml.dindir_blk Buf.dindir_buf e]) ∧
        (ml.dindir_dirty = false → wd = []) ∧
        (ml.inode_dirty = true → ∃ t e, wi = [Event.time t, Event.write_inode e]) ∧
        (ml.inode_dirty = false → wi = []) ∧
        (rv ≠ 0 → r.1 = rv) ∧
        (rv = 0 → ∀ e2, e2 ≠ 0 → wd = [Event.write_blk ml.dindir_blk Buf.dindir_buf e2] →
          r.1 = e2 ∧ ∃ t e3, wi = [Event.time t, Event.write_inode e3])) := by
  have hloop : ∀ (mi : Machine) (rv : Int) (ml : Machine),
      init_dindir env (fs.blocksize / 512) (EXT2_ADDR_PER_BLOCK fs.super)
        (afterReadInode fs blocks ino) = Sum.inr mi →
      slot_loop fuel env (fs.blocksize / 512) (EXT2_ADDR_PER_BLOCK fs.super)
        fs.super.s_reserved_gdt_blocks (fs.desc_blocks % U32)
        ((fs.super.s_first_data_block + 1 + fs.desc_blocks % U32) % U32) mi = some (rv, ml) →
      firstError ml.trace = rv ∧
      (out_dindir env rv ml).1 = firstError (out_dindir env rv ml).2.trace ∧
      (ml.dindir_dirty = true → ml.inode_dirty = true) := by
    intro mi rv ml h3 h4
    obtain ⟨i1, i2⟩ := firstError_init env fs blocks ino mi h3
    obtain ⟨suf, osuf, F, fe, tr, -, -, ho, -⟩ := loop_run_trace fuel env fs mi rv ml h4
    have hml : firstError ml.trace = rv := by
      rw [F.trace_eq, firstError_append, i1]; simpa using fe
    refine ⟨hml, ?_, ?_⟩
    · rw [tr, ← F.trace_eq, firstError_append, hml]
      by_cases hz : rv = 0
      · rw [if_neg (by simpa using hz)]; exact ho hz
      · rw [if_pos hz]; exact out_dindir_retval_of_ne env rv ml hz
    · intro hd
      rcases F.dindir_dirty_iff.1 hd with h | h
      · exact F.inode_dirty_iff.2 (Or.inl (i2 h))
      · exact F.inode_dirty_iff.2 (Or.inr (by omega))
  refine ⟨?_, ?_, ?_⟩
  · intro hm
    rcases run_exits fuel env fs blocks ino r hrun with
      ⟨-, -, -, -, -, hc⟩ | ⟨hm', -⟩
    · rcases hc with ⟨-, h1, h2⟩ | ⟨hm', -⟩ | ⟨hm', -⟩
      · exact ⟨h1, h2⟩
      · exact absurd hm' hm
      · exact absurd hm' hm
    · exact absurd hm' hm
  · intro hm
    rcases run_exits fuel env fs blocks ino r hrun with
      ⟨-, -, -, -, -, hc⟩ | ⟨-, -, mi, rv, ml, h3, h4, rfl⟩
    · rcases hc with ⟨hm', -⟩ | ⟨-, -, h1, h2⟩ | ⟨-, -, hc⟩
      · exact absurd hm hm'
      · rw [h1, h2]; rfl
      · rcases hc with ⟨hne, ht⟩ | ⟨hne, ht⟩ | ⟨hne, -, -, ht⟩ | ⟨hne, -, -, b, ht⟩
        all_goals rw [ht]
        all_goals simp [firstError, Event.err, hne]
    · exact (hloop mi rv ml h3 h4).2.1
  · intro mi rv ml hm hN hg hi h3 h4
    obtain ⟨hml, hres, hdi⟩ := hloop mi rv ml h3 h4
    have hr : r = out_dindir env rv ml := by
      rcases run_inv fuel env fs blocks ino r hrun hm hN with
        ⟨c, -⟩ | ⟨-, c, -⟩ | ⟨-, -, c⟩ | ⟨-, -, mi2, rv2, ml2, c3, c4, c5⟩
      · exact absurd hg c
      · exact absurd hi c
      · rw [h3] at c; exact absurd c (by simp)
      · rw [h3] at c3
        simp only [Sum.inr.injEq] at c3
        subst c3
        rw [h4] at c4
        simp only [Option.some.injEq, Prod.mk.injEq] at c4
        obtain ⟨rfl, rfl⟩ := c4
        exact c5
    subst hr
    obtain ⟨wd, wi, a, b, o1, o2, o3, o4, o5⟩ := out_dindir_shape env rv ml
    refine ⟨hml, wd, wi, a, b, o1, o2, o3, ?_, o5, ?_, ?_⟩
    · intro h
      obtain ⟨t, e, hw, -⟩ := o4 h
      exact ⟨t, e, hw⟩
    · intro hz; exact out_dindir_retval_of_ne env rv ml hz
    · intro hz e2 he2 hwd
      have hd : ml.dindir_dirty = true := by
        by_contra hc
        have := o3 (by simpa using hc)
        rw [this] at hwd; simp at hwd
      obtain ⟨t, e3, hw, -⟩ := o4 (hdi hd)
      refine ⟨?_, t, e3, hw⟩
      rw [hres, o1, firstError_append, hml, hz, hwd]
      simp [firstError, Event.err, he2]

/-- C6, witness: the scenario of the spec when the write of the
double-indirect block fails with error 5: the inode is written all the same
and the result is 5. -/
theorem first_error_retention_witness :
    ext2fs_create_resize_inode 10 flushFailEnv
        (initMachine scenarioFs (fun _ _ => 0) zeroInode) = some flushFailResult ∧
    flushFailResult.1 = 5 ∧ flushFailResult.1 = firstError flushFailResult.2.trace ∧
    Event.write_blk 38 Buf.dindir_buf 5 ∈ flushFailResult.2.trace ∧
    Event.write_inode 0 ∈ flushFailResult.2.trace :=
  ⟨rfl, by decide,
    (first_error_retention 10 flushFailEnv scenarioFs (fun _ _ => 0) zeroInode
      flushFailResult rfl).2.1 rfl, by decide, by decide⟩

/-! ## C7: failures of the initializer -/

/-- C7: initialization failures are atomic.  When the log of the run records
a failed read of the resize inode, a failed allocation, or a failed read of
the double-indirect block, with error `e`, the function returns `e`, the log
holds no block write and no inode write, and the superblock, the stored
blocks and the stored inode are unchanged. -/
theorem init_failure_atomic (fuel : Nat) (env : Env) (fs : ext2_filsys)
    (blocks : Nat → Nat → Nat) (ino : ext2_inode) (r : Int × Machine)
    (hrun : ext2fs_create_resize_inode fuel env (initMachine fs blocks ino) = some r)
    (e : Int) (he : e ≠ 0)
    (hfail : Event.read_inode e ∈ r.2.trace ∨
      (∃ g b, Event.alloc_block g e b ∈ r.2.trace) ∨
      (∃ d, Event.read_blk d Buf.dindir_buf e ∈ r.2.trace)) :
    r.1 = e ∧ 0 < fs.super.s_reserved_gdt_blocks ∧
    (∀ ev ∈ r.2.trace, ev.isWriteBlk = false ∧ ev.isWriteInode = false) ∧
    r.2.fs = fs ∧ r.2.blocks = blocks ∧ r.2.disk_inode = ino := by
  rcases run_exits fuel env fs blocks ino r hrun with
    ⟨e1, e2, e3, -, -, hc⟩ | ⟨-, hN, mi, rv, ml, h3, h4, rfl⟩
  · rcases hc with ⟨-, -, ht⟩ | ⟨-, -, -, ht⟩ | ⟨-, hN, hc⟩
    · rw [ht] at hfail; simp at hfail
    · rw [ht] at hfail; simp at hfail
    · have hpos : 0 < fs.super.s_reserved_gdt_blocks := Nat.pos_of_ne_zero hN
      rcases hc with ⟨-, ht⟩ | ⟨-, ht⟩ | ⟨-, -, -, ht⟩ | ⟨-, -, -, b, ht⟩
      · rw [ht] at hfail; simp at hfail
      · rw [ht] at hfail ⊢
        simp only [List.mem_cons, List.mem_singleton, reduceCtorEq, List.not_mem_nil, or_false,
          false_or, Event.read_inode.injEq, exists_false] at hfail
        refine ⟨hfail.symm, hpos, ?_, e1, e2, e3⟩
        intro ev hev
        simp only [List.mem_cons, List.mem_singleton, List.not_mem_nil, or_false] at hev
        rcases hev with rfl | rfl <;> exact ⟨rfl, rfl⟩
      · rw [ht] at hfail ⊢
        simp only [List.mem_cons, List.mem_singleton, reduceCtorEq, List.not_mem_nil, or_false,
          false_or, Event.read_inode.injEq, Event.read_blk.injEq, exists_false] at hfail
        rcases hfail with hfail | hfail
        · exact absurd hfail he
        · obtain ⟨d, -, -, hd⟩ := hfail
          refine ⟨hd.symm, hpos, ?_, e1, e2, e3⟩
          intro ev hev
          simp only [List.mem_cons, List.mem_singleton, List.not_mem_nil, or_false] at hev
          rcases hev with rfl | rfl | rfl | rfl | rfl <;> exact ⟨rfl, rfl⟩
      · rw [ht] at hfail ⊢
        simp only [List.mem_cons, List.mem_singleton, reduceCtorEq, List.not_mem_nil, or_false,
          false_or, Event.read_inode.injEq, Event.alloc_block.injEq, exists_false] at hfail
        rcases hfail with hfail | hfail
        · exact absurd hfail he
        · obtain ⟨g, b', -, hd, -⟩ := hfail
          refine ⟨hd.symm, hpos, ?_, e1, e2, e3⟩
          intro ev hev
          simp only [List.mem_cons, List.mem_singleton, List.not_mem_nil, or_false] at hev
          rcases hev with rfl | rfl | rfl <;> exact ⟨rfl, rfl⟩
  · exfalso
    obtain ⟨suf, osuf, F, -, tr, cls, ocl, -⟩ := loop_run_trace fuel env fs mi rv ml h4
    have hcl := loop_event_classes fs suf osuf cls ocl
    have hmi : ∀ ev ∈ mi.trace, ev.err = 0 := by
      intro ev hev
      rcases init_trace env fs blocks ino mi h3 with ⟨-, ht⟩ | ⟨-, blk, t, ht⟩
      · rw [ht] at hev
        simp only [List.mem_cons, List.mem_singleton, List.not_mem_nil, or_false] at hev
        rcases hev with rfl | rfl | rfl | rfl <;> rfl
      · rw [ht] at hev
        simp only [List.mem_cons, List.mem_singleton, List.not_mem_nil, or_false] at hev
        rcases hev with rfl | rfl | rfl | rfl | rfl <;> rfl
    have key : ∀ ev, ev ∈ (out_dindir env rv ml).2.trace → ev.err ≠ 0 → ev ∈ suf ++ osuf := by
      intro ev hev hne
      rw [tr, List.append_assoc] at hev
      rcases List.mem_append.1 hev with h | h
      · exact absurd (hmi ev h) hne
      · exact h
    rcases hfail with h | ⟨g, b, h⟩ | ⟨d, h⟩
    · exact (hcl _ (key _ h he)).2.2.1 _ rfl
    · have := (hcl _ (key _ h he)).1
      simp [Event.isAlloc] at this
    · exact (hcl _ (key _ h he)).2.2.2.2 _ _ rfl

/-- C7, witness: the scenario of the spec with an inode read that fails with
error 5. -/
theorem init_failure_atomic_witness :
    Event.read_inode 5 ∈ readInodeFailResult.2.trace ∧
    readInodeFailResult.1 = 5 ∧ 0 < scenarioFs.super.s_reserved_gdt_blocks ∧
    (∀ ev ∈ readInodeFailResult.2.trace, ev.isWriteBlk = false ∧ ev.isWriteInode = false) ∧
    readInodeFailResult.2.fs = scenarioFs ∧ readInodeFailResult.2.blocks = (fun _ _ => 0) ∧
    readInodeFailResult.2.disk_inode = zeroInode :=
  ⟨by decide, init_failure_atomic 10 readInodeFailEnv scenarioFs (fun _ _ => 0) zeroInode
    readInodeFailResult rfl 5 (by decide) (Or.inl (by decide))⟩

/-! ## C8: the block-count -/

/-- C8 (as amended): for every run that read the resize inode, the final
block-count of the inode is, modulo 2^32, `blocksize / 512` times (1 + the
number of primary blocks newly created + the number of backup entries newly
written) when the double-indirect block was newly allocated in this run,
and the block-count the inode had in storage plus `blocksize / 512` times
(new primary blocks + new backup entries) when the double-indirect block
was already there; a successful inode write stores it.  In the scenario of
the spec, starting with no double-indirect pointer, it is
(1 + 2 + 4) * 2 = 14. -/
theorem block_count_conservation (fuel : Nat) (env : Env) (fs : ext2_filsys)
    (blocks : Nat → Nat → Nat) (ino : ext2_inode) (r : Int × Machine)
    (hrun : ext2fs_create_resize_inode fuel env (initMachine fs blocks ino) = some r)
    (hread : Event.read_inode 0 ∈ r.2.trace) :
    r.2.trace.countP Event.isNewDindir ≤ 1 ∧
    (r.2.trace.countP Event.isNewDindir = 1 →
      r.2.inode.i_blocks % U32 = (fs.blocksize / 512 * (1 +
        r.2.trace.countP Event.isNewPrimary + r.2.trace.countP Event.isNewBackup)) % U32) ∧
    (r.2.trace.countP Event.isNewDindir = 0 →
      r.2.inode.i_blocks % U32 = (ino.i_blocks + fs.blocksize / 512 *
        (r.2.trace.countP Event.isNewPrimary + r.2.trace.countP Event.isNewBackup)) % U32) ∧
    (Event.write_inode 0 ∈ r.2.trace → r.2.disk_inode.i_blocks = r.2.inode.i_blocks) ∧
    (scenarioResult.2.trace.countP Event.isNewDindir = 1 ∧
      scenarioResult.2.trace.countP Event.isNewPrimary = 2 ∧
      scenarioResult.2.trace.countP Event.isNewBackup = 4 ∧
      scenarioFs.blocksize / 512 = 2 ∧ scenarioResult.2.disk_inode.i_blocks = 14) := by
  obtain ⟨h1, h2, -⟩ := run_i_blocks fuel env fs blocks ino r hrun hread
  refine ⟨?_, ?_, ?_, fun hw => by rw [h2 hw], by decide⟩
  · rcases h1 with ⟨h, -⟩ | ⟨h, -⟩ <;> omega
  · intro hc
    rcases h1 with ⟨-, -, h⟩ | ⟨h, -⟩
    · exact h
    · omega
  · intro hc
    rcases h1 with ⟨h, -⟩ | ⟨-, h, -⟩
    · omega
    · exact h

/-- C8, witness: the scenario of the spec. -/
theorem block_count_conservation_witness :
    Event.read_inode 0 ∈ scenarioResult.2.trace ∧
    (scenarioResult.2.trace.countP Event.isNewDindir = 1 →
      scenarioResult.2.inode.i_blocks % U32 = (scenarioFs.blocksize / 512 * (1 +
        scenarioResult.2.trace.countP Event.isNewPrimary +
        scenarioResult.2.trace.countP Event.isNewBackup)) % U32) :=
  ⟨by decide, (block_count_conservation 10 (okEnv 38 1000) scenarioFs (fun _ _ => 0) zeroInode
    scenarioResult rfl (by decide)).2.1⟩

/-- C8, counterexample: a second run in the scenario of the spec, on the
state the first run left, succeeds, allocates nothing, creates no primary
block and writes no backup entry, and the final block-count of the inode is
14, not `2 * (0 + 0 + 0)`. -/
theorem block_count_conservation_counterexample :
    ext2fs_create_resize_inode 10 (okEnv 38 1000)
        (initMachine scenarioResult.2.fs scenarioResult.2.blocks scenarioResult.2.disk_inode) =
      some secondResult ∧
    secondResult.1 = 0 ∧ secondResult.2.inode.i_blocks = 14 ∧
    secondResult.2.disk_inode.i_blocks = 14 ∧
    secondResult.2.inode.i_blocks ≠ scenarioFs.blocksize / 512 *
      (secondResult.2.trace.countP Event.isNewDindir +
        secondResult.2.trace.countP Event.isNewPrimary +
        secondResult.2.trace.countP Event.isNewBackup) :=
  ⟨rfl, by decide, by decide, by decide, by decide⟩

/-! ## C9: the scenario of the spec -/

/-- C9 (as amended): in the scenario of the spec (block size 1024, two
reserved slots, first data block 1, one descriptor block) with a resize inode
that has no double-indirect pointer, after a successful run the
double-indirect block written to storage holds 3 at index 1 and 4 at index
2, and index 0 is still 0: slot `i` lives at index `desc_blocks + i`. -/
theorem scenario_dindir_slots (fuel : Nat) (env : Env) (fs : ext2_filsys)
    (blocks : Nat → Nat → Nat) (ino : ext2_inode) (r : Int × Machine)
    (hrun : ext2fs_create_resize_inode fuel env (initMachine fs blocks ino) = some r)
    (hok : r.1 = 0)
    (hlog : fs.super.s_log_block_size = 0)
    (hN : fs.super.s_reserved_gdt_blocks = 2)
    (hfdb : fs.super.s_first_data_block = 1)
    (hdesc : fs.desc_blocks = 1)
    (hnew : ino.i_block EXT2_DIND_BLOCK = 0) :
    r.2.blocks (r.2.disk_inode.i_block EXT2_DIND_BLOCK) 0 = 0 ∧
    r.2.blocks (r.2.disk_inode.i_block EXT2_DIND_BLOCK) 1 = 3 ∧
    r.2.blocks (r.2.disk_inode.i_block EXT2_DIND_BLOCK) 2 = 4 := by
  have hN0 : fs.super.s_reserved_gdt_blocks ≠ 0 := by omega
  obtain ⟨-, -, -, mi, ml, h3, h4, rfl⟩ := run_success_inv fuel env fs blocks ino r hrun hok hN0
  obtain ⟨-, -, -, -, -, -, -, -, -, f10, -, isuf, -, -, -, icase⟩ :=
    init_dindir_inr env _ _ _ mi h3
  obtain ⟨suf, F, -, cls, hdone⟩ := loop_summary fuel env fs mi 0 ml h4 f10 (by omega)
  have hapb : EXT2_ADDR_PER_BLOCK fs.super = 256 := by rw [apb_eq, hlog]; rfl
  obtain ⟨c, sd, sf, -, k2, -, -, -, -, k7⟩ :=
    hdone (by rw [hN]; decide) (Or.inl (by rw [hN, hapb]; omega))
  have hc : c = 2 := by rw [k2 rfl, hN]
  have hidx : ∀ j, slot_index fs j = (1 + j) % 256 := by
    intro j; simp only [slot_index, hapb, hdesc]
  have hblk : ∀ j, slot_block fs j = (3 + j) % U32 := by
    intro j; simp only [slot_block, hfdb, hdesc]
  obtain ⟨s1, -, s2⟩ := success_storage env fs blocks ino mi ml suf h3 F cls hok
  rcases icase with ⟨c1, -⟩ | ⟨-, d1, -, d3, -⟩
  · exact absurd hnew c1
  have hdirty : ml.dindir_dirty = true := F.dindir_dirty_iff.2 (Or.inl d1)
  rw [s1, s2 (Or.inl hdirty)]
  refine ⟨?_, ?_, ?_⟩
  · rw [F.dindir_index 0, d3]
    intro e he b d hw
    obtain ⟨j, hj, hcl⟩ := cls e he
    rw [hw, hidx] at hcl
    have := (isSlotOf_added _ _ _ _ _ hcl).2
    omega
  · have := (k7 0 (by omega)).1
    rw [hidx, hblk] at this
    exact this
  · have := (k7 1 (by omega)).1
    rw [hidx, hblk] at this
    exact this

/-- C9, witness: the scenario of the spec with the double-indirect block
allocated at block 38. -/
theorem scenario_dindir_slots_witness :
    scenarioResult.1 = 0 ∧
    scenarioResult.2.blocks (scenarioResult.2.disk_inode.i_block EXT2_DIND_BLOCK) 0 = 0 ∧
    scenarioResult.2.blocks (scenarioResult.2.disk_inode.i_block EXT2_DIND_BLOCK) 1 = 3 ∧
    scenarioResult.2.blocks (scenarioResult.2.disk_inode.i_block EXT2_DIND_BLOCK) 2 = 4 :=
  ⟨rfl, scenario_dindir_slots 10 (okEnv 38 1000) scenarioFs (fun _ _ => 0) zeroInode
    scenarioResult rfl rfl rfl rfl rfl rfl rfl⟩

/-- C9, counterexample: in the scenario of the spec the run succeeds and the
double-indirect block written to storage holds 0, not 3, at index 0 (and 3,
not 4, at index 1). -/
theorem scenario_dindir_slots_counterexample :
    ext2fs_create_resize_inode 10 (okEnv 38 1000)
        (initMachine scenarioFs (fun _ _ => 0) zeroInode) = some scenarioResult ∧
    scenarioResult.1 = 0 ∧
    ¬ (scenarioResult.2.blocks (scenarioResult.2.disk_inode.i_block EXT2_DIND_BLOCK) 0 = 3 ∧
       scenarioResult.2.blocks (scenarioResult.2.disk_inode.i_block EXT2_DIND_BLOCK) 1 = 4) :=
  ⟨rfl, rfl, by decide⟩

/-! ## C10: no reserved slots -/

/-- C10: on a filesystem handle whose superblock has no reserved GDT blocks
the function returns 0, and at return the log is empty (no inode or block
was read or written, the allocator was not called) and the superblock, the
stored blocks and the stored inode are what they were. -/
theorem no_reserved_slots_noop (fuel : Nat) (env : Env) (fs : ext2_filsys)
    (blocks : Nat → Nat → Nat) (ino : ext2_inode)
    (hmagic : fs.magic = EXT2_ET_MAGIC_EXT2FS_FILSYS)
    (h0 : fs.super.s_reserved_gdt_blocks = 0) :
    ∃ r, ext2fs_create_resize_inode fuel env (initMachine fs blocks ino) = some r ∧
      r.1 = 0 ∧ r.2.trace = [] ∧ r.2.fs = fs ∧ r.2.blocks = blocks ∧ r.2.disk_inode = ino :=
  ⟨(0, initMachine fs blocks ino), run_no_slots fuel env _ hmagic h0, rfl, rfl, rfl, rfl, rfl⟩

/-- C10, witness: the scenario of the spec with the slot count set to 0. -/
theorem no_reserved_slots_noop_witness :
    noSlotsFs.magic = EXT2_ET_MAGIC_EXT2FS_FILSYS ∧ noSlotsFs.super.s_reserved_gdt_blocks = 0 ∧
    ∃ r, ext2fs_create_resize_inode 0 (okEnv 38 1000)
        (initMachine noSlotsFs (fun _ _ => 0) zeroInode) = some r ∧
      r.1 = 0 ∧ r.2.trace = [] ∧ r.2.fs = noSlotsFs ∧ r.2.blocks = (fun _ _ => 0) ∧
      r.2.disk_inode = zeroInode :=
  ⟨rfl, rfl, no_reserved_slots_noop 0 (okEnv 38 1000) noSlotsFs (fun _ _ => 0) zeroInode
    rfl rfl⟩

/-! ## C11: the recorded size -/

/-- C11 (as amended): when the log of the run records a successful
allocation of the double-indirect block, and the block size is a power of
two from 1024 to 65536, the size recorded in the inode is
`blocksize * (apb * apb + apb + 12)`: the blocks reachable through the
double-indirect block, those reachable through the single-indirect block and
the twelve direct ones; `i_size` is its low and `i_size_high` its high 32
bits, and a successful inode write stores both. -/
theorem recorded_size (fuel : Nat) (env : Env) (fs : ext2_filsys)
    (blocks : Nat → Nat → Nat) (ino : ext2_inode) (r : Int × Machine)
    (hrun : ext2fs_create_resize_inode fuel env (initMachine fs blocks ino) = some r)
    (g b : Nat) (ha : Event.alloc_block g 0 b ∈ r.2.trace)
    (hlog : fs.super.s_log_block_size ≤ 6)
    (hbs : fs.blocksize = 1024 <<< fs.super.s_log_block_size) :
    r.2.inode.i_size + U32 * r.2.inode.i_size_high =
      fs.blocksize * (EXT2_ADDR_PER_BLOCK fs.super * EXT2_ADDR_PER_BLOCK fs.super +
        EXT2_ADDR_PER_BLOCK fs.super + 12) ∧
    r.2.inode.i_size < U32 ∧ r.2.inode.i_size_high < U32 ∧
    (Event.write_inode 0 ∈ r.2.trace →
      r.2.disk_inode.i_size = r.2.inode.i_size ∧
      r.2.disk_inode.i_size_high = r.2.inode.i_size_high) := by
  obtain ⟨hz, mi, rv, ml, h3, h4, rfl⟩ := run_allocated_inv fuel env fs blocks ino r hrun g b ha
  obtain ⟨-, a2, a3, -, -, -, blk, t, -, -, atr⟩ := init_dindir_alloc env fs blocks ino mi h3 hz
  obtain ⟨suf, osuf, F, -, -, cls, -⟩ := loop_run_trace fuel env fs mi rv ml h4
  obtain ⟨-, -, -, i4, i5, -⟩ := loop_run_inode env _ mi ml suf rv F
  obtain ⟨v1, v2, -⟩ := inode_size_value fs hlog hbs
  rw [i4, i5, a2, a3]
  have hU : U64 = U32 * U32 := by decide
  have hlt : inode_size fs / U32 < U32 := by
    rw [Nat.div_lt_iff_lt_mul U32_pos, ← hU]; exact v2
  refine ⟨?_, Nat.mod_lt _ U32_pos, Nat.mod_lt _ U32_pos, ?_⟩
  · rw [Nat.mod_eq_of_lt hlt, Nat.mod_add_div, v1]
  · intro hw
    have hmi : ∀ e, Event.write_inode e ∉ mi.trace := by
      intro e he; rw [atr] at he; simp at he
    rw [out_dindir_inode_written env rv ml (loop_no_write_inode fs mi ml suf _ F cls hmi) hw]
    exact ⟨by rw [i4, a2], by rw [i5, a3]⟩

/-- C11, witness: the scenario of the spec. -/
theorem recorded_size_witness :
    Event.alloc_block 38 0 38 ∈ scenarioResult.2.trace ∧
    scenarioResult.2.inode.i_size + U32 * scenarioResult.2.inode.i_size_high =
      scenarioFs.blocksize * (EXT2_ADDR_PER_BLOCK scenarioFs.super *
        EXT2_ADDR_PER_BLOCK scenarioFs.super + EXT2_ADDR_PER_BLOCK scenarioFs.super + 12) :=
  ⟨by decide, (recorded_size 10 (okEnv 38 1000) scenarioFs (fun _ _ => 0) zeroInode
    scenarioResult rfl 38 38 (by decide) (by decide) rfl).1⟩

/-- C11, counterexample: in the scenario of the spec (block size 1024, 256
addresses per block) the allocation succeeds and the recorded size is
67383296, which is not `1024 * (256 * 256 + 12)`. -/
theorem recorded_size_counterexample :
    ext2fs_create_resize_inode 10 (okEnv 38 1000)
        (initMachine scenarioFs (fun _ _ => 0) zeroInode) = some scenarioResult ∧
    Event.alloc_block 38 0 38 ∈ scenarioResult.2.trace ∧
    scenarioResult.2.inode.i_size + U32 * scenarioResult.2.inode.i_size_high = 67383296 ∧
    scenarioResult.2.inode.i_size + U32 * scenarioResult.2.inode.i_size_high ≠
      scenarioFs.blocksize * (EXT2_ADDR_PER_BLOCK scenarioFs.super *
        EXT2_ADDR_PER_BLOCK scenarioFs.super + 12) :=
  ⟨rfl, by decide, by decide, by decide⟩

/-! ## C12: calls of the allocator -/

/-- C12: the block allocator is called at most once per run; it is called
(exactly once) precisely when the inode read succeeded, which needs
`reserved_gdt_blocks > 0`, and the inode's double-indirect pointer is 0; the
goal of the call is `3 + reserved_gdt_blocks + desc_blocks +
inode_blocks_per_group` as a 32-bit value, and the call is the third event
of the log, before any slot is looked at: the slot loop, where the primary
blocks are created, never calls the allocator. -/
theorem allocator_calls (fuel : Nat) (env : Env) (fs : ext2_filsys)
    (blocks : Nat → Nat → Nat) (ino : ext2_inode) (r : Int × Machine)
    (hrun : ext2fs_create_resize_inode fuel env (initMachine fs blocks ino) = some r) :
    r.2.trace.countP Event.isAlloc ≤ 1 ∧
    (r.2.trace.countP Event.isAlloc = 1 ↔
      (Event.read_inode 0 ∈ r.2.trace ∧ ino.i_block EXT2_DIND_BLOCK = 0)) ∧
    (Event.read_inode 0 ∈ r.2.trace → 0 < fs.super.s_reserved_gdt_blocks) ∧
    (∀ g e b, Event.alloc_block g e b ∈ r.2.trace →
      g = alloc_goal fs ∧ r.2.trace[2]? = some (Event.alloc_block g e b)) ∧
    (3 + fs.super.s_reserved_gdt_blocks + fs.desc_blocks + fs.inode_blocks_per_group < U32 →
      alloc_goal fs =
        3 + fs.super.s_reserved_gdt_blocks + fs.desc_blocks + fs.inode_blocks_per_group) := by
  have hgoal : 3 + fs.super.s_reserved_gdt_blocks + fs.desc_blocks + fs.inode_blocks_per_group
      < U32 → alloc_goal fs =
        3 + fs.super.s_reserved_gdt_blocks + fs.desc_blocks + fs.inode_blocks_per_group :=
    fun h => Nat.mod_eq_of_lt h
  rcases run_exits fuel env fs blocks ino r hrun with
    ⟨-, -, -, -, -, hc⟩ | ⟨-, hN, mi, rv, ml, h3, h4, rfl⟩
  · rcases hc with ⟨-, -, ht⟩ | ⟨-, -, -, ht⟩ | ⟨-, hN, hc⟩
    · refine ⟨?_, ?_, ?_, ?_, hgoal⟩ <;> rw [ht] <;> simp
    · refine ⟨?_, ?_, ?_, ?_, hgoal⟩ <;> rw [ht] <;> simp
    · have hpos : 0 < fs.super.s_reserved_gdt_blocks := Nat.pos_of_ne_zero hN
      rcases hc with ⟨h0, ht⟩ | ⟨h0, ht⟩ | ⟨h0, hz, -, ht⟩ | ⟨h0, hz, -, b, ht⟩
      · refine ⟨?_, ?_, fun _ => hpos, ?_, hgoal⟩ <;> rw [ht] <;> simp [Event.isAlloc]
      · refine ⟨?_, ?_, fun _ => hpos, ?_, hgoal⟩ <;> rw [ht] <;>
          simp [Event.isAlloc]
        intro h; exact absurd h.symm h0
      · refine ⟨?_, ?_, fun _ => hpos, ?_, hgoal⟩ <;> rw [ht] <;>
          simp [Event.isAlloc, hz]
      · refine ⟨?_, ?_, fun _ => hpos, ?_, hgoal⟩ <;> rw [ht] <;>
          simp [Event.isAlloc, hz]
        intro g e b' h1 h2 h3; subst h1; subst h2; subst h3; exact ⟨rfl, rfl, rfl, rfl⟩
  · have hpos : 0 < fs.super.s_reserved_gdt_blocks := Nat.pos_of_ne_zero hN
    obtain ⟨suf, osuf, F, -, tr, cls, ocl, -⟩ := loop_run_trace fuel env fs mi rv ml h4
    have hcl := loop_event_classes fs suf osuf cls ocl
    have hz0 := countP_loop_zero suf osuf Event.isAlloc (fun e he => (hcl e he).1)
    rw [tr, List.append_assoc, List.countP_append, hz0, Nat.add_zero]
    have hmem : ∀ g e b, Event.alloc_block g e b ∈ mi.trace ++ (suf ++ osuf) →
        Event.alloc_block g e b ∈ mi.trace := by
      intro g e b h
      rcases List.mem_append.1 h with h | h
      · exact h
      · have := (hcl _ h).1; simp [Event.isAlloc] at this
    rcases init_trace env fs blocks ino mi h3 with ⟨hz, ht⟩ | ⟨hz, blk, t, ht⟩
    · refine ⟨?_, ?_, fun _ => hpos, ?_, hgoal⟩
      · rw [ht]; simp [Event.isAlloc]
      · rw [ht]; simp [Event.isAlloc, hz]
      · intro g e b h
        have := hmem g e b h
        rw [ht] at this; simp at this
    · refine ⟨?_, ?_, fun _ => hpos, ?_, hgoal⟩
      · rw [ht]; simp [Event.isAlloc]
      · rw [ht]; simp [Event.isAlloc, hz]
      · intro g e b h
        have := hmem g e b h
        rw [ht] at this
        simp only [List.mem_cons, List.mem_singleton, reduceCtorEq, List.not_mem_nil, or_false,
          false_or, Event.alloc_block.injEq] at this
        obtain ⟨rfl, rfl, rfl⟩ := this
        refine ⟨rfl, ?_⟩
        rw [List.getElem?_append_left (by rw [ht]; simp), ht]
        rfl

/-- C12, witness: the scenario of the spec, where the allocator is called
once although two primary blocks are created. -/
theorem allocator_calls_witness :
    scenarioResult.2.trace.countP Event.isAlloc = 1 ∧
    scenarioResult.2.trace.countP Event.isNewPrimary = 2 ∧
    scenarioResult.2.trace.countP Event.isAlloc ≤ 1 :=
  ⟨by decide, by decide, (allocator_calls 10 (okEnv 38 1000) scenarioFs (fun _ _ => 0) zeroInode
    scenarioResult rfl).1⟩

/-! ## C13: the order of the writes -/

/-- C13 (as amended): the log of every run is `pre ++ segs.flatten ++
(wd ++ msg ++ wi)`: the initialisation `pre` and the message `msg` hold no
write; `segs` are the logs of the slots 0, 1, ... in this order, each with at
most one block write, of its own primary block and as its last event, and no
inode write; `wd` is one write of the double-indirect block when its dirty
flag is set and empty otherwise; `wi` is the reading of the time and one
inode write, with `i_atime = i_mtime` this time, when the inode dirty flag
is set, and empty otherwise.  The addresses of the primary blocks increase
strictly with the slot when `first_data_block + 1 + desc_blocks + N` does not
exceed `2^32`. -/
theorem flush_order (fuel : Nat) (env : Env) (fs : ext2_filsys)
    (blocks : Nat → Nat → Nat) (ino : ext2_inode) (r : Int × Machine)
    (hrun : ext2fs_create_resize_inode fuel env (initMachine fs blocks ino) = some r)
    (hlog : fs.super.s_log_block_size ≤ 20) :
    ∃ (pre : List Event) (segs : List (List Event)) (wd msg wi : List Event),
      r.2.trace = pre ++ segs.flatten ++ (wd ++ msg ++ wi) ∧
      (∀ e ∈ pre, e.isWriteBlk = false ∧ e.isWriteInode = false) ∧
      (∀ e ∈ msg, e.isWriteBlk = false ∧ e.isWriteInode = false) ∧
      segs.length ≤ fs.super.s_reserved_gdt_blocks ∧
      SlotSegments (slot_block fs) (slot_index fs) 0 segs ∧
      (∀ s ∈ segs, ∀ e ∈ s, e.isWriteInode = false) ∧
      (r.2.dindir_dirty = true →
        ∃ e, wd = [Event.write_blk r.2.dindir_blk Buf.dindir_buf e]) ∧
      (r.2.dindir_dirty = false → wd = []) ∧
      (r.2.inode_dirty = true → ∃ t e, wi = [Event.time t, Event.write_inode e] ∧
        r.2.inode.i_atime = t % U32 ∧ r.2.inode.i_mtime = t % U32) ∧
      (r.2.inode_dirty = false → wi = []) ∧
      (fs.super.s_first_data_block + 1 + fs.desc_blocks + fs.super.s_reserved_gdt_blocks ≤ U32 →
        ∀ i j, i < j → j < fs.super.s_reserved_gdt_blocks →
          slot_block fs i < slot_block fs j) := by
  have hinc : fs.super.s_first_data_block + 1 + fs.desc_blocks +
      fs.super.s_reserved_gdt_blocks ≤ U32 →
      ∀ i j, i < j → j < fs.super.s_reserved_gdt_blocks →
        slot_block fs i < slot_block fs j := by
    intro hb i j hij hj
    unfold slot_block
    rw [Nat.mod_eq_of_lt (by omega), Nat.mod_eq_of_lt (by omega)]
    omega
  have early : ∀ tr : List Event, r.2.trace = tr →
      (∀ e ∈ tr, e.isWriteBlk = false ∧ e.isWriteInode = false) →
      r.2.dindir_dirty = false → r.2.inode_dirty = false →
      ∃ (pre : List Event) (segs : List (List Event)) (wd msg wi : List Event),
        r.2.trace = pre ++ segs.flatten ++ (wd ++ msg ++ wi) ∧
        (∀ e ∈ pre, e.isWriteBlk = false ∧ e.isWriteInode = false) ∧
        (∀ e ∈ msg, e.isWriteBlk = false ∧ e.isWriteInode = false) ∧
        segs.length ≤ fs.super.s_reserved_gdt_blocks ∧
        SlotSegments (slot_block fs) (slot_index fs) 0 segs ∧
        (∀ s ∈ segs, ∀ e ∈ s, e.isWriteInode = false) ∧
        (r.2.dindir_dirty = true →
          ∃ e, wd = [Event.write_blk r.2.dindir_blk Buf.dindir_buf e]) ∧
        (r.2.dindir_dirty = false → wd = []) ∧
        (r.2.inode_dirty = true → ∃ t e, wi = [Event.time t, Event.write_inode e] ∧
          r.2.inode.i_atime = t % U32 ∧ r.2.inode.i_mtime = t % U32) ∧
        (r.2.inode_dirty = false → wi = []) ∧
        (fs.super.s_first_data_block + 1 + fs.desc_blocks +
            fs.super.s_reserved_gdt_blocks ≤ U32 →
          ∀ i j, i < j → j < fs.super.s_reserved_gdt_blocks →
            slot_block fs i < slot_block fs j) := by
    intro tr htr hw hd hi
    refine ⟨tr, [], [], [], [], by rw [htr]; simp, hw, by simp, Nat.zero_le _, trivial,
      by simp, ?_, fun _ => rfl, ?_, fun _ => rfl, hinc⟩
    · intro h; rw [hd] at h; exact absurd h (by simp)
    · intro h; rw [hi] at h; exact absurd h (by simp)
  rcases run_exits fuel env fs blocks ino r hrun with
    ⟨-, -, -, hd, hi, hc⟩ | ⟨-, -, mi, rv, ml, h3, h4, rfl⟩
  · rcases hc with ⟨-, -, ht⟩ | ⟨-, -, -, ht⟩ | ⟨-, -, hc⟩
    · exact early _ ht (by simp) hd hi
    · exact early _ ht (by simp) hd hi
    · rcases hc with ⟨-, ht⟩ | ⟨-, ht⟩ | ⟨-, -, -, ht⟩ | ⟨-, -, -, b, ht⟩
      · exact early _ ht (by simp [Event.isWriteBlk, Event.isWriteInode]) hd hi
      · exact early _ ht (by simp [Event.isWriteBlk, Event.isWriteInode]) hd hi
      · exact early _ ht (by simp [Event.isWriteBlk, Event.isWriteInode]) hd hi
      · exact early _ ht (by simp [Event.isWriteBlk, Event.isWriteInode]) hd hi
  · obtain ⟨segs, st, sl, ss⟩ := slot_loop_segments fuel env _ _ _ _ _ mi rv ml h4
    obtain ⟨wd, wi, a, b, o1, o2, o3, o4, o5⟩ := out_dindir_shape env rv ml
    obtain ⟨-, f2, -, f4, f5, -⟩ := out_dindir_frame env rv ml
    have hB : gdt_blk_at ((fs.super.s_first_data_block + 1 + fs.desc_blocks % U32) % U32) =
        slot_block fs := funext (fun j => gdt_blk_at_slot fs j)
    have hI : (fun j => gdt_off_at (EXT2_ADDR_PER_BLOCK fs.super) (fs.desc_blocks % U32) j %
        EXT2_ADDR_PER_BLOCK fs.super % U32) = slot_index fs :=
      funext (fun j => gdt_off_at_slot fs j hlog)
    rw [hB, hI] at ss
    have hpre : ∀ e ∈ mi.trace, e.isWriteBlk = false ∧ e.isWriteInode = false := by
      rcases init_trace env fs blocks ino mi h3 with ⟨-, ht⟩ | ⟨-, blk, t, ht⟩
      · rw [ht]; simp [Event.isWriteBlk, Event.isWriteInode]
      · rw [ht]; simp [Event.isWriteBlk, Event.isWriteInode]
    refine ⟨mi.trace, segs, wd, [Event.msg_inode a b], wi, by rw [o1, st], hpre,
      by simp [Event.isWriteBlk, Event.isWriteInode], sl, ss,
      SlotSegments_noinode _ _ segs 0 ss, ?_, ?_, ?_, ?_, hinc⟩
    · rw [f4, f2]; exact o2
    · rw [f4]; exact o3
    · rw [f5]; exact o4
    · rw [f5]; exact o5

/-- C13, witness: the scenario of the spec, where both slots are set up, the
double-indirect block and the inode are dirty, and the addresses 3 and 4 of
the primary blocks increase. -/
theorem flush_order_witness :
    scenarioFs.super.s_log_block_size ≤ 20 ∧
    ∃ (pre : List Event) (segs : List (List Event)) (wd msg wi : List Event),
      scenarioResult.2.trace = pre ++ segs.flatten ++ (wd ++ msg ++ wi) ∧
      (∀ e ∈ pre, e.isWriteBlk = false ∧ e.isWriteInode = false) ∧
      (∀ e ∈ msg, e.isWriteBlk = false ∧ e.isWriteInode = false) ∧
      segs.length ≤ scenarioFs.super.s_reserved_gdt_blocks ∧
      SlotSegments (slot_block scenarioFs) (slot_index scenarioFs) 0 segs ∧
      (∀ s ∈ segs, ∀ e ∈ s, e.isWriteInode = false) ∧
      (scenarioResult.2.dindir_dirty = true →
        ∃ e, wd = [Event.write_blk scenarioResult.2.dindir_blk Buf.dindir_buf e]) ∧
      (scenarioResult.2.dindir_dirty = false → wd = []) ∧
      (scenarioResult.2.inode_dirty = true → ∃ t e, wi = [Event.time t, Event.write_inode e] ∧
        scenarioResult.2.inode.i_atime = t % U32 ∧ scenarioResult.2.inode.i_mtime = t % U32) ∧
      (scenarioResult.2.inode_dirty = false → wi = []) ∧
      (scenarioFs.super.s_first_data_block + 1 + scenarioFs.desc_blocks +
          scenarioFs.super.s_reserved_gdt_blocks ≤ U32 →
        ∀ i j, i < j → j < scenarioFs.super.s_reserved_gdt_blocks →
          slot_block scenarioFs i < slot_block scenarioFs j) :=
  ⟨by decide, flush_order 10 (okEnv 38 1000) scenarioFs (fun _ _ => 0) zeroInode
    scenarioResult rfl (by decide)⟩

/-- C13, counterexample: with first data block `2^32 - 3` the run succeeds
and writes the primary block of slot 0 at address `2^32 - 1` and then the
one of slot 1 at address 0: the addresses of the block writes do not
increase. -/
theorem flush_order_counterexample :
    ext2fs_create_resize_inode 10 (okEnv 38 1000)
        (initMachine wrapFs (fun _ _ => 0) zeroInode) = some wrapResult ∧
    wrapResult.1 = 0 ∧
    wrapResult.2.trace[9]? = some (Event.write_blk 4294967295 Buf.gdt_buf 0) ∧
    wrapResult.2.trace[14]? = some (Event.write_blk 0 Buf.gdt_buf 0) ∧
    slot_block wrapFs 0 = 4294967295 ∧ slot_block wrapFs 1 = 0 :=
  ⟨rfl, by decide, by decide, by decide, by decide, by decide⟩

/-! ## C14: the running variables -/

/-- C14: at the iteration number `i` of the slot loop the running variables
are the closed forms of the spec, whatever earlier iterations did.  The
recursion of the running variables has these closed forms: the index examined
is `(desc_blocks + i) mod apb` and the expected primary address is
`(first_data_block + 1 + desc_blocks + i) mod 2^32`.  Every message a run
prints about a primary block carries the address and the index of a slot
`i < reserved_gdt_blocks` in these closed forms.  From every state, once `i`
iterations have returned 0, the loop of `N` slots runs the body of a slot
with exactly this index and this address.  And the log of a run is the log of
the initializer, then the logs of the iterations 0, 1, ... that were executed
(all `N` when the run returns 0), then the final flushes; the log of
iteration `i` starts with the message that names the address, and the index,
of slot `i` in these closed forms, and holds only events of this slot. -/

theorem slot_address_determinism (fuel : Nat) (env : Env) (fs : ext2_filsys)
    (blocks : Nat → Nat → Nat) (ino : ext2_inode) (r : Int × Machine)
    (hrun : ext2fs_create_resize_inode fuel env (initMachine fs blocks ino) = some r)
    (hlog : fs.super.s_log_block_size ≤ 20) :
    (∀ i, gdt_off_at (EXT2_ADDR_PER_BLOCK fs.super) (fs.desc_blocks % U32) i %
          EXT2_ADDR_PER_BLOCK fs.super % U32 =
        (fs.desc_blocks + i) % EXT2_ADDR_PER_BLOCK fs.super ∧
      gdt_blk_at ((fs.super.s_first_data_block + 1 + fs.desc_blocks % U32) % U32) i =
        (fs.super.s_first_data_block + 1 + fs.desc_blocks + i) % U32) ∧
    (∀ b d o, Event.dbg_added_primary b d o ∈ r.2.trace →
      ∃ i, i < fs.super.s_reserved_gdt_blocks ∧
        o = (fs.desc_blocks + i) % EXT2_ADDR_PER_BLOCK fs.super ∧
        b = (fs.super.s_first_data_block + 1 + fs.desc_blocks + i) % U32) ∧
    (∀ f b d o, Event.msg_bad_primary f b d o ∈ r.2.trace →
      ∃ i, i < fs.super.s_reserved_gdt_blocks ∧
        o = (fs.desc_blocks + i) % EXT2_ADDR_PER_BLOCK fs.super ∧
        b = (fs.super.s_first_data_block + 1 + fs.desc_blocks + i) % U32) ∧
    (∀ b, Event.msg_reading_primary b ∈ r.2.trace →
      ∃ i, i < fs.super.s_reserved_gdt_blocks ∧
        b = (fs.super.s_first_data_block + 1 + fs.desc_blocks + i) % U32) ∧
    (∀ (m : Machine) (i : Nat) (mj : Machine), i < fs.super.s_reserved_gdt_blocks →
      slot_loop fuel env (fs.blocksize / 512) (EXT2_ADDR_PER_BLOCK fs.super) i
        (fs.desc_blocks % U32)
        ((fs.super.s_first_data_block + 1 + fs.desc_blocks % U32) % U32) m = some (0, mj) →
      slot_loop fuel env (fs.blocksize / 512) (EXT2_ADDR_PER_BLOCK fs.super)
          fs.super.s_reserved_gdt_blocks (fs.desc_blocks % U32)
          ((fs.super.s_first_data_block + 1 + fs.desc_blocks % U32) % U32) m =
        match slot_body fuel env (fs.blocksize / 512) (EXT2_ADDR_PER_BLOCK fs.super)
            ((fs.desc_blocks + i) % EXT2_ADDR_PER_BLOCK fs.super)
            ((fs.super.s_first_data_block + 1 + fs.desc_blocks + i) % U32) mj with
        | none => none
        | some (retval, m') =>
          if retval ≠ 0 then some (retval, m')
          else slot_loop fuel env (fs.blocksize / 512) (EXT2_ADDR_PER_BLOCK fs.super)
            (fs.super.s_reserved_gdt_blocks - (i + 1))
            (gdt_off_at (EXT2_ADDR_PER_BLOCK fs.super) (fs.desc_blocks % U32) (i + 1))
            (gdt_blk_at ((fs.super.s_first_data_block + 1 + fs.desc_blocks % U32) % U32)
              (i + 1)) m') ∧
    (∃ (pre : List Event) (segs : List (List Event)) (post : List Event),
      r.2.trace = pre ++ segs.flatten ++ post ∧
      (∀ e ∈ pre, ∀ b o, e.isSlotOf b o = false) ∧
      (∀ e ∈ post, ∀ b o, e.isSlotOf b o = false) ∧
      segs.length ≤ fs.super.s_reserved_gdt_blocks ∧
      (r.1 = 0 → segs.length = fs.super.s_reserved_gdt_blocks) ∧
      ∀ i s, segs[i]? = some s → ∃ e t, s = e :: t ∧
        (e = Event.dbg_added_primary
              ((fs.super.s_first_data_block + 1 + fs.desc_blocks + i) % U32) r.2.dindir_blk
              ((fs.desc_blocks + i) % EXT2_ADDR_PER_BLOCK fs.super) ∨
          e = Event.msg_reading_primary
              ((fs.super.s_first_data_block + 1 + fs.desc_blocks + i) % U32) ∨
          ∃ f, e = Event.msg_bad_primary f
              ((fs.super.s_first_data_block + 1 + fs.desc_blocks + i) % U32) r.2.dindir_blk
              ((fs.desc_blocks + i) % EXT2_ADDR_PER_BLOCK fs.super)) ∧
        ∀ x ∈ s, x.isSlotOf ((fs.super.s_first_data_block + 1 + fs.desc_blocks + i) % U32)
          ((fs.desc_blocks + i) % EXT2_ADDR_PER_BLOCK fs.super) = true) := by
  refine ⟨fun i => ⟨gdt_off_at_slot fs i hlog, gdt_blk_at_slot fs i⟩, ?_⟩
  have key : ∀ e, e ∈ r.2.trace →
      (∀ x, e ≠ Event.get_mem x) → (∀ x, e ≠ Event.read_inode x) → e.isInit = false →
      e.isOut = false →
      ∃ i, i < fs.super.s_reserved_gdt_blocks ∧
        e.isSlotOf (slot_block fs i) (slot_index fs i) = true := by
    intro e he h1 h2 h3 h4
    rcases run_exits fuel env fs blocks ino r hrun with
      ⟨-, -, -, -, -, hc⟩ | ⟨-, hN, mi, rv, ml, h5, h6, rfl⟩
    · exfalso
      rcases hc with ⟨-, -, ht⟩ | ⟨-, -, -, ht⟩ | ⟨-, -, hc⟩
      · rw [ht] at he; simp at he
      · rw [ht] at he; simp at he
      · rcases hc with ⟨-, ht⟩ | ⟨-, ht⟩ | ⟨-, -, -, ht⟩ | ⟨-, -, -, b, ht⟩
        all_goals rw [ht] at he
        all_goals simp only [List.mem_cons, List.mem_singleton, List.not_mem_nil, or_false] at he
        · exact h1 _ he
        · rcases he with he | he
          · exact h1 _ he
          · exact h2 _ he
        · rcases he with he | he | he | he | he
          · exact h1 _ he
          · exact h2 _ he
          · rw [he] at h3; simp [Event.isInit] at h3
          · rw [he] at h3; simp [Event.isInit] at h3
          · rw [he] at h4; simp [Event.isOut] at h4
        · rcases he with he | he | he
          · exact h1 _ he
          · exact h2 _ he
          · rw [he] at h3; simp [Event.isInit] at h3
    · obtain ⟨-, -, -, -, -, -, -, -, -, f10, -⟩ := init_dindir_inr env _ _ _ mi h5
      obtain ⟨suf, F, -, cls, -⟩ := loop_summary fuel env fs mi rv ml h6 f10 hlog
      obtain ⟨osuf, o1, o2, -⟩ := out_dindir_trace env rv ml
      rw [o1, F.trace_eq, List.append_assoc] at he
      rcases List.mem_append.1 he with he | he
      · exfalso
        rcases init_trace env fs blocks ino mi h5 with ⟨-, ht⟩ | ⟨-, blk, t, ht⟩
        all_goals rw [ht] at he
        all_goals simp only [List.mem_cons, List.mem_singleton, List.not_mem_nil, or_false] at he
        · rcases he with he | he | he | he
          · exact h1 _ he
          · exact h2 _ he
          · rw [he] at h3; simp [Event.isInit] at h3
          · rw [he] at h3; simp [Event.isInit] at h3
        · rcases he with he | he | he | he | he
          · exact h1 _ he
          · exact h2 _ he
          · rw [he] at h3; simp [Event.isInit] at h3
          · rw [he] at h3; simp [Event.isInit] at h3
          · rw [he] at h3; simp [Event.isInit] at h3
      · rcases List.mem_append.1 he with he | he
        · exact cls e he
        · exact absurd (o2 e he) (by rw [h4]; simp)
  refine ⟨?_, ?_, ?_, slot_loop_iteration fuel env fs hlog,
    run_iterations fuel env fs blocks ino r hrun hlog⟩
  · intro b d o h
    obtain ⟨i, hi, hc⟩ := key _ h (by simp) (by simp) rfl rfl
    obtain ⟨rfl, rfl⟩ := isSlotOf_added _ _ _ _ _ hc
    exact ⟨i, hi, rfl, rfl⟩
  · intro f b d o h
    obtain ⟨i, hi, hc⟩ := key _ h (by simp) (by simp) rfl rfl
    obtain ⟨rfl, rfl⟩ := isSlotOf_bad _ _ _ _ _ _ hc
    exact ⟨i, hi, rfl, rfl⟩
  · intro b h
    obtain ⟨i, hi, hc⟩ := key _ h (by simp) (by simp) rfl rfl
    have := isSlotOf_reading _ _ _ hc
    exact ⟨i, hi, this⟩

/-- C14, witness: the scenario of the spec, whose two slots are at indices
1 and 2 with the addresses 3 and 4. -/
theorem slot_address_determinism_witness :
    Event.dbg_added_primary 3 38 1 ∈ scenarioResult.2.trace ∧
    Event.dbg_added_primary 4 38 2 ∈ scenarioResult.2.trace ∧
    ∀ b d o, Event.dbg_added_primary b d o ∈ scenarioResult.2.trace →
      ∃ i, i < scenarioFs.super.s_reserved_gdt_blocks ∧
        o = (scenarioFs.desc_blocks + i) % EXT2_ADDR_PER_BLOCK scenarioFs.super ∧
        b = (scenarioFs.super.s_first_data_block + 1 + scenarioFs.desc_blocks + i) % U32 :=
  ⟨by decide, by decide, (slot_address_determinism 10 (okEnv 38 1000) scenarioFs
    (fun _ _ => 0) zeroInode scenarioResult rfl (by decide)).2.1⟩

/-! ## C15: the sequence of the backup groups -/

/-- C15: with the enumerator behaving as specified (it returns the minimum
of the three counters and multiplies it by 3, 5 or 7), for every group count
`G` the groups visited for a slot are the list `canonical_groups G`: the
numbers below `G` that are 1 or a positive power of 3, 5 or 7, in ascending
order, never 0; for group count 5 it is `[1, 3]`.  The enumerator, started
from the seeds `1, 5, 7`, returns the members of this list in this order and
then a group that is not below `G`.  And for every slot and from every state
the body of the slot, which starts the enumerator from the seeds `1, 5, 7`, is:
resolve the primary block, run the Backup Replicator over this list from
entry 0, write the block when it is dirty; so the list is the same for every
slot. -/
theorem backup_sequence (env : Env) (G : Nat) (henv : EnumAsSpecified env G) :
    (canonical_groups G).Sorted (· < ·) ∧
    (∀ g, g ∈ canonical_groups G ↔
      g < G ∧ (g = 1 ∨ ∃ x, 0 < x ∧ (g = 3 ^ x ∨ g = 5 ^ x ∨ g = 7 ^ x))) ∧
    0 ∉ canonical_groups G ∧
    (G = 5 → canonical_groups G = [1, 3]) ∧
    (∀ fs : ext2_filsys, fs.group_desc_count = G →
      (List.range (canonical_groups G).length).map (backup_group env fs) = canonical_groups G ∧
      ¬ backup_group env fs (canonical_groups G).length < G) ∧
    (∀ (fuel rsv apb off blk : Nat) (m : Machine) (r b : Int × Bool × Machine),
      m.fs.group_desc_count = G → (canonical_groups G).length < fuel →
      resolve_primary env rsv (off % apb % U32) blk m = r →
      replicate_backups blk rsv (canonical_groups G) 0 r.2.1 r.2.2 = b →
      slot_body fuel env rsv apb off blk m =
        if r.1 ≠ 0 then some (r.1, r.2.2)
        else if b.1 ≠ 0 then some (b.1, b.2.2)
        else some (flush_primary env blk b.2.1 b.2.2)) := by
  have hmem : ∀ g, g ∈ canonical_groups G ↔
      g < G ∧ (g = 1 ∨ ∃ x, 0 < x ∧ (g = 3 ^ x ∨ g = 5 ^ x ∨ g = 7 ^ x)) := by
    intro g
    simp only [canonical_groups, List.mem_filter, List.mem_range, isBackupGroup_iff]
    constructor
    · rintro ⟨h1, ⟨x, hx⟩ | ⟨x, hx⟩ | ⟨x, hx⟩⟩
      · cases x with
        | zero => exact ⟨h1, Or.inl hx⟩
        | succ x => exact ⟨h1, Or.inr ⟨x + 1, by omega, Or.inl hx⟩⟩
      · exact ⟨h1, Or.inr ⟨x + 1, by omega, Or.inr (Or.inl hx)⟩⟩
      · exact ⟨h1, Or.inr ⟨x + 1, by omega, Or.inr (Or.inr hx)⟩⟩
    · rintro ⟨h1, h | ⟨x, hx, h | h | h⟩⟩
      · exact ⟨h1, Or.inl ⟨0, h⟩⟩
      · exact ⟨h1, Or.inl ⟨x, h⟩⟩
      · obtain ⟨y, rfl⟩ : ∃ y, x = y + 1 := ⟨x - 1, by omega⟩
        exact ⟨h1, Or.inr (Or.inl ⟨y, h⟩)⟩
      · obtain ⟨y, rfl⟩ : ∃ y, x = y + 1 := ⟨x - 1, by omega⟩
        exact ⟨h1, Or.inr (Or.inr ⟨y, h⟩)⟩
  have hvis : ∀ fs : ext2_filsys, fs.group_desc_count = G →
      (List.range (canonical_groups G).length).map (backup_group env fs) = canonical_groups G ∧
      (∀ i, i < (canonical_groups G).length → backup_group env fs i < fs.group_desc_count) ∧
      ¬ backup_group env fs (canonical_groups G).length < fs.group_desc_count := by
    intro fs hfs
    have := visited_canonical env fs (by rw [hfs]; exact henv)
    rw [hfs] at this
    rw [hfs]
    exact this
  refine ⟨(List.sorted_lt_range _).filter _, hmem, ?_, ?_, ?_, ?_⟩
  · intro h0
    simp only [canonical_groups, List.mem_filter] at h0
    exact absurd h0.2 (by decide)
  · intro h5
    rw [h5]; decide
  · intro fs hfs
    obtain ⟨v1, -, v3⟩ := hvis fs hfs
    rw [hfs] at v3
    exact ⟨v1, v3⟩
  · intro fuel rsv apb off blk m r b hG hfuel hr hb
    obtain ⟨s0, F0, -⟩ := resolve_primary_Frame env rsv (off % apb % U32) blk m r.1 r.2.1 r.2.2
      (by rw [hr])
    have hfs : r.2.2.fs.group_desc_count = G := by rw [F0.fs_eq]; exact hG
    obtain ⟨v1, v2, v3⟩ := hvis r.2.2.fs hfs
    have hloop := backup_loop_replicate env blk rsv (canonical_groups G).length fuel 1 5 7 0
      r.2.1 r.2.2 hfuel v2 v3
    have hlist : (List.range (canonical_groups G).length).map (grpFrom env r.2.2.fs (1, 5, 7)) =
        canonical_groups G := v1
    rw [hlist, hb] at hloop
    simp only [slot_body]
    rw [hr]
    by_cases h1 : r.1 ≠ 0
    · rw [if_pos h1, if_pos h1]
    · rw [if_neg h1, if_neg h1, hloop]

/-- C15, witness: the enumerator of the scenario of the spec behaves as
specified for 5 groups, and the groups it returns for a slot are `[1, 3]`. -/
theorem backup_sequence_witness :
    EnumAsSpecified (okEnv 38 1000) 5 ∧
    canonical_groups 5 = [1, 3] ∧
    (List.range (canonical_groups 5).length).map (backup_group (okEnv 38 1000) scenarioFs) =
      canonical_groups 5 ∧
    ¬ backup_group (okEnv 38 1000) scenarioFs (canonical_groups 5).length < 5 :=
  ⟨okEnv_as_specified 38 1000 5 (by decide),
    (backup_sequence (okEnv 38 1000) 5 (okEnv_as_specified 38 1000 5 (by decide))).2.2.2.1 rfl,
    ((backup_sequence (okEnv 38 1000) 5
      (okEnv_as_specified 38 1000 5 (by decide))).2.2.2.2.1 scenarioFs rfl).1,
    ((backup_sequence (okEnv 38 1000) 5
      (okEnv_as_specified 38 1000 5 (by decide))).2.2.2.2.1 scenarioFs rfl).2⟩

/-! ## C16: more slots than addresses per block -/

/-- C16: with more reserved slots than addresses per block (and an expected
address of slot 0 that is not 0 modulo 2^32) the function never returns
success: slot number `apb` has the index of slot 0 and another expected
address.  With at most `apb` slots the indices of distinct slots are
distinct. -/
theorem overfull_never_succeeds (fuel : Nat) (env : Env) (fs : ext2_filsys)
    (blocks : Nat → Nat → Nat) (ino : ext2_inode) (r : Int × Machine)
    (hrun : ext2fs_create_resize_inode fuel env (initMachine fs blocks ino) = some r)
    (hlog : fs.super.s_log_block_size ≤ 20) :
    (EXT2_ADDR_PER_BLOCK fs.super < fs.super.s_reserved_gdt_blocks → slot_block fs 0 ≠ 0 →
      r.1 ≠ 0 ∧
      slot_index fs (EXT2_ADDR_PER_BLOCK fs.super) = slot_index fs 0 ∧
      slot_block fs (EXT2_ADDR_PER_BLOCK fs.super) ≠ slot_block fs 0) ∧
    (fs.super.s_reserved_gdt_blocks ≤ EXT2_ADDR_PER_BLOCK fs.super →
      ∀ i j, i < j → j < fs.super.s_reserved_gdt_blocks → slot_index fs i ≠ slot_index fs j) := by
  constructor
  · intro hN hnz
    have hpos := apb_pos fs.super
    have hlt := apb_lt fs.super hlog
    refine ⟨?_, ?_, ?_⟩
    · intro hok
      have hN0 : fs.super.s_reserved_gdt_blocks ≠ 0 := by omega
      obtain ⟨-, -, -, mi, ml, -, h4, -⟩ :=
        run_success_inv fuel env fs blocks ino r hrun hok hN0
      have hb0 : (fs.super.s_first_data_block + 1 + fs.desc_blocks % U32) % U32 =
          slot_block fs 0 := gdt_blk_at_slot fs 0
      exact slot_loop_overfull fuel env _ _ hpos (apb_dvd fs.super hlog) hlt _ _ _ mi 0 ml
        (Nat.mod_lt _ U32_pos) (by rw [hb0]; exact hnz) hN h4 rfl
    · simp only [slot_index, Nat.add_zero, Nat.add_mod_right]
    · have := hlt
      simp only [slot_block, U32] at *
      omega
  · intro hN i j hij hj
    exact slot_index_inj fs i j hij (by omega)

set_option maxRecDepth 100000 in
set_option maxHeartbeats 2000000 in
/-- C16, witness: the scenario of the spec with 257 slots and 256 addresses
per block: the run returns an error. -/
theorem overfull_never_succeeds_witness :
    ext2fs_create_resize_inode 10 (okEnv 300 1000)
        (initMachine overfullFs (fun _ _ => 0) zeroInode) = some overfullResult ∧
    overfullResult.1 ≠ 0 :=
  ⟨rfl, ((overfull_never_succeeds 10 (okEnv 300 1000) overfullFs (fun _ _ => 0) zeroInode
    overfullResult rfl (by decide)).1 (by decide) (by decide)).1⟩

/-! ## C17: no buffer access is out of range -/

/-- C17: with the enumerator as specified and `7 * group_desc_count < 2^32`,
the number `n` of groups the `while` loop of a slot visits is at most 45, and
there are at least 256 addresses per block.  With more fuel than 45 the loop,
started as every slot starts it (seeds `1, 5, 7`, entry 0), returns; it
leaves every entry of the primary block from `n` on as it was, and its
result does not depend on these entries: only the entries below `n` are read
or written.  The whole run returns as well, every index of the
double-indirect block it logs is below the addresses per block, and so is
the index `(desc_blocks + i) mod addresses_per_block` of every slot. -/
theorem backup_loop_in_range (env : Env) (fs : ext2_filsys)
    (henv : env.list_backups = ext2fs_list_backups)
    (hg : 7 * fs.group_desc_count < U32) :
    256 ≤ EXT2_ADDR_PER_BLOCK fs.super ∧
    (∀ i, slot_index fs i < EXT2_ADDR_PER_BLOCK fs.super) ∧
    (∀ i, gdt_off_at (EXT2_ADDR_PER_BLOCK fs.super) (fs.desc_blocks % U32) i %
      EXT2_ADDR_PER_BLOCK fs.super % U32 < EXT2_ADDR_PER_BLOCK fs.super) ∧
    ∃ n, n ≤ 45 ∧ n < EXT2_ADDR_PER_BLOCK fs.super ∧
      (∀ i, i < n → backup_group env fs i < fs.group_desc_count) ∧
      ¬ backup_group env fs n < fs.group_desc_count ∧
      (∀ (fuel blk rsv : Nat) (d : Bool) (m : Machine), 45 < fuel →
        m.fs.group_desc_count = fs.group_desc_count →
        ∃ (rv : Int) (d' : Bool) (m' : Machine),
          backup_loop env blk rsv fuel 1 5 7 0 d m = some (rv, d', m') ∧
          (∀ x, n ≤ x → m'.gdt_buf x = m.gdt_buf x) ∧
          (∀ buf : Nat → Nat, (∀ x, x < n → buf x = m.gdt_buf x) →
            ∃ buf' : Nat → Nat,
              backup_loop env blk rsv fuel 1 5 7 0 d { m with gdt_buf := buf } =
                some (rv, d', { m' with gdt_buf := buf' }) ∧
              ∀ x, x < n → buf' x = m'.gdt_buf x)) ∧
      (∀ (fuel : Nat) (blocks : Nat → Nat → Nat) (ino : ext2_inode), 45 < fuel →
        ∃ r, ext2fs_create_resize_inode fuel env (initMachine fs blocks ino) = some r ∧
          ∀ e ∈ r.2.trace, ∀ b d o,
            (e = Event.dbg_added_primary b d o ∨ ∃ f, e = Event.msg_bad_primary f b d o) →
            o < EXT2_ADDR_PER_BLOCK fs.super) := by
  have hapb : 256 ≤ EXT2_ADDR_PER_BLOCK fs.super := by
    rw [apb_eq]
    calc 256 = 2 ^ 8 := by norm_num
      _ ≤ 2 ^ (8 + fs.super.s_log_block_size) := Nat.pow_le_pow_right (by decide) (by omega)
  obtain ⟨n, hn, hlt, hge, -⟩ := seq_summary env fs henv hg
  have hsame : ∀ fs' : ext2_filsys, fs'.group_desc_count = fs.group_desc_count →
      ∀ k, (backup_group env fs' k < fs'.group_desc_count ↔
        backup_group env fs k < fs.group_desc_count) := by
    intro fs' h k
    rw [backup_group_spec env fs' henv, backup_group_spec env fs henv, h]
  refine ⟨hapb, fun i => Nat.mod_lt _ (apb_pos fs.super),
    fun i => Nat.lt_of_le_of_lt (Nat.mod_le _ _) (Nat.mod_lt _ (apb_pos fs.super)),
    n, by omega, by omega, hlt, hge, ?_, ?_⟩
  · intro fuel blk rsv d m hf hm
    have hstop : ¬ grpFrom env m.fs (1, 5, 7) n < m.fs.group_desc_count :=
      fun h => hge ((hsame m.fs hm n).1 h)
    obtain ⟨rv, d', m', -, e1, -, -⟩ := backup_loop_local env blk rsv n fuel 1 5 7 0 d m
      m.gdt_buf (by omega) hstop (fun _ _ => rfl)
    refine ⟨rv, d', m', e1, ?_, ?_⟩
    · intro x hx
      exact backup_loop_beyond env blk rsv n fuel 1 5 7 0 d m (rv, d', m') hstop e1 x
        (by omega)
    · intro buf hb
      obtain ⟨rv2, d2, m2, buf', f1, f2, f3⟩ := backup_loop_local env blk rsv n fuel 1 5 7 0 d
        m buf (by omega) hstop (by intro x hx; rw [Nat.zero_add]; exact hb x hx)
      rw [e1] at f1
      simp only [Option.some.injEq, Prod.mk.injEq] at f1
      obtain ⟨rfl, rfl, rfl⟩ := f1
      exact ⟨buf', f2, by intro x hx; have := f3 x hx; rw [Nat.zero_add] at this; exact this⟩
  · intro fuel blocks ino hf
    obtain ⟨r, hr⟩ := run_total fuel env fs blocks ino n (by omega)
      (fun fs' h hlt' => hge ((hsame fs' h n).1 hlt'))
    exact ⟨r, hr, run_primary_index fuel env fs blocks ino r hr⟩

/-- C17, witness: the scenario of the spec (five groups, 256 addresses per
block): a slot visits at most 45 groups and the run with fuel 46 returns. -/
theorem backup_loop_in_range_witness :
    7 * scenarioFs.group_desc_count < U32 ∧
    256 ≤ EXT2_ADDR_PER_BLOCK scenarioFs.super ∧
    ∃ n, n ≤ 45 ∧ ¬ backup_group (okEnv 38 1000) scenarioFs n < scenarioFs.group_desc_count ∧
      ∃ r, ext2fs_create_resize_inode 46 (okEnv 38 1000)
        (initMachine scenarioFs (fun _ _ => 0) zeroInode) = some r :=
  ⟨by decide, (backup_loop_in_range (okEnv 38 1000) scenarioFs rfl (by decide)).1,
    (backup_loop_in_range (okEnv 38 1000) scenarioFs rfl (by decide)).2.2.2.imp
      (fun _ h => ⟨h.1, h.2.2.2.1,
        (h.2.2.2.2.2 46 (fun _ _ => 0) zeroInode (by decide)).imp (fun _ hr => hr.1)⟩)⟩

/-! ## C18: the large-file flag -/

/-- C18: the function changes nothing of the handle but the read-only
compatible feature flags, and those only by OR-ing in the large-file bit
(every other bit keeps its value, the bit is never cleared); it does so
exactly when the log records a successful allocation of the double-indirect
block and the high 32 bits of the computed size are not zero; for a block
size that is a power of two from 1024 to 65536 the high half is not zero
exactly when the block size is at least 4096. -/
theorem large_file_flag (fuel : Nat) (env : Env) (fs : ext2_filsys)
    (blocks : Nat → Nat → Nat) (ino : ext2_inode) (r : Int × Machine)
    (hrun : ext2fs_create_resize_inode fuel env (initMachine fs blocks ino) = some r) :
    r.2.fs = { fs with super :=
      { fs.super with s_feature_ro_compat := r.2.fs.super.s_feature_ro_compat } } ∧
    (((∃ g b, Event.alloc_block g 0 b ∈ r.2.trace) ∧ inode_size fs / U32 % U32 ≠ 0) →
      r.2.fs.super.s_feature_ro_compat =
        fs.super.s_feature_ro_compat ||| EXT2_FEATURE_RO_COMPAT_LARGE_FILE) ∧
    (¬ ((∃ g b, Event.alloc_block g 0 b ∈ r.2.trace) ∧ inode_size fs / U32 % U32 ≠ 0) →
      r.2.fs.super.s_feature_ro_compat = fs.super.s_feature_ro_compat) ∧
    (∀ i, (fs.super.s_feature_ro_compat ||| EXT2_FEATURE_RO_COMPAT_LARGE_FILE).testBit i =
      (fs.super.s_feature_ro_compat.testBit i || decide (i = 1))) ∧
    (fs.super.s_log_block_size ≤ 6 → fs.blocksize = 1024 <<< fs.super.s_log_block_size →
      (inode_size fs / U32 % U32 ≠ 0 ↔ 4096 ≤ fs.blocksize)) := by
  have hbit : ∀ i, (fs.super.s_feature_ro_compat ||| EXT2_FEATURE_RO_COMPAT_LARGE_FILE).testBit i
      = (fs.super.s_feature_ro_compat.testBit i || decide (i = 1)) := by
    intro i
    rw [Nat.testBit_or, show EXT2_FEATURE_RO_COMPAT_LARGE_FILE = 2 ^ 1 by rfl,
      Nat.testBit_two_pow]
    congr 1
    simp only [eq_comm]
  have hsz : fs.super.s_log_block_size ≤ 6 →
      fs.blocksize = 1024 <<< fs.super.s_log_block_size →
      (inode_size fs / U32 % U32 ≠ 0 ↔ 4096 ≤ fs.blocksize) :=
    fun h1 h2 => (inode_size_value fs h1 h2).2.2
  rcases run_fs fuel env fs blocks ino r hrun with ⟨hex, hfs⟩ | ⟨hex, -, hfs⟩
  · refine ⟨by rw [hfs], fun h => absurd h.1 hex, fun _ => by rw [hfs], hbit, hsz⟩
  · by_cases hh : inode_size fs / U32 % U32 ≠ 0
    · have : r.2.fs = { fs with super := { fs.super with s_feature_ro_compat :=
          fs.super.s_feature_ro_compat ||| EXT2_FEATURE_RO_COMPAT_LARGE_FILE } } := by
        rw [hfs]; simp only [fsAfterAlloc]; rw [if_pos hh]
      refine ⟨by rw [this], fun _ => by rw [this], fun h => absurd ⟨hex, hh⟩ h, hbit, hsz⟩
    · have : r.2.fs = fs := by
        rw [hfs]; simp only [fsAfterAlloc]; rw [if_neg hh]
      refine ⟨by rw [this], fun h => absurd h.2 hh, fun _ => by rw [this], hbit, hsz⟩

/-- C18, witness: the scenario of the spec (block size 1024): the flags are
unchanged. -/
theorem large_file_flag_witness :
    scenarioResult.2.fs.super.s_feature_ro_compat = scenarioFs.super.s_feature_ro_compat ∧
    scenarioResult.2.fs = { scenarioFs with super :=
      { scenarioFs.super with
        s_feature_ro_compat := scenarioResult.2.fs.super.s_feature_ro_compat } } :=
  ⟨by decide, (large_file_flag 10 (okEnv 38 1000) scenarioFs (fun _ _ => 0) zeroInode
    scenarioResult rfl).1⟩

/-! ## C19: an inode that has its double-indirect block -/

/-- C19: when the stored resize inode already has a double-indirect pointer,
the function leaves the handle (the superblock with it) unchanged and leaves
the stored inode's mode, link count, size (low and high), creation time and
block pointers unchanged; a successful inode write stores the block-count
increased, modulo 2^32, by `blocksize / 512` per primary block newly created
and per backup entry newly written, and the new access and modify times;
without a successful inode write the stored inode is unchanged. -/
theorem existing_dindir_frame (fuel : Nat) (env : Env) (fs : ext2_filsys)
    (blocks : Nat → Nat → Nat) (ino : ext2_inode) (r : Int × Machine)
    (hrun : ext2fs_create_resize_inode fuel env (initMachine fs blocks ino) = some r)
    (hz : ino.i_block EXT2_DIND_BLOCK ≠ 0) :
    r.2.fs = fs ∧
    r.2.disk_inode.i_mode = ino.i_mode ∧ r.2.disk_inode.i_links_count = ino.i_links_count ∧
    r.2.disk_inode.i_size = ino.i_size ∧ r.2.disk_inode.i_size_high = ino.i_size_high ∧
    r.2.disk_inode.i_ctime = ino.i_ctime ∧ r.2.disk_inode.i_block = ino.i_block ∧
    (Event.write_inode 0 ∈ r.2.trace →
      r.2.disk_inode.i_blocks % U32 = (ino.i_blocks + fs.blocksize / 512 *
        (r.2.trace.countP Event.isNewPrimary + r.2.trace.countP Event.isNewBackup)) % U32) ∧
    (Event.write_inode 0 ∉ r.2.trace → r.2.disk_inode = ino) := by
  by_cases hread : Event.read_inode 0 ∈ r.2.trace
  · obtain ⟨h1, h2, h3⟩ := run_i_blocks fuel env fs blocks ino r hrun hread
    rcases h1 with ⟨-, h, -⟩ | ⟨-, hb, hfs, hi⟩
    · exact absurd h hz
    · by_cases hw : Event.write_inode 0 ∈ r.2.trace
      · have hd := h2 hw
        refine ⟨hfs, ?_, ?_, ?_, ?_, ?_, ?_, fun _ => by rw [hd]; exact hb,
          fun h => absurd hw h⟩ <;> rw [hd, hi]
      · have hd := h3 hw
        refine ⟨hfs, ?_, ?_, ?_, ?_, ?_, ?_, fun h => absurd h hw, fun _ => hd⟩ <;> rw [hd]
  · rcases run_exits fuel env fs blocks ino r hrun with
      ⟨e1, -, e3, -, -, hc⟩ | ⟨-, hN, mi, rv, ml, h3, h4, rfl⟩
    · refine ⟨e1, ?_, ?_, ?_, ?_, ?_, ?_, ?_, fun _ => e3⟩
      any_goals rw [e3]
      intro hw
      exfalso
      rcases hc with ⟨-, -, ht⟩ | ⟨-, -, -, ht⟩ | ⟨-, -, hc⟩
      · rw [ht] at hw; simp at hw
      · rw [ht] at hw; simp at hw
      · rcases hc with ⟨-, ht⟩ | ⟨-, ht⟩ | ⟨-, -, -, ht⟩ | ⟨-, -, -, b, ht⟩ <;>
          (rw [ht] at hw; simp at hw)
    · exfalso
      apply hread
      obtain ⟨suf, osuf, F, -, tr, -⟩ := loop_run_trace fuel env fs mi rv ml h4
      rw [tr]
      rcases init_trace env fs blocks ino mi h3 with ⟨-, ht⟩ | ⟨-, blk, t, ht⟩ <;>
        (rw [ht]; simp)

/-- C19, witness: the second run in the scenario of the spec, on an inode
that has its double-indirect pointer. -/
theorem existing_dindir_frame_witness :
    scenarioResult.2.disk_inode.i_block EXT2_DIND_BLOCK ≠ 0 ∧
    secondResult.2.fs = scenarioResult.2.fs ∧
    secondResult.2.disk_inode.i_mode = scenarioResult.2.disk_inode.i_mode :=
  ⟨by decide,
    (existing_dindir_frame 10 (okEnv 38 1000) scenarioResult.2.fs scenarioResult.2.blocks
      scenarioResult.2.disk_inode secondResult rfl (by decide)).1,
    (existing_dindir_frame 10 (okEnv 38 1000) scenarioResult.2.fs scenarioResult.2.blocks
      scenarioResult.2.disk_inode secondResult rfl (by decide)).2.1⟩

end ResGdt
